import Mathlib

/-!
# A shallow embedding of the intrusive red-black tree of rbtree.c

Nodes (struct rb_tree_node) are caller-owned records addressed by natural
number references; the heap maps every reference to the record stored
there.  A NULL pointer is modelled by the value none of Option Nat.  The
comparator is specialised to the three-way integer comparison used by the
repository's own test driver (rbtree_basic_test.c): negative when the
left key is smaller, zero on equality, positive otherwise.  The C while
loops run on explicit fuel; running out of fuel (or dereferencing a NULL
pointer, which is undefined behaviour in the C source) yields none.
-/

namespace Rbt

/-- Node color: COLOR_BLACK = 0, COLOR_RED = 1 in rbtree.c. -/
inductive Color where
  | black
  | red
deriving DecidableEq, Repr

/-- struct rb_tree_node of rbtree.h: left and right child, parent, key,
color.  Keys (const void pointers compared by the pluggable comparator)
are modelled as integers compared by the standard three-way comparison,
as in the repository's test driver. -/
structure Node where
  left : Option Nat
  right : Option Nat
  parent : Option Nat
  key : Int
  color : Color
deriving DecidableEq, Repr

/-- The caller-owned memory holding the node records, addressed by node
reference: an overlay list of writes (newest first).  An address that
was never written reads as a cleared record; a heap with arbitrary
initial contents is modelled by prepopulating the list. -/
abbrev Heap := List (Nat × Node)

/-- Read the record at address i. -/
def Heap.get : Heap → Nat → Node
  | [], _ => { left := none, right := none, parent := none, key := 0,
               color := Color.black }
  | (j, n) :: rest, i => if i = j then n else Heap.get rest i

/-- Write the record at address i. -/
def Heap.upd (h : Heap) (i : Nat) (n : Node) : Heap :=
  (i, n) :: h

def Heap.setLeft (h : Heap) (i : Nat) (x : Option Nat) : Heap :=
  h.upd i { h.get i with left := x }

def Heap.setRight (h : Heap) (i : Nat) (x : Option Nat) : Heap :=
  h.upd i { h.get i with right := x }

/-- RB_TREE_NODE_SET_PARENT (explicit-field encoding). -/
def Heap.setParent (h : Heap) (i : Nat) (x : Option Nat) : Heap :=
  h.upd i { h.get i with parent := x }

/-- RB_TREE_NODE_SET_COLOR (explicit-field encoding). -/
def Heap.setColor (h : Heap) (i : Nat) (c : Color) : Heap :=
  h.upd i { h.get i with color := c }

/-- struct rb_tree: the root reference, together with the cached extreme
pointers: leftmost is declared by rbtree.h's struct rb_tree, rightmost is
the field maintained by rbtree.c.  The comparator and its opaque state
are fixed to the integer comparison and are not part of the state. -/
structure Tree where
  root : Option Nat
  leftmost : Option Nat
  rightmost : Option Nat
deriving DecidableEq, Repr

/-- The full mutable state a call operates on: the tree handle plus the
caller-owned node heap. -/
structure St where
  tree : Tree
  heap : Heap
deriving DecidableEq

/-- The three-way key comparison (the test driver's comparator over
integer keys): negative, zero or positive. -/
def cmpI (lhs rhs : Int) : Int :=
  if lhs < rhs then -1 else if rhs < lhs then 1 else 0

/-- rb_tree_new / rb_tree_new_ex: sets root and rightmost to NULL.  The
leftmost field of the rbtree.h structure is never written by
rb_tree_new_ex, so it keeps whatever value the caller's memory held. -/
def rb_tree_new (t : Tree) : Tree :=
  { t with root := none, rightmost := none }

/-- rb_tree_empty: is_empty := (tree->root == NULL). -/
def rb_tree_empty (t : Tree) : Bool :=
  t.root = none

/-- The while loop of rb_tree_find: descend comparing the searched key
with each visited node's key.  Returns the final value of the C variable
node (the found node, or NULL when the descent fell off the tree);
none when the fuel runs out. -/
def findLoop (h : Heap) (key : Int) : Nat → Option Nat → Option (Option Nat)
  | 0, _ => none
  | _, none => some none
  | fuel + 1, some i =>
    let c := cmpI key (h.get i).key
    if c < 0 then
      findLoop h key fuel (h.get i).left
    else if c = 0 then
      some (some i)
    else
      findLoop h key fuel (h.get i).right

/-- rb_tree_find: returns some i when the key was found at node i, and
none for RB_NOT_FOUND (the outer Option is the fuel). -/
def rb_tree_find (s : St) (key : Int) (fuel : Nat) : Option (Option Nat) :=
  match s.tree.root with
  | none => some none
  | some _ => findLoop s.heap key fuel s.tree.root

/-- __helper_get_sibling. -/
def __helper_get_sibling (h : Heap) (i : Nat) : Option Nat :=
  match (h.get i).parent with
  | none => none
  | some p => if (h.get p).left = some i then (h.get p).right else (h.get p).left

/-- __helper_get_grandparent. -/
def __helper_get_grandparent (h : Heap) (i : Nat) : Option Nat :=
  match (h.get i).parent with
  | none => none
  | some p => (h.get p).parent

/-- __helper_get_uncle.  Dereferences the grandparent, which is known to
exist at every call site. -/
def __helper_get_uncle (h : Heap) (i : Nat) : Option (Option Nat) :=
  match __helper_get_grandparent h i with
  | none => none
  | some g =>
    if (h.get i).parent = (h.get g).left then some ((h.get g).right) else some ((h.get g).left)

/-- __helper_rotate_left, statement by statement.  The C code
unconditionally dereferences y = x->right, so a missing right child is
undefined behaviour, modelled as none. -/
def __helper_rotate_left (s : St) (xi : Nat) : Option St :=
  match (s.heap.get xi).right with
  | none => none
  | some yi =>
    -- x->right = y->left
    let h1 := s.heap.setRight xi ((s.heap.get yi).left)
    -- if (y->left != NULL) SET_PARENT(y->left, x)
    let h2 := match (h1.get yi).left with
      | none => h1
      | some yl => h1.setParent yl (some xi)
    -- SET_PARENT(y, GET_PARENT(x))
    let h3 := h2.setParent yi ((h2.get xi).parent)
    -- root or parent child-slot update
    let rootUpd : Tree × Heap :=
      match (h3.get xi).parent with
      | none => ({ s.tree with root := some yi }, h3)
      | some xp =>
        if (h3.get xp).left = some xi then
          (s.tree, h3.setLeft xp (some yi))
        else
          (s.tree, h3.setRight xp (some yi))
    let t4 := rootUpd.1
    let h4 := rootUpd.2
    -- y->left = x; SET_PARENT(x, y)
    let h5 := h4.setLeft yi (some xi)
    let h6 := h5.setParent xi (some yi)
    some { tree := t4, heap := h6 }

/-- __helper_rotate_right, the mirror image. -/
def __helper_rotate_right (s : St) (xi : Nat) : Option St :=
  match (s.heap.get xi).left with
  | none => none
  | some yi =>
    -- x->left = y->right
    let h1 := s.heap.setLeft xi ((s.heap.get yi).right)
    -- if (y->right != NULL) SET_PARENT(y->right, x)
    let h2 := match (h1.get yi).right with
      | none => h1
      | some yr => h1.setParent yr (some xi)
    -- SET_PARENT(y, GET_PARENT(x))
    let h3 := h2.setParent yi ((h2.get xi).parent)
    let rootUpd : Tree × Heap :=
      match (h3.get xi).parent with
      | none => ({ s.tree with root := some yi }, h3)
      | some xp =>
        if (h3.get xp).left = some xi then
          (s.tree, h3.setLeft xp (some yi))
        else
          (s.tree, h3.setRight xp (some yi))
    let t4 := rootUpd.1
    let h4 := rootUpd.2
    -- y->right = x; SET_PARENT(x, y)
    let h5 := h4.setRight yi (some xi)
    let h6 := h5.setParent xi (some yi)
    some { tree := t4, heap := h6 }

/-- Cases 2 and 3 of the insert rebalance loop body (the uncle is black
or absent): optionally rotate the parent to straighten a zig-zag, then
recolor parent and grandparent and rotate the grandparent.  Returns the
resulting state together with the new value of the C loop variable
pnode; none models a NULL dereference (undefined behaviour in C). -/
def insertCase23 (s : St) (pnode par : Nat) (uncle_is_left : Bool) :
    Option (St × Nat) :=
  -- Case 2
  let step2 : Option (St × Nat) :=
    if uncle_is_left = false ∧ (s.heap.get par).right = some pnode then
      match (s.heap.get pnode).parent with
      | none => none
      | some pn =>
        match __helper_rotate_left s pn with
        | none => none
        | some s1 => some (s1, pn)
    else if uncle_is_left = true ∧ (s.heap.get par).left = some pnode then
      match (s.heap.get pnode).parent with
      | none => none
      | some pn =>
        match __helper_rotate_right s pn with
        | none => none
        | some s1 => some (s1, pn)
    else
      some (s, pnode)
  match step2 with
  | none => none
  | some (s2, pnode2) =>
    -- Case 3: parent = GET_PARENT(pnode); SET_COLOR(parent, BLACK)
    match (s2.heap.get pnode2).parent with
    | none => none
    | some par2 =>
      let s3 : St := { s2 with heap := s2.heap.setColor par2 Color.black }
      match __helper_get_grandparent s3.heap pnode2 with
      | none => none
      | some gp2 =>
        let s4 : St := { s3 with heap := s3.heap.setColor gp2 Color.red }
        let rot := if uncle_is_left = false then __helper_rotate_right s4 gp2
                   else __helper_rotate_left s4 gp2
        match rot with
        | none => none
        | some s5 => some (s5, pnode2)

/-- The while loop of __helper_rb_tree_insert_rebalance, with pnode the
C loop variable.  Terminates (some s) when the loop condition fails;
none on fuel exhaustion or on a NULL dereference that would be undefined
behaviour in C. -/
def insertRebalanceLoop : Nat → St → Nat → Option St
  | 0, _, _ => none
  | fuel + 1, s, pnode =>
    -- while ((tree->root != pnode) && (GET_PARENT(pnode) != NULL)
    --        && (GET_COLOR(GET_PARENT(pnode)) == COLOR_RED))
    if s.tree.root = some pnode then some s
    else
      match (s.heap.get pnode).parent with
      | none => some s
      | some par =>
        if (s.heap.get par).color ≠ Color.red then some s
        else
          match __helper_get_grandparent s.heap pnode with
          | none => none  -- grandparent->left is dereferenced below
          | some gp =>
            let uncle_is_left : Bool :=
              if (s.heap.get gp).left = some par then false else true
            let uncle := if (s.heap.get gp).left = some par
                         then (s.heap.get gp).right else (s.heap.get gp).left
            let case1 : Bool :=
              match uncle with
              | some u => (s.heap.get u).color = Color.red
              | none => false
            if case1 then
              -- Case 1: recolor parent and uncle black, grandparent red
              match uncle with
              | none => none
              | some u =>
                let h1 := ((s.heap.setColor par Color.black).setColor
                             u Color.black).setColor gp Color.red
                insertRebalanceLoop fuel { s with heap := h1 } gp
            else
              match insertCase23 s pnode par uncle_is_left with
              | none => none
              | some (s5, pnode2) => insertRebalanceLoop fuel s5 pnode2

/-- __helper_rb_tree_insert_rebalance: guarded fix-up loop followed by
unconditionally blackening the root. -/
def __helper_rb_tree_insert_rebalance (fuel : Nat) (s : St) (ni : Nat) :
    Option St :=
  match (s.heap.get ni).parent with
  | none => some s
  | some p =>
    if (s.heap.get p).color = Color.black then some s
    else
      match insertRebalanceLoop fuel s ni with
      | none => none
      | some s1 =>
        match s1.tree.root with
        | none => none  -- SET_COLOR(tree->root, BLACK) would dereference NULL
        | some r => some { s1 with heap := s1.heap.setColor r Color.black }

/-- Result of rb_tree_insert: RB_OK or RB_DUPLICATE. -/
inductive InsRes where
  | ok
  | dup
deriving DecidableEq, Repr

/-- The BST descent loop of rb_tree_insert.  Returns the heap after the
linking write, the rightmost flag and the final value of nd (the parent
the new node was linked under); some none signals RB_DUPLICATE; the
outer none is fuel exhaustion. -/
def insertLoop (ni : Nat) : Nat → Heap → Bool → Nat →
    Option (Option (Heap × Bool × Nat))
  | 0, _, _, _ => none
  | fuel + 1, h, rm, nd =>
    let c := cmpI (h.get ni).key (h.get nd).key
    if c = 0 then some none
    else if c < 0 then
      match (h.get nd).left with
      | none => some (some (h.setLeft nd (some ni), false, nd))
      | some l => insertLoop ni fuel h false l
    else
      match (h.get nd).right with
      | none => some (some (h.setRight nd (some ni), rm, nd))
      | some r => insertLoop ni fuel h rm r

/-- rb_tree_insert: clear the new node's links and store the key, handle
the empty tree, otherwise descend, link, update the cached rightmost and
rebalance. -/
def rb_tree_insert (s : St) (key : Int) (ni : Nat) (fuel : Nat) :
    Option (InsRes × St) :=
  -- node->left = node->right = node->parent = NULL; node->key = key
  let h0 := s.heap.upd ni
    { left := none, right := none, parent := none, key := key,
      color := (s.heap.get ni).color }
  match s.tree.root with
  | none =>
    -- Case 1: tree is empty
    let t1 := { s.tree with root := some ni, rightmost := some ni }
    let h1 := h0.setColor ni Color.black
    some (InsRes.ok, { tree := t1, heap := h1 })
  | some r =>
    let h1 := h0.setColor ni Color.red
    match insertLoop ni fuel h1 true r with
    | none => none
    | some none => some (InsRes.dup, { s with heap := h1 })
    | some (some (h2, rm, nd)) =>
      let h3 := h2.setParent ni (some nd)
      let t1 := if rm then { s.tree with rightmost := some ni } else s.tree
      match __helper_rb_tree_insert_rebalance fuel { tree := t1, heap := h3 } ni with
      | none => none
      | some s2 => some (InsRes.ok, s2)

/-- The descent loop of rb_tree_find_or_insert: returns the final values
of (node, node_prev, dir, rightmost) at loop exit (node = none means the
key was absent and the candidate is to be linked under node_prev). -/
def foiLoop (h : Heap) (key : Int) : Nat → Option Nat → Option Nat → Nat →
    Bool → Option (Option Nat × Option Nat × Nat × Bool)
  | 0, _, _, _, _ => none
  | _, none, prev, dir, rm => some (none, prev, dir, rm)
  | fuel + 1, some i, prev, dir, rm =>
    let c := cmpI key (h.get i).key
    if c < 0 then
      foiLoop h key fuel (h.get i).left (some i) 0 false
    else if c = 0 then
      some (some i, prev, dir, rm)
    else
      foiLoop h key fuel (h.get i).right (some i) 1 rm

/-- rb_tree_find_or_insert: single descent; on an equal key returns the
existing node, otherwise links the candidate at the discovered empty
slot and rebalances.  Returns the found-or-inserted node reference and
the new state. -/
def rb_tree_find_or_insert (s : St) (key : Int) (ci : Nat) (fuel : Nat) :
    Option (Nat × St) :=
  -- new_candidate->key = key
  let h0 := s.heap.upd ci { s.heap.get ci with key := key }
  match s.tree.root with
  | none =>
    -- Case 1: tree is empty
    let t1 := { s.tree with root := some ci, rightmost := some ci }
    let h1 := h0.setColor ci Color.black
    some (ci, { tree := t1, heap := h1 })
  | some r =>
    match foiLoop h0 key fuel (some r) none 0 true with
    | none => none
    | some (some i, _, _, _) => some (i, { s with heap := h0 })
    | some (none, prev, dir, rm) =>
      -- Case 2: key absent, link the candidate under node_prev
      match prev with
      | none => none  -- node_prev->left would dereference NULL
      | some pv =>
        let linked : Heap × Bool :=
          if dir = 0 then (h0.setLeft pv (some ci), false)
          else (h0.setRight pv (some ci), rm)
        let h1 := linked.1
        let rm1 := linked.2
        let h2 := h1.setParent ci (some pv)
        let h3 := h2.setColor ci Color.red
        let t1 := if rm1 then { s.tree with rightmost := some ci } else s.tree
        match __helper_rb_tree_insert_rebalance fuel { tree := t1, heap := h3 } ci with
        | none => none
        | some s2 => some (ci, s2)

/-- __helper_rb_tree_find_minimum: descend left links. -/
def __helper_rb_tree_find_minimum (h : Heap) : Nat → Nat → Option Nat
  | 0, _ => none
  | fuel + 1, x =>
    match (h.get x).left with
    | none => some x
    | some l => __helper_rb_tree_find_minimum h fuel l

/-- __helper_rb_tree_find_maximum: descend right links. -/
def __helper_rb_tree_find_maximum (h : Heap) : Nat → Nat → Option Nat
  | 0, _ => none
  | fuel + 1, x =>
    match (h.get x).right with
    | none => some x
    | some r => __helper_rb_tree_find_maximum h fuel r

/-- The parent ascent of __helper_rb_tree_find_successor: climb while
the current node is its parent's right child.  Returns the final value
of y (the successor, or NULL). -/
def succAscend (h : Heap) : Nat → Nat → Option Nat → Option (Option Nat)
  | 0, _, _ => none
  | _, _, none => some none
  | fuel + 1, x, some y =>
    if (h.get y).right = some x then succAscend h fuel y ((h.get y).parent)
    else some (some y)

/-- __helper_rb_tree_find_successor. -/
def __helper_rb_tree_find_successor (h : Heap) (fuel : Nat) (x : Nat) :
    Option (Option Nat) :=
  match (h.get x).right with
  | some r =>
    match __helper_rb_tree_find_minimum h fuel r with
    | none => none
    | some m => some (some m)
  | none => succAscend h fuel x ((h.get x).parent)

/-- The parent ascent of __helper_rb_tree_find_predecessor. -/
def predAscend (h : Heap) : Nat → Nat → Option Nat → Option (Option Nat)
  | 0, _, _ => none
  | _, _, none => some none
  | fuel + 1, x, some y =>
    if (h.get y).left = some x then predAscend h fuel y ((h.get y).parent)
    else some (some y)

/-- __helper_rb_tree_find_predecessor. -/
def __helper_rb_tree_find_predecessor (h : Heap) (fuel : Nat) (x : Nat) :
    Option (Option Nat) :=
  match (h.get x).left with
  | some l =>
    match __helper_rb_tree_find_maximum h fuel l with
    | none => none
    | some m => some (some m)
  | none => predAscend h fuel x ((h.get x).parent)

/-- __helper_rb_tree_swap_node: replace x with y, inserting y where x
previously was, statement by statement. -/
def __helper_rb_tree_swap_node (s : St) (xi yi : Nat) : St :=
  let h := s.heap
  let left := (h.get xi).left
  let right := (h.get xi).right
  let parent := (h.get xi).parent
  -- SET_PARENT(y, parent)
  let h1 := h.setParent yi parent
  let slot : Tree × Heap :=
    match parent with
    | some p =>
      if (h1.get p).left = some xi then (s.tree, h1.setLeft p (some yi))
      else (s.tree, h1.setRight p (some yi))
    | none =>
      if s.tree.root = some xi then ({ s.tree with root := some yi }, h1)
      else (s.tree, h1)
  let t2 := slot.1
  let h2 := slot.2
  -- y->right = right; reparent it; x->right = NULL
  let h3 := h2.setRight yi right
  let h4 := match right with
    | some r => h3.setParent r (some yi)
    | none => h3
  let h5 := h4.setRight xi none
  -- y->left = left; reparent it; x->left = NULL
  let h6 := h5.setLeft yi left
  let h7 := match left with
    | some l => h6.setParent l (some yi)
    | none => h6
  let h8 := h7.setLeft xi none
  -- SET_COLOR(y, GET_COLOR(x)); x->parent = NULL
  let h9 := h8.setColor yi ((h8.get xi).color)
  let h10 := h9.setParent xi none
  { tree := t2, heap := h10 }

/-- Color of an optional node reference where missing nodes count as
black, mirroring the repeated C pattern
(p == NULL || GET_COLOR(p) == COLOR_BLACK). -/
def blackish (h : Heap) : Option Nat → Bool
  | none => true
  | some i => (h.get i).color = Color.black

/-- The while loop of __helper_rb_tree_delete_rebalance, with the C loop
state (x, xp, is_left).  The node x may be NULL; xp is its parent and
is_left records whether x occupies xp's left slot.  Terminates (some s)
when the loop condition fails; none on fuel exhaustion or on a NULL
dereference that would be undefined behaviour in C. -/
def deleteRebalanceLoop : Nat → St → Option Nat → Option Nat → Bool →
    Option (St × Option Nat)
  | 0, _, _, _, _ => none
  | fuel + 1, s, x, xp, is_left =>
    -- while (x != tree->root && (x == NULL || GET_COLOR(x) == COLOR_BLACK))
    if x = s.tree.root then some (s, x)
    else if blackish s.heap x = false then some (s, x)
    else
      match xp with
      | none => none  -- w = xp->right dereferences NULL
      | some xpi =>
        let w0 := if is_left then (s.heap.get xpi).right else (s.heap.get xpi).left
        -- Case 1: the sibling is red
        let case1 : Option (St × Option Nat) :=
          match w0 with
          | some wi =>
            if (s.heap.get wi).color = Color.red then
              let h1 := (s.heap.setColor wi Color.black).setColor xpi Color.red
              let rot := if is_left
                         then __helper_rotate_left { s with heap := h1 } xpi
                         else __helper_rotate_right { s with heap := h1 } xpi
              match rot with
              | none => none
              | some s1 =>
                let w1 := if is_left then (s1.heap.get xpi).right
                          else (s1.heap.get xpi).left
                some (s1, w1)
            else some ({ s with heap := s.heap }, w0)
          | none => some (s, w0)
        match case1 with
        | none => none
        | some (s1, w) =>
          let wleft := match w with
            | some wi => (s1.heap.get wi).left
            | none => none
          let wright := match w with
            | some wi => (s1.heap.get wi).right
            | none => none
          if blackish s1.heap wleft = true ∧ blackish s1.heap wright = true then
            -- Case 2: recolor the sibling red, move up
            let h2 := match w with
              | some wi => s1.heap.setColor wi Color.red
              | none => s1.heap
            let x2 : Option Nat := some xpi
            let xp2 := (h2.get xpi).parent
            let il2 : Bool :=
              match xp2 with
              | none => false
              | some xp2i => (h2.get xp2i).left = x2
            deleteRebalanceLoop fuel { s1 with heap := h2 } x2 xp2 il2
          else
            -- Cases 3 and 4
            let step3 : Option (St × Option Nat) :=
              if is_left = true ∧ blackish s1.heap wright = true then
                -- Case 3a
                match w with
                | none => none  -- SET_COLOR(w, RED) dereferences NULL
                | some wi =>
                  let h3 := s1.heap.setColor wi Color.red
                  let h4 := match wleft with
                    | some wl => h3.setColor wl Color.black
                    | none => h3
                  match __helper_rotate_right { s1 with heap := h4 } wi with
                  | none => none
                  | some s3 => some (s3, (s3.heap.get xpi).right)
              else if is_left = false ∧ blackish s1.heap wleft = true then
                -- Case 3b
                match w with
                | none => none
                | some wi =>
                  let h3 := s1.heap.setColor wi Color.red
                  let h4 := match wright with
                    | some wr => h3.setColor wr Color.black
                    | none => h3
                  match __helper_rotate_left { s1 with heap := h4 } wi with
                  | none => none
                  | some s3 => some (s3, (s3.heap.get xpi).left)
              else
                some (s1, w)
            match step3 with
            | none => none
            | some (s4, w4) =>
              -- Case 4
              match w4 with
              | none => none  -- wleft = w->left dereferences NULL
              | some wi =>
                let wleft4 := (s4.heap.get wi).left
                let wright4 := (s4.heap.get wi).right
                let h5 := (s4.heap.setColor wi ((s4.heap.get xpi).color)).setColor
                            xpi Color.black
                let s5 : St := { s4 with heap := h5 }
                let fin : Option St :=
                  if is_left = true ∧ wright4 ≠ none then
                    match wright4 with
                    | none => none
                    | some wr =>
                      __helper_rotate_left
                        { s5 with heap := s5.heap.setColor wr Color.black } xpi
                  else if is_left = false ∧ wleft4 ≠ none then
                    match wleft4 with
                    | none => none
                    | some wl =>
                      __helper_rotate_right
                        { s5 with heap := s5.heap.setColor wl Color.black } xpi
                  else
                    some s5
                match fin with
                | none => none
                | some s6 =>
                  -- x = tree->root
                  deleteRebalanceLoop fuel s6 s6.tree.root xp is_left

/-- __helper_rb_tree_delete_rebalance: the double-black fix-up loop
followed by blackening the final position when it is present
(if (x != NULL) SET_COLOR(x, BLACK)). -/
def __helper_rb_tree_delete_rebalance (fuel : Nat) (s : St)
    (node parent : Option Nat) (node_is_left : Bool) : Option St :=
  match deleteRebalanceLoop fuel s node parent node_is_left with
  | none => none
  | some (s1, x) =>
    match x with
    | none => some s1
    | some xi => some { s1 with heap := s1.heap.setColor xi Color.black }

/-- rb_tree_remove: choose the node y to splice out (the node itself
when it has an empty child slot, otherwise its in-order successor),
maintain the cached rightmost, splice, swap y into the removed node's
position when needed, rebalance when a black node was spliced out, and
detach the removed node. -/
def rb_tree_remove (s : St) (ni : Nat) (fuel : Nat) : Option St :=
  let h := s.heap
  -- choose y, updating the cached rightmost when node is the cached one
  let pick : Option (Nat × Tree) :=
    if (h.get ni).left = none ∨ (h.get ni).right = none then
      if s.tree.rightmost = some ni then
        match __helper_rb_tree_find_predecessor h fuel ni with
        | none => none
        | some p => some (ni, { s.tree with rightmost := p })
      else some (ni, s.tree)
    else
      match __helper_rb_tree_find_successor h fuel ni with
      | none => none
      | some none => none  -- y is dereferenced below
      | some (some yi) => some (yi, s.tree)
  match pick with
  | none => none
  | some (yi, t1) =>
    -- x = y's only child (possibly NULL)
    let x : Option Nat :=
      if (h.get yi).left ≠ none then (h.get yi).left else (h.get yi).right
    -- reparent x and compute xp
    let reparent : Heap × Option Nat :=
      match x with
      | some xi =>
        let h1 := h.setParent xi ((h.get yi).parent)
        (h1, (h1.get xi).parent)
      | none => (h, (h.get yi).parent)
    let h1 := reparent.1
    let xp0 := reparent.2
    -- unlink y from its parent slot (or move the root to x)
    let unlink : Option (Tree × Heap × Option Nat × Bool) :=
      match (h1.get yi).parent with
      | none => some ({ t1 with root := x }, h1, none, false)
      | some ypi =>
        if (h1.get ypi).left = some yi then
          some (t1, h1.setLeft ypi x, xp0, true)
        else
          some (t1, h1.setRight ypi x, xp0, false)
    match unlink with
    | none => none
    | some (t2, h2, xp, is_left) =>
      let y_color := (h2.get yi).color
      -- swap y into node's position when y is not the node itself
      let swapped : St × Option Nat :=
        if yi ≠ ni then
          let s3 := __helper_rb_tree_swap_node { tree := t2, heap := h2 } ni yi
          if xp = some ni then (s3, some yi) else (s3, xp)
        else
          ({ tree := t2, heap := h2 }, xp)
      let s4 := swapped.1
      let xp4 := swapped.2
      let rebal : Option St :=
        if y_color = Color.black then
          __helper_rb_tree_delete_rebalance fuel s4 x xp4 is_left
        else some s4
      match rebal with
      | none => none
      | some s6 =>
        -- node->parent = node->left = node->right = NULL
        let h7 := ((s6.heap.setParent ni none).setLeft ni none).setRight ni none
        some { s6 with heap := h7 }

/-- A tree handle as laid out by rb_tree_new over zero-initialised caller
memory, together with an empty heap. -/
def emptySt : St :=
  { tree := { root := none, leftmost := none, rightmost := none }, heap := [] }

/-- Run a sequence of insertions, requiring every call to return RB_OK. -/
def insertSeq (fuel : Nat) : St → List (Int × Nat) → Option St
  | s, [] => some s
  | s, (k, i) :: rest =>
    match rb_tree_insert s k i fuel with
    | some (InsRes.ok, s2) => insertSeq fuel s2 rest
    | _ => none

/-! ## Algebraic view of the trees laid out in the heap -/

/-- A binary tree of node references with their colors and keys: the
shape a well-formed heap lays out below a root reference. -/
inductive T where
  | nil
  | node (l : T) (i : Nat) (c : Color) (k : Int) (r : T)
deriving DecidableEq, Repr

/-- The node references of a tree, in symmetric order. -/
def T.ids : T → List Nat
  | nil => []
  | node l i _ _ r => l.ids ++ i :: r.ids

/-- The references and keys of a tree, in symmetric order. -/
def T.seq : T → List (Nat × Int)
  | nil => []
  | node l i _ k r => l.seq ++ (i, k) :: r.seq

/-- The keys of a tree, in symmetric order. -/
def T.keys (t : T) : List Int := t.seq.map Prod.snd

/-- The reference held by the slot this tree hangs from. -/
def T.rootRef : T → Option Nat
  | nil => none
  | node _ i _ _ _ => some i

/-- The heap lays out tree t at the slot holding reference x, whose
owning node is par: every node record of t stores the matching children,
parent, key and color. -/
def reprAt (h : Heap) : Option Nat → Option Nat → T → Prop
  | _, x, T.nil => x = none
  | par, x, T.node l i c k r =>
    x = some i ∧ (h.get i).parent = par ∧ (h.get i).color = c ∧
    (h.get i).key = k ∧
    reprAt h (some i) ((h.get i).left) l ∧
    reprAt h (some i) ((h.get i).right) r

instance instDecidableReprAt (h : Heap) :
    (par x : Option Nat) → (t : T) → Decidable (reprAt h par x t)
  | _, x, T.nil => inferInstanceAs (Decidable (x = none))
  | _, _, T.node l i _ _ r =>
    haveI := instDecidableReprAt h (some i) ((h.get i).left) l
    haveI := instDecidableReprAt h (some i) ((h.get i).right) r
    inferInstanceAs (Decidable (_ ∧ _ ∧ _ ∧ _ ∧ _ ∧ _))

/-- The size of a tree. -/
def T.size : T → Nat
  | nil => 0
  | node l _ _ _ r => l.size + r.size + 1

/-- A context: the surroundings of a subtree slot, innermost frame
first.  goL means the slot is the left child of the frame node (whose
right subtree is given); goR the mirror image. -/
inductive Ctx where
  | top
  | goL (up : Ctx) (i : Nat) (c : Color) (k : Int) (r : T)
  | goR (up : Ctx) (l : T) (i : Nat) (c : Color) (k : Int)
deriving DecidableEq, Repr

/-- Fill the slot of a context with a subtree. -/
def Ctx.plug : Ctx → T → T
  | .top, t => t
  | .goL up i c k r, t => up.plug (T.node t i c k r)
  | .goR up l i c k, t => up.plug (T.node l i c k t)

/-- The reference of the frame node owning the slot (none at top). -/
def Ctx.holePar : Ctx → Option Nat
  | .top => none
  | .goL _ i _ _ _ => some i
  | .goR _ _ i _ _ => some i

/-- Symmetric-order entries of the context strictly before the slot. -/
def Ctx.seqPre : Ctx → List (Nat × Int)
  | .top => []
  | .goL up _ _ _ _ => up.seqPre
  | .goR up l i _ k => up.seqPre ++ l.seq ++ [(i, k)]

/-- Symmetric-order entries of the context strictly after the slot. -/
def Ctx.seqPost : Ctx → List (Nat × Int)
  | .top => []
  | .goL up i _ k r => ((i, k) :: r.seq) ++ up.seqPost
  | .goR up _ _ _ _ => up.seqPost

/-- References of the context before the slot. -/
def Ctx.preIds : Ctx → List Nat
  | .top => []
  | .goL up _ _ _ _ => up.preIds
  | .goR up l i _ _ => up.preIds ++ l.ids ++ [i]

/-- References of the context after the slot. -/
def Ctx.postIds : Ctx → List Nat
  | .top => []
  | .goL up i _ _ r => (i :: r.ids) ++ up.postIds
  | .goR up _ _ _ _ => up.postIds

/-- Extend a context below another context (the outer context is hung
beyond the inner context's top). -/
def Ctx.appendC : Ctx → Ctx → Ctx
  | .top, outer => outer
  | .goL up i c k r, outer => .goL (up.appendC outer) i c k r
  | .goR up l i c k, outer => .goR (up.appendC outer) l i c k

/-- All references of a context and a subtree for its slot, in
symmetric order. -/
def footprint (ctx : Ctx) (t : T) : List Nat :=
  ctx.preIds ++ t.ids ++ ctx.postIds

/-- The heap lays out context ctx around a slot currently holding
reference x: every frame node stores x (transitively) in the matching
child slot, its sibling subtree, its parent, key and color. -/
def reprCtx (h : Heap) (root : Option Nat) : Ctx → Option Nat → Prop
  | .top, x => root = x
  | .goL up i c k r, x =>
      (h.get i).left = x ∧ (h.get i).parent = up.holePar ∧
      (h.get i).color = c ∧ (h.get i).key = k ∧
      reprAt h (some i) ((h.get i).right) r ∧
      reprCtx h root up (some i)
  | .goR up l i c k, x =>
      (h.get i).right = x ∧ (h.get i).parent = up.holePar ∧
      (h.get i).color = c ∧ (h.get i).key = k ∧
      reprAt h (some i) ((h.get i).left) l ∧
      reprCtx h root up (some i)

instance instDecidableReprCtx (h : Heap) (root : Option Nat) :
    (ctx : Ctx) → (x : Option Nat) → Decidable (reprCtx h root ctx x)
  | .top, x => inferInstanceAs (Decidable (root = x))
  | .goL up i _ _ _, _ =>
    haveI := instDecidableReprCtx h root up (some i)
    inferInstanceAs (Decidable (_ ∧ _ ∧ _ ∧ _ ∧ _ ∧ _))
  | .goR up _ i _ _, _ =>
    haveI := instDecidableReprCtx h root up (some i)
    inferInstanceAs (Decidable (_ ∧ _ ∧ _ ∧ _ ∧ _ ∧ _))

/-- A lower bound (strict) on a key, none meaning unbounded. -/
def LB : Option Int → Int → Prop
  | none, _ => True
  | some a, k => a < k

/-- An upper bound (strict) on a key, none meaning unbounded. -/
def UB : Int → Option Int → Prop
  | _, none => True
  | k, some b => k < b

/-- Binary-search-tree order with open bounds. -/
def BstB (lo hi : Option Int) : T → Prop
  | T.nil => True
  | T.node l _ _ k r =>
    LB lo k ∧ UB k hi ∧ BstB lo (some k) l ∧ BstB (some k) hi r

/-- The binary-search-tree order invariant. -/
def Bst (t : T) : Prop := BstB none none t

/-- The lower bound that the context imposes on the slot, given the
bound outside the whole context. -/
def Ctx.loB : Ctx → Option Int → Option Int
  | .top, lo => lo
  | .goL up _ _ _ _, lo => up.loB lo
  | .goR _ _ _ _ k, _ => some k

/-- The upper bound that the context imposes on the slot, given the
bound outside the whole context. -/
def Ctx.hiB : Ctx → Option Int → Option Int
  | .top, hi => hi
  | .goL _ _ _ k _, _ => some k
  | .goR up _ _ _ _, hi => up.hiB hi

/-- Binary-search-tree order of the context itself, between the given
outer bounds. -/
def CtxBstB (lo hi : Option Int) : Ctx → Prop
  | .top => True
  | .goL up _ _ k r =>
    LB (up.loB lo) k ∧ UB k (up.hiB hi) ∧
    BstB (some k) (up.hiB hi) r ∧ CtxBstB lo hi up
  | .goR up l _ _ k =>
    LB (up.loB lo) k ∧ UB k (up.hiB hi) ∧
    BstB (up.loB lo) (some k) l ∧ CtxBstB lo hi up

/-- The color of the root node (empty counts as black). -/
def rootColor : T → Color
  | T.nil => Color.black
  | T.node _ _ c _ _ => c

/-- Black height: the number of black nodes on the path to the leftmost
empty slot, the root included. -/
def bh : T → Nat
  | T.nil => 0
  | T.node l _ c _ _ => bh l + (if c = Color.black then 1 else 0)

/-- Every path from a node to a descendant empty slot crosses the same
number of black nodes. -/
def bhOk : T → Prop
  | T.nil => True
  | T.node l _ _ _ r => bhOk l ∧ bhOk r ∧ bh l = bh r

/-- No red node has a red child. -/
def noRedRed : T → Prop
  | T.nil => True
  | T.node l _ c _ r =>
    (c = Color.red → rootColor l = Color.black ∧ rootColor r = Color.black) ∧
    noRedRed l ∧ noRedRed r

/-- A valid red-black subtree (the root may have either color). -/
def RBsub (t : T) : Prop := noRedRed t ∧ bhOk t

/-- The red-black invariants of a whole tree: no red-red edge, equal
black count to every empty slot, black root. -/
def RBValid (t : T) : Prop := RBsub t ∧ rootColor t = Color.black

/-- The black contribution of a color. -/
def bl (c : Color) : Nat := if c = Color.black then 1 else 0

/-- The color of the innermost frame (black at top). -/
def Ctx.headColor : Ctx → Color
  | .top => Color.black
  | .goL _ _ c _ _ => c
  | .goR _ _ _ c _ => c

/-- The red-black validity of a context around a slot whose subtree has
black height n: every sibling subtree is a valid red-black subtree of
the matching black height, and a red frame has a black parent frame and
a black sibling root. -/
def CtxRB : Ctx → Nat → Prop
  | .top, _ => True
  | .goL up _ c _ r, n =>
    RBsub r ∧ bh r = n ∧
    (c = Color.red → up.headColor = Color.black ∧
      rootColor r = Color.black) ∧
    CtxRB up (n + bl c)
  | .goR up l _ c _, n =>
    RBsub l ∧ bh l = n ∧
    (c = Color.red → up.headColor = Color.black ∧
      rootColor l = Color.black) ∧
    CtxRB up (n + bl c)

/-- The outermost frame of the context is black (trivially true at
top). -/
def Ctx.outerBlack : Ctx → Prop
  | .top => True
  | .goL .top _ c _ _ => c = Color.black
  | .goR .top _ _ c _ => c = Color.black
  | .goL up _ _ _ _ => up.outerBlack
  | .goR up _ _ _ _ => up.outerBlack

/-- The ancestor that the parent ascent of the successor helper stops
at: the frame node of the first goL frame (the first ancestor of which
the slot's subtree lies in the left subtree), none when every frame is a
goR frame. -/
def Ctx.nextUp : Ctx → Option Nat
  | .top => none
  | .goL _ i _ _ _ => some i
  | .goR up _ _ _ _ => up.nextUp

/-- The number of frames of a context. -/
def Ctx.depth : Ctx → Nat
  | .top => 0
  | .goL up _ _ _ _ => up.depth + 1
  | .goR up _ _ _ _ => up.depth + 1

/-- Every frame of the context is a goR frame: the slot lies on the
rightmost spine of the surrounding tree. -/
def Ctx.allR : Ctx → Bool
  | .top => true
  | .goL _ _ _ _ _ => false
  | .goR up _ _ _ _ => up.allR

/-- Recolor the node holding reference j (if present). -/
def T.recolor (j : Nat) (c : Color) : T → T
  | T.nil => T.nil
  | T.node l i c0 k r =>
    T.node (l.recolor j c) i (if i = j then c else c0) k (r.recolor j c)

/-- Recolor the frame node holding reference j (if present) and every
occurrence of j in the sibling subtrees. -/
def Ctx.recolor (j : Nat) (c : Color) : Ctx → Ctx
  | .top => .top
  | .goL up i c0 k r => .goL (up.recolor j c) i (if i = j then c else c0) k
      (r.recolor j c)
  | .goR up l i c0 k => .goR (up.recolor j c) (l.recolor j c) i
      (if i = j then c else c0) k

/-- A one-node tree: key 5 stored at node reference 1. -/
def oneSt : St := (insertSeq 10 emptySt [(5, 1)]).getD emptySt

/-- The state left by a duplicate insertion of key 5 at node reference 2
into oneSt. -/
def dupSt : St := ((rb_tree_insert oneSt 5 2 10).map Prod.snd).getD emptySt

/-- oneSt with a candidate node at reference 8 whose key field holds 7. -/
def c5base : St :=
  { tree := oneSt.tree,
    heap := oneSt.heap.upd 8
      { left := none, right := none, parent := none, key := 7,
        color := Color.black } }

/-- The state left by rb_tree_find_or_insert on c5base with key 5 (which
is already present, at node reference 1). -/
def c5res : St :=
  ((rb_tree_find_or_insert c5base 5 8 10).map Prod.snd).getD emptySt

/-- The state after inserting 10, 20, 30 (at node references 1, 2, 3)
into an empty tree. -/
def c9res : St := (insertSeq 10 emptySt [(10, 1), (20, 2), (30, 3)]).getD emptySt

/-- A two-node state for exercising the rotation helpers: node 1 (key 1,
black) is the root, node 2 (key 2, red) its right child. -/
def rotSt : St :=
  { tree := { root := some 1, leftmost := none, rightmost := some 2 },
    heap := [(1, { left := none, right := some 2, parent := none, key := 1,
                   color := Color.black }),
             (2, { left := none, right := none, parent := some 1, key := 2,
                   color := Color.red })] }

/-- The state produced by a left rotation at node 1 of rotSt. -/
def rotRes : St := (__helper_rotate_left rotSt 1).getD emptySt

/-! ## Basic reduction lemmas for the heap -/

@[simp]
theorem Heap.get_nil (i : Nat) :
    Heap.get [] i = { left := none, right := none, parent := none, key := 0,
                      color := Color.black } := rfl

@[simp]
theorem Heap.get_upd (h : Heap) (i : Nat) (n : Node) (j : Nat) :
    (h.upd i n).get j = if j = i then n else h.get j := rfl

@[simp]
theorem Heap.get_setLeft (h : Heap) (i : Nat) (x : Option Nat) (j : Nat) :
    (h.setLeft i x).get j =
      if j = i then { h.get i with left := x } else h.get j := rfl

@[simp]
theorem Heap.get_setRight (h : Heap) (i : Nat) (x : Option Nat) (j : Nat) :
    (h.setRight i x).get j =
      if j = i then { h.get i with right := x } else h.get j := rfl

@[simp]
theorem Heap.get_setParent (h : Heap) (i : Nat) (x : Option Nat) (j : Nat) :
    (h.setParent i x).get j =
      if j = i then { h.get i with parent := x } else h.get j := rfl

@[simp]
theorem Heap.get_setColor (h : Heap) (i : Nat) (c : Color) (j : Nat) :
    (h.setColor i c).get j =
      if j = i then { h.get i with color := c } else h.get j := rfl

@[simp]
theorem reprAt_nil (h : Heap) (par x : Option Nat) :
    reprAt h par x T.nil ↔ x = none := Iff.rfl

@[simp]
theorem reprAt_node (h : Heap) (par x : Option Nat) (l : T) (i : Nat)
    (c : Color) (k : Int) (r : T) :
    reprAt h par x (T.node l i c k r) ↔
      x = some i ∧ (h.get i).parent = par ∧ (h.get i).color = c ∧
      (h.get i).key = k ∧
      reprAt h (some i) ((h.get i).left) l ∧
      reprAt h (some i) ((h.get i).right) r := Iff.rfl

@[simp]
theorem T.ids_nil : T.ids T.nil = [] := rfl

@[simp]
theorem T.ids_node (l : T) (i : Nat) (c : Color) (k : Int) (r : T) :
    (T.node l i c k r).ids = l.ids ++ i :: r.ids := rfl

@[simp]
theorem T.seq_nil : T.seq T.nil = [] := rfl

@[simp]
theorem T.seq_node (l : T) (i : Nat) (c : Color) (k : Int) (r : T) :
    (T.node l i c k r).seq = l.seq ++ (i, k) :: r.seq := rfl

/-- Cells outside a tree's footprint do not matter: a heap agreeing on
the footprint lays out the same tree. -/
theorem reprAt_congr (h1 h2 : Heap) (t : T) :
    (∀ j ∈ t.ids, h2.get j = h1.get j) →
    ∀ par x, reprAt h1 par x t → reprAt h2 par x t := by
  induction t with
  | nil => intro _ par x hx; exact hx
  | node l i c k r ihl ihr =>
    intro hag par x hx
    obtain ⟨rfl, hp, hc, hk, hl, hr⟩ := hx
    have hi : h2.get i = h1.get i := hag i (by simp)
    refine ⟨rfl, ?_, ?_, ?_, ?_, ?_⟩
    · rw [hi]; exact hp
    · rw [hi]; exact hc
    · rw [hi]; exact hk
    · rw [hi]
      exact ihl (fun j hj => hag j (by simp [hj])) _ _ hl
    · rw [hi]
      exact ihr (fun j hj => hag j (by simp [hj])) _ _ hr

/-- The find descent reads only cells in the tree's footprint. -/
theorem findLoop_congr (h1 h2 : Heap) (key : Int) (t : T) :
    (∀ j ∈ t.ids, h2.get j = h1.get j) →
    ∀ par x fuel, reprAt h1 par x t →
      findLoop h2 key fuel x = findLoop h1 key fuel x := by
  induction t with
  | nil =>
    intro _ par x fuel hx
    subst hx
    cases fuel <;> rfl
  | node l i c k r ihl ihr =>
    intro hag par x fuel hx
    obtain ⟨rfl, hp, hc, hk, hl, hr⟩ := hx
    cases fuel with
    | zero => rfl
    | succ fuel =>
      have hi : h2.get i = h1.get i := hag i (by simp)
      simp only [findLoop, hi]
      split
      · exact ihl (fun j hj => hag j (by simp [hj])) _ _ fuel hl
      · split
        · rfl
        · exact ihr (fun j hj => hag j (by simp [hj])) _ _ fuel hr

/-- When the find descent locates the key, the insert descent over a
heap that agrees on the footprint and stores that key in the candidate
node reports a duplicate without writing anything. -/
theorem insertLoop_dup_of_findLoop (h1 h2 : Heap) (ni : Nat) (key : Int)
    (hkey : (h2.get ni).key = key) (t : T) :
    (∀ j ∈ t.ids, h2.get j = h1.get j) → ni ∉ t.ids →
    ∀ par x fuel e rm nd, reprAt h1 par x t →
      findLoop h1 key fuel x = some (some e) → x = some nd →
      insertLoop ni fuel h2 rm nd = some none := by
  induction t with
  | nil =>
    intro _ _ par x fuel e rm nd hx hfind hnd
    subst hx
    cases fuel <;> simp [findLoop] at hfind
  | node l i c k r ihl ihr =>
    intro hag hni par x fuel e rm nd hx hfind hnd
    obtain ⟨rfl, hp, hc, hk, hl, hr⟩ := hx
    obtain ⟨rfl⟩ : nd = i := by simpa using hnd.symm
    cases fuel with
    | zero => simp [findLoop] at hfind
    | succ fuel =>
      have hi : h2.get i = h1.get i := hag i (by simp)
      have hcmp : cmpI ((h2.get ni).key) ((h2.get i).key) =
          cmpI key ((h1.get i).key) := by rw [hkey, hi]
      simp only [findLoop] at hfind
      simp only [insertLoop, hcmp]
      split at hfind
      · rename_i hlt
        rw [if_neg ?_, if_pos hlt]
        · rw [hi]
          cases hleft : (h1.get i).left with
          | none =>
            rw [hleft] at hl hfind
            have : l = T.nil := by
              cases l with
              | nil => rfl
              | node _ _ _ _ _ => simp [reprAt] at hl
            subst this
            cases fuel <;> simp [findLoop] at hfind
          | some l0 =>
            rw [hleft] at hl hfind
            exact ihl (fun j hj => hag j (by simp [hj]))
              (fun hj => hni (by simp [hj])) _ _ fuel e false l0 hl hfind rfl
        · omega
      · split at hfind
        · rename_i hlt heq
          rw [if_pos heq]
        · rename_i hlt heq
          rw [if_neg heq, if_neg hlt]
          rw [hi]
          cases hright : (h1.get i).right with
          | none =>
            rw [hright] at hr hfind
            have : r = T.nil := by
              cases r with
              | nil => rfl
              | node _ _ _ _ _ => simp [reprAt] at hr
            subst this
            cases fuel <;> simp [findLoop] at hfind
          | some r0 =>
            rw [hright] at hr hfind
            exact ihr (fun j hj => hag j (by simp [hj]))
              (fun hj => hni (by simp [hj])) _ _ fuel e rm r0 hr hfind rfl

/-! ## Claim C4: inserting an already stored key -/

/-- C4: inserting a key that rb_tree_find locates in the tree returns
RB_DUPLICATE and leaves the tree unchanged: the tree handle (root and
both cached extreme pointers) is untouched, the heap still lays out the
same tree, rb_tree_find answers every query as before, and no heap cell
other than the caller supplied candidate changes. -/
theorem insert_present_key_duplicate_unchanged
    (s : St) (t : T) (key : Int) (ni : Nat) (fuel : Nat) (e : Nat)
    (hrepr : reprAt s.heap none s.tree.root t)
    (hni : ni ∉ t.ids)
    (hfound : rb_tree_find s key fuel = some (some e)) :
    ∃ s2, rb_tree_insert s key ni fuel = some (InsRes.dup, s2) ∧
      s2.tree = s.tree ∧
      reprAt s2.heap none s.tree.root t ∧
      (∀ key2 fuel2, rb_tree_find s2 key2 fuel2 = rb_tree_find s key2 fuel2) ∧
      (∀ j, j ≠ ni → s2.heap.get j = s.heap.get j) := by
  cases hroot : s.tree.root with
  | none =>
    rw [rb_tree_find, hroot] at hfound
    simp at hfound
  | some r =>
    have hrepr2 : reprAt s.heap none (some r) t := hroot ▸ hrepr
    set h1 : Heap := (s.heap.upd ni
      { left := none, right := none, parent := none, key := key,
        color := (s.heap.get ni).color }).setColor ni Color.red with hh1
    have hag : ∀ j ∈ t.ids, h1.get j = s.heap.get j := by
      intro j hj
      have hne : j ≠ ni := fun hEq => hni (hEq ▸ hj)
      simp [hh1, hne]
    have hkey1 : (h1.get ni).key = key := by simp [hh1]
    have hfind : findLoop s.heap key fuel (some r) = some (some e) := by
      rw [rb_tree_find, hroot] at hfound
      simpa [hroot] using hfound
    have hloop : insertLoop ni fuel h1 true r = some none :=
      insertLoop_dup_of_findLoop s.heap h1 ni key hkey1 t hag hni none
        (some r) fuel e true r hrepr2 hfind rfl
    refine ⟨{ s with heap := h1 }, ?_, rfl, ?_, ?_, ?_⟩
    · rw [rb_tree_insert, hroot]
      simp only [hloop]
    · exact reprAt_congr s.heap h1 t hag none (some r) hrepr2
    · intro key2 fuel2
      show rb_tree_find { s with heap := h1 } key2 fuel2 =
        rb_tree_find s key2 fuel2
      rw [rb_tree_find, rb_tree_find]
      simp only [hroot]
      exact findLoop_congr s.heap h1 key2 t hag none (some r) fuel2 hrepr2
    · intro j hj
      simp [hh1, hj]

/-- Witness for C4: key 5 is stored at node 1 of oneSt; inserting key 5
again at node 2 yields RB_DUPLICATE with the tree handle unchanged. -/
theorem insert_present_key_duplicate_unchanged_witness :
    reprAt oneSt.heap none oneSt.tree.root
        (T.node T.nil 1 Color.black 5 T.nil) ∧
    (2 : Nat) ∉ (T.node T.nil 1 Color.black 5 T.nil).ids ∧
    rb_tree_find oneSt 5 10 = some (some 1) ∧
    dupSt.tree = oneSt.tree := by
  refine ⟨by decide, by decide, by decide, ?_⟩
  obtain ⟨s2, h2, ht, -, -, -⟩ :=
    insert_present_key_duplicate_unchanged oneSt
      (T.node T.nil 1 Color.black 5 T.nil) 5 2 10 1
      (by decide) (by decide) (by decide)
  have hd : rb_tree_insert oneSt 5 2 10 = some (InsRes.dup, dupSt) := by
    decide
  rw [h2] at hd
  obtain rfl : s2 = dupSt := by simpa using hd
  exact ht

/-! ## Plug and decomposition lemmas -/

theorem reprAt_rootRef (h : Heap) (par x : Option Nat) (t : T) :
    reprAt h par x t → x = t.rootRef := by
  cases t with
  | nil => intro hx; exact hx
  | node l i c k r => intro hx; exact hx.1

theorem T.ids_eq_seq (t : T) : t.ids = t.seq.map Prod.fst := by
  induction t with
  | nil => rfl
  | node l i c k r ihl ihr => simp [T.ids, T.seq, ihl, ihr]

theorem seq_plug (ctx : Ctx) (t : T) :
    (ctx.plug t).seq = ctx.seqPre ++ t.seq ++ ctx.seqPost := by
  induction ctx generalizing t with
  | top => simp [Ctx.plug, Ctx.seqPre, Ctx.seqPost]
  | goL up i c k r ih =>
    simp [Ctx.plug, Ctx.seqPre, Ctx.seqPost, ih]
  | goR up l i c k ih =>
    simp [Ctx.plug, Ctx.seqPre, Ctx.seqPost, ih]

theorem Ctx.preIds_eq_seqPre (ctx : Ctx) :
    ctx.preIds = ctx.seqPre.map Prod.fst := by
  induction ctx with
  | top => rfl
  | goL up i c k r ih => simp [Ctx.preIds, Ctx.seqPre, ih]
  | goR up l i c k ih => simp [Ctx.preIds, Ctx.seqPre, ih, T.ids_eq_seq]

theorem Ctx.postIds_eq_seqPost (ctx : Ctx) :
    ctx.postIds = ctx.seqPost.map Prod.fst := by
  induction ctx with
  | top => rfl
  | goL up i c k r ih => simp [Ctx.postIds, Ctx.seqPost, ih, T.ids_eq_seq]
  | goR up l i c k ih => simp [Ctx.postIds, Ctx.seqPost, ih]

theorem ids_plug (ctx : Ctx) (t : T) :
    (ctx.plug t).ids = footprint ctx t := by
  simp [footprint, T.ids_eq_seq, seq_plug, Ctx.preIds_eq_seqPre,
    Ctx.postIds_eq_seqPost]

theorem plug_appendC (inner outer : Ctx) (t : T) :
    (inner.appendC outer).plug t = outer.plug (inner.plug t) := by
  induction inner generalizing t with
  | top => rfl
  | goL up i c k r ih => simp [Ctx.appendC, Ctx.plug, ih]
  | goR up l i c k ih => simp [Ctx.appendC, Ctx.plug, ih]

theorem seqPre_appendC (inner outer : Ctx) :
    (inner.appendC outer).seqPre = outer.seqPre ++ inner.seqPre := by
  induction inner with
  | top => simp [Ctx.appendC, Ctx.seqPre]
  | goL up i c k r ih => simp [Ctx.appendC, Ctx.seqPre, ih]
  | goR up l i c k ih => simp [Ctx.appendC, Ctx.seqPre, ih]

theorem seqPost_appendC (inner outer : Ctx) :
    (inner.appendC outer).seqPost = inner.seqPost ++ outer.seqPost := by
  induction inner with
  | top => simp [Ctx.appendC, Ctx.seqPost]
  | goL up i c k r ih => simp [Ctx.appendC, Ctx.seqPost, ih]
  | goR up l i c k ih => simp [Ctx.appendC, Ctx.seqPost, ih]

theorem repr_plug_mk (h : Heap) (root : Option Nat) (ctx : Ctx)
    (sub : T) (x : Option Nat) :
    reprCtx h root ctx x → reprAt h ctx.holePar x sub →
    reprAt h none root (ctx.plug sub) := by
  induction ctx generalizing sub x with
  | top =>
    intro hc hs
    cases hc
    exact hs
  | goL up i c k r ih =>
    intro hc hs
    obtain ⟨hx, hp, hcol, hk, hr, hup⟩ := hc
    refine ih (T.node sub i c k r) (some i) hup ?_
    exact ⟨rfl, hp, hcol, hk, hx ▸ hs, hr⟩
  | goR up l i c k ih =>
    intro hc hs
    obtain ⟨hx, hp, hcol, hk, hl, hup⟩ := hc
    refine ih (T.node l i c k sub) (some i) hup ?_
    exact ⟨rfl, hp, hcol, hk, hl, hx ▸ hs⟩

theorem repr_plug_split (h : Heap) (root : Option Nat) (ctx : Ctx)
    (sub : T) :
    reprAt h none root (ctx.plug sub) →
    reprCtx h root ctx sub.rootRef ∧
      reprAt h ctx.holePar sub.rootRef sub := by
  induction ctx generalizing sub with
  | top =>
    intro hr
    have := reprAt_rootRef h none root _ hr
    exact ⟨this, this ▸ hr⟩
  | goL up i c k r ih =>
    intro hr
    obtain ⟨hc, hs⟩ := ih (T.node sub i c k r) hr
    obtain ⟨-, hp, hcol, hk, hl, hrr⟩ := hs
    have hx : (h.get i).left = sub.rootRef := reprAt_rootRef h _ _ _ hl
    exact ⟨⟨hx, hp, hcol, hk, hrr, hc⟩, hx ▸ hl⟩
  | goR up l i c k ih =>
    intro hr
    obtain ⟨hc, hs⟩ := ih (T.node l i c k sub) hr
    obtain ⟨-, hp, hcol, hk, hll, hrr⟩ := hs
    have hx : (h.get i).right = sub.rootRef := reprAt_rootRef h _ _ _ hrr
    exact ⟨⟨hx, hp, hcol, hk, hll, hc⟩, hx ▸ hrr⟩

theorem reprCtx_congr (h h2 : Heap) (root : Option Nat) (ctx : Ctx) :
    (∀ j ∈ ctx.preIds ++ ctx.postIds, h2.get j = h.get j) →
    ∀ x, reprCtx h root ctx x → reprCtx h2 root ctx x := by
  induction ctx with
  | top => intro _ x hc; exact hc
  | goL up i c k r ih =>
    intro hag x hc
    obtain ⟨hx, hp, hcol, hk, hr, hup⟩ := hc
    have hi : h2.get i = h.get i := by
      apply hag; simp [Ctx.preIds, Ctx.postIds]
    refine ⟨hi ▸ hx, hi ▸ hp, hi ▸ hcol, hi ▸ hk, ?_, ?_⟩
    · rw [hi]
      exact reprAt_congr h h2 r
        (fun j hj => hag j (by simp [Ctx.preIds, Ctx.postIds, hj])) _ _ hr
    · exact ih (fun j hj => hag j
        (by
          simp only [Ctx.preIds, Ctx.postIds, List.mem_append] at hj ⊢
          tauto)) _ hup
  | goR up l i c k ih =>
    intro hag x hc
    obtain ⟨hx, hp, hcol, hk, hl, hup⟩ := hc
    have hi : h2.get i = h.get i := by
      apply hag; simp [Ctx.preIds, Ctx.postIds]
    refine ⟨hi ▸ hx, hi ▸ hp, hi ▸ hcol, hi ▸ hk, ?_, ?_⟩
    · rw [hi]
      exact reprAt_congr h h2 l
        (fun j hj => hag j (by simp [Ctx.preIds, Ctx.postIds, hj])) _ _ hl
    · exact ih (fun j hj => hag j
        (by
          simp only [Ctx.preIds, Ctx.postIds, List.mem_append] at hj ⊢
          tauto)) _ hup

theorem holePar_mem_ids (ctx : Ctx) (pi : Nat) :
    ctx.holePar = some pi → pi ∈ ctx.preIds ++ ctx.postIds := by
  cases ctx with
  | top => intro h; cases h
  | goL up i c k r =>
    intro h
    obtain rfl : i = pi := by simpa [Ctx.holePar] using h
    simp [Ctx.preIds, Ctx.postIds]
  | goR up l i c k =>
    intro h
    obtain rfl : i = pi := by simpa [Ctx.holePar] using h
    simp [Ctx.preIds, Ctx.postIds]

theorem BstB_plug (lo hi : Option Int) (ctx : Ctx) (t : T) :
    BstB lo hi (ctx.plug t) ↔
      CtxBstB lo hi ctx ∧ BstB (ctx.loB lo) (ctx.hiB hi) t := by
  induction ctx generalizing t with
  | top => simp [Ctx.plug, CtxBstB, Ctx.loB, Ctx.hiB]
  | goL up i c k r ih =>
    show BstB lo hi (up.plug (T.node t i c k r)) ↔ _
    rw [ih]
    show _ ∧ (_ ∧ _ ∧ _ ∧ _) ↔ (_ ∧ _ ∧ _ ∧ _) ∧ _
    simp only [CtxBstB, Ctx.loB, Ctx.hiB]
    tauto
  | goR up l i c k ih =>
    show BstB lo hi (up.plug (T.node l i c k t)) ↔ _
    rw [ih]
    show _ ∧ (_ ∧ _ ∧ _ ∧ _) ↔ (_ ∧ _ ∧ _ ∧ _) ∧ _
    simp only [CtxBstB, Ctx.loB, Ctx.hiB]
    tauto

/-! ## Rotation refinement -/

theorem nodup_append_triple {l1 l2 l3 : List Nat}
    (h : (l1 ++ l2 ++ l3).Nodup) :
    l1.Nodup ∧ l2.Nodup ∧ l3.Nodup ∧
    (∀ a ∈ l1, a ∉ l2 ∧ a ∉ l3) ∧ (∀ a ∈ l2, a ∉ l3) := by
  have h12 : (l1 ++ l2).Nodup := h.of_append_left
  have h3 : l3.Nodup := h.of_append_right
  have d123 : (l1 ++ l2).Disjoint l3 := List.disjoint_of_nodup_append h
  have h1 : l1.Nodup := h12.of_append_left
  have h2 : l2.Nodup := h12.of_append_right
  have d12 : l1.Disjoint l2 := List.disjoint_of_nodup_append h12
  exact ⟨h1, h2, h3,
    fun a ha => ⟨fun hb => d12 ha hb,
      fun hb => d123 (List.mem_append_left _ ha) hb⟩,
    fun a ha => fun hb => d123 (List.mem_append_right _ ha) hb⟩

theorem rootRef_mem (t : T) (i : Nat) : t.rootRef = some i → i ∈ t.ids := by
  cases t with
  | nil => intro h; cases h
  | node l j c k r =>
    intro h
    obtain rfl : j = i := by simpa [T.rootRef] using h
    simp

/-- Rewriting only the parent field of a subtree's root cell re-hangs
the subtree under a new parent. -/
theorem reprAt_reparent (h h2 : Heap) (t : T) (pNew pOld : Option Nat)
    (hNod : t.ids.Nodup)
    (ht : reprAt h pOld t.rootRef t)
    (hroot : ∀ b, t.rootRef = some b →
      (h2.get b).parent = pNew ∧ (h2.get b).left = (h.get b).left ∧
      (h2.get b).right = (h.get b).right ∧
      (h2.get b).color = (h.get b).color ∧ (h2.get b).key = (h.get b).key)
    (hrest : ∀ j ∈ t.ids, t.rootRef ≠ some j → h2.get j = h.get j) :
    reprAt h2 pNew t.rootRef t := by
  cases t with
  | nil => exact rfl
  | node l b c k r =>
    obtain ⟨-, hp, hc, hk, hl, hr⟩ := ht
    obtain ⟨hb_p, hb_l, hb_r, hb_c, hb_k⟩ := hroot b rfl
    have hb2 : (l.ids ++ [b] ++ r.ids).Nodup := by simpa using hNod
    obtain ⟨-, -, -, hfl, hfm⟩ := nodup_append_triple hb2
    have hbl : b ∉ l.ids := fun hb => (hfl b hb).1 (by simp)
    have hbr : b ∉ r.ids := fun hb => hfm b (by simp) hb
    refine ⟨rfl, hb_p, by rw [hb_c]; exact hc, by rw [hb_k]; exact hk, ?_, ?_⟩
    · rw [hb_l]
      refine reprAt_congr h h2 l ?_ _ _ hl
      intro j hj
      refine hrest j (by simp [hj]) ?_
      simp only [T.rootRef]
      intro hbj
      obtain rfl : b = j := Option.some.inj hbj
      exact hbl hj
    · rw [hb_r]
      refine reprAt_congr h h2 r ?_ _ _ hr
      intro j hj
      refine hrest j (by simp [hj]) ?_
      simp only [T.rootRef]
      intro hbj
      obtain rfl : b = j := Option.some.inj hbj
      exact hbr hj

theorem rotate_left_spec (s : St) (ctx : Ctx) (A B C : T) (x y : Nat)
    (cx cy : Color) (kx ky : Int)
    (hN : (footprint ctx (T.node A x cx kx (T.node B y cy ky C))).Nodup)
    (hctx : reprCtx s.heap s.tree.root ctx (some x))
    (hsub : reprAt s.heap ctx.holePar (some x)
      (T.node A x cx kx (T.node B y cy ky C))) :
    ∃ s2, __helper_rotate_left s x = some s2 ∧
      reprCtx s2.heap s2.tree.root ctx (some y) ∧
      reprAt s2.heap ctx.holePar (some y)
        (T.node (T.node A x cx kx B) y cy ky C) ∧
      s2.tree.leftmost = s.tree.leftmost ∧
      s2.tree.rightmost = s.tree.rightmost ∧
      (∀ j, j ∉ footprint ctx (T.node A x cx kx (T.node B y cy ky C)) →
        s2.heap.get j = s.heap.get j) := by
  obtain ⟨-, hxp, hxc, hxk, hA, hxr⟩ := hsub
  obtain ⟨hxry, hyp, hyc, hyk, hB, hC⟩ := hxr
  have hmidE : (T.node A x cx kx (T.node B y cy ky C)).ids =
      A.ids ++ [x] ++ (B.ids ++ [y] ++ C.ids) := by simp [T.ids]
  have hNX : (ctx.preIds ++ (A.ids ++ [x] ++ (B.ids ++ [y] ++ C.ids)) ++
      ctx.postIds).Nodup := by
    have := hN
    rw [footprint, hmidE] at this
    exact this
  obtain ⟨hpreN, hmidN, hpostN, hpre_f, hmid_post⟩ := nodup_append_triple hNX
  obtain ⟨hAN, hxN, hBYC, hA_f, hx_f⟩ := nodup_append_triple hmidN
  obtain ⟨hBN, hyN, hCN, hB_f, hy_f⟩ := nodup_append_triple hBYC
  -- basic distinctness
  have hxmem : x ∈ A.ids ++ [x] ++ (B.ids ++ [y] ++ C.ids) := by simp
  have hymem : y ∈ A.ids ++ [x] ++ (B.ids ++ [y] ++ C.ids) := by simp
  have hyx : y ≠ x := by
    intro hEq
    exact hx_f x (by simp) (by simp [hEq])
  have hxy : x ≠ y := fun hEq => hyx hEq.symm
  have hbx : ∀ b, B.rootRef = some b → b ≠ x := by
    intro b hb hEq
    exact hx_f x (by simp) (by simp [← hEq, rootRef_mem B b hb])
  have hby : ∀ b, B.rootRef = some b → b ≠ y := by
    intro b hb hEq
    exact hB_f b (rootRef_mem B b hb) |>.1 (by simp [hEq])
  have hbmem : ∀ b, B.rootRef = some b →
      b ∈ A.ids ++ [x] ++ (B.ids ++ [y] ++ C.ids) := by
    intro b hb
    simp [rootRef_mem B b hb]
  have hB1 : (s.heap.get y).left = B.rootRef := reprAt_rootRef _ _ _ _ hB
  have hC1 : (s.heap.get y).right = C.rootRef := reprAt_rootRef _ _ _ _ hC
  have hA1 : (s.heap.get x).left = A.rootRef := reprAt_rootRef _ _ _ _ hA
  -- the tools to rebuild the representation from per-cell facts
  have rebuild : ∀ s2 : St,
      s2.heap.get x =
        { s.heap.get x with right := B.rootRef, parent := some y } →
      s2.heap.get y =
        { s.heap.get y with left := some x, parent := ctx.holePar } →
      (∀ b, B.rootRef = some b →
        s2.heap.get b = { s.heap.get b with parent := some x }) →
      (∀ j, j ∈ A.ids ++ [x] ++ (B.ids ++ [y] ++ C.ids) → j ≠ x → j ≠ y →
        B.rootRef ≠ some j → s2.heap.get j = s.heap.get j) →
      reprAt s2.heap ctx.holePar (some y)
        (T.node (T.node A x cx kx B) y cy ky C) := by
    intro s2 hgx hgy hgb hother
    have hAcells : ∀ j ∈ A.ids, s2.heap.get j = s.heap.get j := by
      intro j hj
      refine hother j (by simp [hj]) ?_ ?_ ?_
      · intro hEq; exact (hA_f j hj).1 (by simp [hEq])
      · intro hEq; exact (hA_f j hj).2 (by simp [hEq])
      · intro hEq
        exact (hA_f j hj).2 (by simp [rootRef_mem B j hEq])
    have hCcells : ∀ j ∈ C.ids, s2.heap.get j = s.heap.get j := by
      intro j hj
      refine hother j ?_ ?_ ?_ ?_
      · exact List.mem_append_right _ (List.mem_append_right _ hj)
      · intro hEq
        exact hx_f x (by simp) (List.mem_append_right _ (hEq ▸ hj))
      · intro hEq
        exact hy_f y (by simp) (hEq ▸ hj)
      · intro hEq
        exact (hB_f j (rootRef_mem B j hEq)).2 hj
    have hBcells : ∀ j ∈ B.ids, B.rootRef ≠ some j →
        s2.heap.get j = s.heap.get j := by
      intro j hj hnb
      refine hother j ?_ ?_ ?_ hnb
      · exact List.mem_append_right _
          (List.mem_append_left _ (List.mem_append_left _ hj))
      · intro hEq
        exact hx_f x (by simp)
          (List.mem_append_left _ (List.mem_append_left _ (hEq ▸ hj)))
      · intro hEq
        exact (hB_f j hj).1 (by simp [hEq])
    refine ⟨rfl, by rw [hgy], by rw [hgy]; exact hyc, by rw [hgy]; exact hyk,
      ?_, ?_⟩
    · -- left subtree of y: the node x with A and B below it
      rw [hgy]
      show reprAt s2.heap (some y) (some x) (T.node A x cx kx B)
      refine ⟨rfl, by rw [hgx], by rw [hgx]; exact hxc,
        by rw [hgx]; exact hxk, ?_, ?_⟩
      · -- A keeps hanging left of x
        rw [hgx]
        show reprAt s2.heap (some x) ((s.heap.get x).left) A
        exact reprAt_congr s.heap s2.heap A hAcells _ _ hA
      · -- B now hangs right of x, reparented
        rw [hgx]
        show reprAt s2.heap (some x) B.rootRef B
        refine reprAt_reparent s.heap s2.heap B (some x) (some y) hBN ?_ ?_ ?_
        · rw [← hB1]; exact hB
        · intro b hb
          rw [hgb b hb]
          exact ⟨rfl, rfl, rfl, rfl, rfl⟩
        · exact hBcells
    · -- C keeps hanging right of y
      rw [hgy]
      show reprAt s2.heap (some y) ((s.heap.get y).right) C
      exact reprAt_congr s.heap s2.heap C hCcells _ _ hC
  -- now case on the context and on B to execute the writes
  cases ctx with
  | top =>
    have hroot : s.tree.root = some x := hctx
    have hpar0 : (s.heap.get x).parent = none := by
      rw [hxp]; rfl
    cases B with
    | nil =>
      have hB1n : (s.heap.get y).left = none := hB1
      refine ⟨⟨{ s.tree with root := some y },
        (((s.heap.setRight x none).setParent y none).setLeft y
          (some x)).setParent x (some y)⟩, ?_, ?_, ?_, rfl, rfl, ?_⟩
      · simp only [__helper_rotate_left, hxry]
        simp only [Heap.get_setRight, Heap.get_setParent, Heap.get_setLeft,
          if_pos rfl, hyx, if_neg hyx]
        simp [hB1n, hpar0, hyx, hxy]
      · show (some y : Option Nat) = some y
        rfl
      · apply rebuild
        · simp [hyx, hxy, hpar0, T.rootRef]
        · simp [hyx, hxy, Ctx.holePar]
        · intro b hb; cases hb
        · intro j hj hjx hjy _
          simp [hjx, hjy]
      · intro j hj
        have hjx : j ≠ x := by
          intro hEq
          exact hj (by rw [footprint, hmidE]; simp [hEq])
        have hjy : j ≠ y := by
          intro hEq
          exact hj (by rw [footprint, hmidE]; simp [hEq])
        simp [hjx, hjy]
    | node Bl b0 bc bk Br =>
      have hB1s : (s.heap.get y).left = some b0 := hB1
      have hb0x : b0 ≠ x := hbx b0 rfl
      have hb0y : b0 ≠ y := hby b0 rfl
      have hxb0 : x ≠ b0 := fun hEq => hb0x hEq.symm
      have hyb0 : y ≠ b0 := fun hEq => hb0y hEq.symm
      refine ⟨⟨{ s.tree with root := some y },
        ((((s.heap.setRight x (some b0)).setParent b0
          (some x)).setParent y none).setLeft y (some x)).setParent x
          (some y)⟩, ?_, ?_, ?_, rfl, rfl, ?_⟩
      · simp only [__helper_rotate_left, hxry]
        simp only [Heap.get_setRight, Heap.get_setParent, Heap.get_setLeft,
          if_pos rfl, hyx, if_neg hyx]
        simp [hB1s, hpar0, hyx, hxy, hxb0, hyb0, hb0x, hb0y]
      · show (some y : Option Nat) = some y
        rfl
      · apply rebuild
        · simp [hyx, hxy, hxb0, hpar0, T.rootRef]
        · simp [hyx, hxy, hyb0, Ctx.holePar]
        · intro b hb
          obtain rfl : b0 = b := by simpa [T.rootRef] using hb
          simp [hb0x, hb0y]
        · intro j hj hjx hjy hjb
          have hjb0 : j ≠ b0 := by
            intro hEq
            exact hjb (by simp [T.rootRef, hEq])
          simp [hjx, hjy, hjb0]
      · intro j hj
        have hjx : j ≠ x := by
          intro hEq
          exact hj (by rw [footprint, hmidE]; simp [hEq])
        have hjy : j ≠ y := by
          intro hEq
          exact hj (by rw [footprint, hmidE]; simp [hEq])
        have hjb0 : j ≠ b0 := by
          intro hEq
          exact hj (by rw [footprint, hmidE]; simp [hEq])
        simp [hjx, hjy, hjb0]
  | goL up pi pc pk pr =>
    obtain ⟨hslot, hpip, hpic, hpik, hpr, hup⟩ := hctx
    have hparx : (s.heap.get x).parent = some pi := hxp
    have hpost : pi ∈ Ctx.postIds (Ctx.goL up pi pc pk pr) := by
      simp [Ctx.postIds]
    have hpix : pi ≠ x := fun hEq => hmid_post x hxmem (hEq ▸ hpost)
    have hpiy : pi ≠ y := fun hEq => hmid_post y hymem (hEq ▸ hpost)
    have hxpi : x ≠ pi := fun hEq => hpix hEq.symm
    have hypi : y ≠ pi := fun hEq => hpiy hEq.symm
    have hpib : ∀ b, B.rootRef = some b → b ≠ pi := by
      intro b hb hEq
      exact hmid_post b (hbmem b hb) (hEq ▸ hpost)
    have hpostN2 : pi ∉ pr.ids ++ up.postIds := by
      have : (pi :: (pr.ids ++ up.postIds)).Nodup := by
        simpa [Ctx.postIds] using hpostN
      exact (List.nodup_cons.mp this).1
    have hprsub : ∀ j ∈ pr.ids, j ∈ Ctx.postIds (Ctx.goL up pi pc pk pr) := by
      intro j hj
      simp [Ctx.postIds, hj]
    have hcells : ∀ s2 : St, s2.tree = s.tree →
        s2.heap.get pi = { s.heap.get pi with left := some y } →
        (∀ j, j ∈ Ctx.preIds (Ctx.goL up pi pc pk pr) ++
            Ctx.postIds (Ctx.goL up pi pc pk pr) → j ≠ pi →
            s2.heap.get j = s.heap.get j) →
        reprCtx s2.heap s2.tree.root (Ctx.goL up pi pc pk pr) (some y) := by
      intro s2 ht hgpi hother
      refine ⟨by rw [hgpi], by rw [hgpi]; exact hpip,
        by rw [hgpi]; exact hpic, by rw [hgpi]; exact hpik, ?_, ?_⟩
      · rw [hgpi]
        show reprAt s2.heap (some pi) ((s.heap.get pi).right) pr
        refine reprAt_congr s.heap s2.heap pr ?_ _ _ hpr
        intro j hj
        refine hother j (List.mem_append_right _ (hprsub j hj)) ?_
        intro hEq
        exact hpostN2 (List.mem_append_left _ (hEq ▸ hj))
      · rw [ht]
        refine reprCtx_congr s.heap s2.heap s.tree.root up ?_ _ hup
        intro j hj
        have hj2 : j ∈ Ctx.preIds (Ctx.goL up pi pc pk pr) ++
            Ctx.postIds (Ctx.goL up pi pc pk pr) := by
          simp only [Ctx.preIds, Ctx.postIds, List.mem_append,
            List.mem_cons] at hj ⊢
          tauto
        refine hother j hj2 ?_
        intro hEq
        rcases List.mem_append.mp hj with hjp | hjq
        · exact (hpre_f j hjp).2 (by rw [hEq]; exact hpost)
        · exact hpostN2 (List.mem_append_right _ (hEq ▸ hjq))
    cases B with
    | nil =>
      have hB1n : (s.heap.get y).left = none := hB1
      refine ⟨⟨s.tree,
        ((((s.heap.setRight x none).setParent y (some pi)).setLeft pi
          (some y)).setLeft y (some x)).setParent x (some y)⟩,
        ?_, ?_, ?_, rfl, rfl, ?_⟩
      · simp only [__helper_rotate_left, hxry]
        simp [hB1n, hparx, hyx, hxy, hxpi, hypi, hpix, hpiy, hslot]
      · refine hcells _ ?_ ?_ ?_
        · rfl
        · simp [hpix, hpiy]
        · intro j hj hjpi
          have hjx : j ≠ x := by
            intro hEq
            rcases List.mem_append.mp hj with hjp | hjq
            · exact (hpre_f j hjp).1 (by rw [hEq]; exact hxmem)
            · exact hmid_post x hxmem (hEq ▸ hjq)
          have hjy : j ≠ y := by
            intro hEq
            rcases List.mem_append.mp hj with hjp | hjq
            · exact (hpre_f j hjp).1 (by rw [hEq]; exact hymem)
            · exact hmid_post y hymem (hEq ▸ hjq)
          simp [hjx, hjy, hjpi]
      · apply rebuild
        · simp [hyx, hxy, hxpi, T.rootRef]
        · simp [hyx, hxy, hypi, Ctx.holePar]
        · intro b hb; cases hb
        · intro j hj hjx hjy _
          have hjpi : j ≠ pi := by
            intro hEq
            exact hmid_post j hj (hEq ▸ hpost)
          simp [hjx, hjy, hjpi]
      · intro j hj
        have hjx : j ≠ x := by
          intro hEq
          exact hj (by rw [footprint, hmidE]; simp [hEq])
        have hjy : j ≠ y := by
          intro hEq
          exact hj (by rw [footprint, hmidE]; simp [hEq])
        have hjpi : j ≠ pi := by
          intro hEq
          exact hj (by
            rw [footprint]
            exact List.mem_append_right _ (hEq ▸ hpost))
        simp [hjx, hjy, hjpi]
    | node Bl b0 bc bk Br =>
      have hB1s : (s.heap.get y).left = some b0 := hB1
      have hb0x : b0 ≠ x := hbx b0 rfl
      have hb0y : b0 ≠ y := hby b0 rfl
      have hxb0 : x ≠ b0 := fun hEq => hb0x hEq.symm
      have hyb0 : y ≠ b0 := fun hEq => hb0y hEq.symm
      have hb0pi : b0 ≠ pi := hpib b0 rfl
      have hpib0 : pi ≠ b0 := fun hEq => hb0pi hEq.symm
      refine ⟨⟨s.tree,
        (((((s.heap.setRight x (some b0)).setParent b0
          (some x)).setParent y (some pi)).setLeft pi
          (some y)).setLeft y (some x)).setParent x (some y)⟩,
        ?_, ?_, ?_, rfl, rfl, ?_⟩
      · simp only [__helper_rotate_left, hxry]
        simp [hB1s, hparx, hyx, hxy, hxpi, hypi, hpix, hpiy, hslot,
          hxb0, hyb0, hb0x, hb0y, hpib0, hb0pi]
      · refine hcells _ ?_ ?_ ?_
        · rfl
        · simp [hpix, hpiy, hpib0]
        · intro j hj hjpi
          have hjx : j ≠ x := by
            intro hEq
            rcases List.mem_append.mp hj with hjp | hjq
            · exact (hpre_f j hjp).1 (by rw [hEq]; exact hxmem)
            · exact hmid_post x hxmem (hEq ▸ hjq)
          have hjy : j ≠ y := by
            intro hEq
            rcases List.mem_append.mp hj with hjp | hjq
            · exact (hpre_f j hjp).1 (by rw [hEq]; exact hymem)
            · exact hmid_post y hymem (hEq ▸ hjq)
          have hjb0 : j ≠ b0 := by
            intro hEq
            rcases List.mem_append.mp hj with hjp | hjq
            · exact (hpre_f j hjp).1 (by rw [hEq]; exact hbmem b0 rfl)
            · exact hmid_post b0 (hbmem b0 rfl) (hEq ▸ hjq)
          simp [hjx, hjy, hjpi, hjb0]
      · apply rebuild
        · simp [hyx, hxy, hxpi, hxb0, T.rootRef]
        · simp [hyx, hxy, hypi, hyb0, Ctx.holePar]
        · intro b hb
          obtain rfl : b0 = b := by simpa [T.rootRef] using hb
          simp [hb0x, hb0y, hb0pi]
        · intro j hj hjx hjy hjb
          have hjpi : j ≠ pi := by
            intro hEq
            exact hmid_post j hj (hEq ▸ hpost)
          have hjb0 : j ≠ b0 := by
            intro hEq
            exact hjb (by simp [T.rootRef, hEq])
          simp [hjx, hjy, hjpi, hjb0]
      · intro j hj
        have hjx : j ≠ x := by
          intro hEq
          exact hj (by rw [footprint, hmidE]; simp [hEq])
        have hjy : j ≠ y := by
          intro hEq
          exact hj (by rw [footprint, hmidE]; simp [hEq])
        have hjb0 : j ≠ b0 := by
          intro hEq
          exact hj (by rw [footprint, hmidE]; simp [hEq])
        have hjpi : j ≠ pi := by
          intro hEq
          exact hj (by
            rw [footprint]
            exact List.mem_append_right _ (hEq ▸ hpost))
        simp [hjx, hjy, hjb0, hjpi]
  | goR up pl pi pc pk =>
    obtain ⟨hslot, hpip, hpic, hpik, hpl, hup⟩ := hctx
    have hparx : (s.heap.get x).parent = some pi := hxp
    have hpreM : pi ∈ Ctx.preIds (Ctx.goR up pl pi pc pk) := by
      simp [Ctx.preIds]
    have hpix : pi ≠ x := fun hEq => (hpre_f pi hpreM).1
      (by rw [hEq]; exact hxmem)
    have hpiy : pi ≠ y := fun hEq => (hpre_f pi hpreM).1
      (by rw [hEq]; exact hymem)
    have hxpi : x ≠ pi := fun hEq => hpix hEq.symm
    have hypi : y ≠ pi := fun hEq => hpiy hEq.symm
    have hpib : ∀ b, B.rootRef = some b → b ≠ pi := by
      intro b hb hEq
      exact (hpre_f pi hpreM).1 (by rw [← hEq]; exact hbmem b hb)
    have hpreN2 : (up.preIds ++ pl.ids ++ [pi]).Nodup := by
      simpa [Ctx.preIds] using hpreN
    obtain ⟨hupN, hplN, -, hupl_f, hplpi⟩ := nodup_append_triple hpreN2
    have hpll : (s.heap.get pi).left = pl.rootRef :=
      reprAt_rootRef _ _ _ _ hpl
    have hlneq : ¬((s.heap.get pi).left = some x) := by
      intro hEq
      have hxpl : x ∈ pl.ids := rootRef_mem pl x (by rw [← hpll]; exact hEq)
      have : x ∈ Ctx.preIds (Ctx.goR up pl pi pc pk) := by
        show x ∈ up.preIds ++ pl.ids ++ [pi]
        exact List.mem_append_left _ (List.mem_append_right _ hxpl)
      exact (hpre_f x this).1 hxmem
    have hplsub : ∀ j ∈ pl.ids, j ∈ Ctx.preIds (Ctx.goR up pl pi pc pk) := by
      intro j hj
      show j ∈ up.preIds ++ pl.ids ++ [pi]
      exact List.mem_append_left _ (List.mem_append_right _ hj)
    have hcells : ∀ s2 : St, s2.tree = s.tree →
        s2.heap.get pi = { s.heap.get pi with right := some y } →
        (∀ j, j ∈ Ctx.preIds (Ctx.goR up pl pi pc pk) ++
            Ctx.postIds (Ctx.goR up pl pi pc pk) → j ≠ pi →
            s2.heap.get j = s.heap.get j) →
        reprCtx s2.heap s2.tree.root (Ctx.goR up pl pi pc pk) (some y) := by
      intro s2 ht hgpi hother
      refine ⟨by rw [hgpi], by rw [hgpi]; exact hpip,
        by rw [hgpi]; exact hpic, by rw [hgpi]; exact hpik, ?_, ?_⟩
      · rw [hgpi]
        show reprAt s2.heap (some pi) ((s.heap.get pi).left) pl
        refine reprAt_congr s.heap s2.heap pl ?_ _ _ hpl
        intro j hj
        refine hother j (List.mem_append_left _ (hplsub j hj)) ?_
        intro hEq
        exact hplpi j hj (by simp [hEq])
      · rw [ht]
        refine reprCtx_congr s.heap s2.heap s.tree.root up ?_ _ hup
        intro j hj
        have hj2 : j ∈ Ctx.preIds (Ctx.goR up pl pi pc pk) ++
            Ctx.postIds (Ctx.goR up pl pi pc pk) := by
          simp only [Ctx.preIds, Ctx.postIds, List.mem_append] at hj ⊢
          tauto
        refine hother j hj2 ?_
        intro hEq
        rcases List.mem_append.mp hj with hjp | hjq
        · exact hupl_f j hjp |>.2 (by simp [hEq])
        · exact (hpre_f pi hpreM).2 (by rw [← hEq]; exact hjq)
    cases B with
    | nil =>
      have hB1n : (s.heap.get y).left = none := hB1
      refine ⟨⟨s.tree,
        ((((s.heap.setRight x none).setParent y (some pi)).setRight pi
          (some y)).setLeft y (some x)).setParent x (some y)⟩,
        ?_, ?_, ?_, rfl, rfl, ?_⟩
      · simp only [__helper_rotate_left, hxry]
        simp [hB1n, hparx, hyx, hxy, hxpi, hypi, hpix, hpiy, hlneq]
      · refine hcells _ ?_ ?_ ?_
        · rfl
        · simp [hpix, hpiy]
        · intro j hj hjpi
          have hjx : j ≠ x := by
            intro hEq
            rcases List.mem_append.mp hj with hjp | hjq
            · exact (hpre_f j hjp).1 (by rw [hEq]; exact hxmem)
            · exact hmid_post x hxmem (hEq ▸ hjq)
          have hjy : j ≠ y := by
            intro hEq
            rcases List.mem_append.mp hj with hjp | hjq
            · exact (hpre_f j hjp).1 (by rw [hEq]; exact hymem)
            · exact hmid_post y hymem (hEq ▸ hjq)
          simp [hjx, hjy, hjpi]
      · apply rebuild
        · simp [hyx, hxy, hxpi, T.rootRef]
        · simp [hyx, hxy, hypi, Ctx.holePar]
        · intro b hb; cases hb
        · intro j hj hjx hjy _
          have hjpi : j ≠ pi := by
            intro hEq
            exact (hpre_f pi hpreM).1 (by rw [← hEq]; exact hj)
          simp [hjx, hjy, hjpi]
      · intro j hj
        have hjx : j ≠ x := by
          intro hEq
          exact hj (by rw [footprint, hmidE]; simp [hEq])
        have hjy : j ≠ y := by
          intro hEq
          exact hj (by rw [footprint, hmidE]; simp [hEq])
        have hjpi : j ≠ pi := by
          intro hEq
          exact hj (by
            rw [footprint]
            refine List.mem_append_left _ (List.mem_append_left _ ?_)
            rw [hEq]
            exact hpreM)
        simp [hjx, hjy, hjpi]
    | node Bl b0 bc bk Br =>
      have hB1s : (s.heap.get y).left = some b0 := hB1
      have hb0x : b0 ≠ x := hbx b0 rfl
      have hb0y : b0 ≠ y := hby b0 rfl
      have hxb0 : x ≠ b0 := fun hEq => hb0x hEq.symm
      have hyb0 : y ≠ b0 := fun hEq => hb0y hEq.symm
      have hb0pi : b0 ≠ pi := hpib b0 rfl
      have hpib0 : pi ≠ b0 := fun hEq => hb0pi hEq.symm
      refine ⟨⟨s.tree,
        (((((s.heap.setRight x (some b0)).setParent b0
          (some x)).setParent y (some pi)).setRight pi
          (some y)).setLeft y (some x)).setParent x (some y)⟩,
        ?_, ?_, ?_, rfl, rfl, ?_⟩
      · simp only [__helper_rotate_left, hxry]
        simp [hB1s, hparx, hyx, hxy, hxpi, hypi, hpix, hpiy, hlneq,
          hxb0, hyb0, hb0x, hb0y, hpib0, hb0pi]
      · refine hcells _ ?_ ?_ ?_
        · rfl
        · simp [hpix, hpiy, hpib0]
        · intro j hj hjpi
          have hjx : j ≠ x := by
            intro hEq
            rcases List.mem_append.mp hj with hjp | hjq
            · exact (hpre_f j hjp).1 (by rw [hEq]; exact hxmem)
            · exact hmid_post x hxmem (hEq ▸ hjq)
          have hjy : j ≠ y := by
            intro hEq
            rcases List.mem_append.mp hj with hjp | hjq
            · exact (hpre_f j hjp).1 (by rw [hEq]; exact hymem)
            · exact hmid_post y hymem (hEq ▸ hjq)
          have hjb0 : j ≠ b0 := by
            intro hEq
            rcases List.mem_append.mp hj with hjp | hjq
            · exact (hpre_f j hjp).1 (by rw [hEq]; exact hbmem b0 rfl)
            · exact hmid_post b0 (hbmem b0 rfl) (hEq ▸ hjq)
          simp [hjx, hjy, hjpi, hjb0]
      · apply rebuild
        · simp [hyx, hxy, hxpi, hxb0, T.rootRef]
        · simp [hyx, hxy, hypi, hyb0, Ctx.holePar]
        · intro b hb
          obtain rfl : b0 = b := by simpa [T.rootRef] using hb
          simp [hb0x, hb0y, hb0pi]
        · intro j hj hjx hjy hjb
          have hjpi : j ≠ pi := by
            intro hEq
            exact (hpre_f pi hpreM).1 (by rw [← hEq]; exact hj)
          have hjb0 : j ≠ b0 := by
            intro hEq
            exact hjb (by simp [T.rootRef, hEq])
          simp [hjx, hjy, hjpi, hjb0]
      · intro j hj
        have hjx : j ≠ x := by
          intro hEq
          exact hj (by rw [footprint, hmidE]; simp [hEq])
        have hjy : j ≠ y := by
          intro hEq
          exact hj (by rw [footprint, hmidE]; simp [hEq])
        have hjb0 : j ≠ b0 := by
          intro hEq
          exact hj (by rw [footprint, hmidE]; simp [hEq])
        have hjpi : j ≠ pi := by
          intro hEq
          exact hj (by
            rw [footprint]
            refine List.mem_append_left _ (List.mem_append_left _ ?_)
            rw [hEq]
            exact hpreM)
        simp [hjx, hjy, hjb0, hjpi]

theorem rotate_right_spec (s : St) (ctx : Ctx) (A B C : T) (x y : Nat)
    (cx cy : Color) (kx ky : Int)
    (hN : (footprint ctx (T.node (T.node A y cy ky B) x cx kx C)).Nodup)
    (hctx : reprCtx s.heap s.tree.root ctx (some x))
    (hsub : reprAt s.heap ctx.holePar (some x)
      (T.node (T.node A y cy ky B) x cx kx C)) :
    ∃ s2, __helper_rotate_right s x = some s2 ∧
      reprCtx s2.heap s2.tree.root ctx (some y) ∧
      reprAt s2.heap ctx.holePar (some y)
        (T.node A y cy ky (T.node B x cx kx C)) ∧
      s2.tree.leftmost = s.tree.leftmost ∧
      s2.tree.rightmost = s.tree.rightmost ∧
      (∀ j, j ∉ footprint ctx (T.node (T.node A y cy ky B) x cx kx C) →
        s2.heap.get j = s.heap.get j) := by
  obtain ⟨-, hxp, hxc, hxk, hxl, hC⟩ := hsub
  obtain ⟨hxly, hyp, hyc, hyk, hA, hB⟩ := hxl
  have hmidE : (T.node (T.node A y cy ky B) x cx kx C).ids =
      A.ids ++ [y] ++ (B.ids ++ [x] ++ C.ids) := by simp [T.ids]
  have hNX : (ctx.preIds ++ (A.ids ++ [y] ++ (B.ids ++ [x] ++ C.ids)) ++
      ctx.postIds).Nodup := by
    have := hN
    rw [footprint, hmidE] at this
    exact this
  obtain ⟨hpreN, hmidN, hpostN, hpre_f, hmid_post⟩ := nodup_append_triple hNX
  obtain ⟨hAN, hyN, hBYC, hA_f, hy_f⟩ := nodup_append_triple hmidN
  obtain ⟨hBN, hxN, hCN, hB_f, hx_f⟩ := nodup_append_triple hBYC
  -- basic distinctness
  have hxmem : x ∈ A.ids ++ [y] ++ (B.ids ++ [x] ++ C.ids) := by simp
  have hymem : y ∈ A.ids ++ [y] ++ (B.ids ++ [x] ++ C.ids) := by simp
  have hxy : x ≠ y := by
    intro hEq
    exact hy_f y (by simp) (by simp [hEq])
  have hyx : y ≠ x := fun hEq => hxy hEq.symm
  have hby : ∀ b, B.rootRef = some b → b ≠ y := by
    intro b hb hEq
    exact hy_f y (by simp) (by simp [← hEq, rootRef_mem B b hb])
  have hbx : ∀ b, B.rootRef = some b → b ≠ x := by
    intro b hb hEq
    exact hB_f b (rootRef_mem B b hb) |>.1 (by simp [hEq])
  have hbmem : ∀ b, B.rootRef = some b →
      b ∈ A.ids ++ [y] ++ (B.ids ++ [x] ++ C.ids) := by
    intro b hb
    simp [rootRef_mem B b hb]
  have hB1 : (s.heap.get y).right = B.rootRef := reprAt_rootRef _ _ _ _ hB
  have hC1 : (s.heap.get x).right = C.rootRef := reprAt_rootRef _ _ _ _ hC
  have hA1 : (s.heap.get y).left = A.rootRef := reprAt_rootRef _ _ _ _ hA
  -- the tools to rebuild the representation from per-cell facts
  have rebuild : ∀ s2 : St,
      s2.heap.get x =
        { s.heap.get x with left := B.rootRef, parent := some y } →
      s2.heap.get y =
        { s.heap.get y with right := some x, parent := ctx.holePar } →
      (∀ b, B.rootRef = some b →
        s2.heap.get b = { s.heap.get b with parent := some x }) →
      (∀ j, j ∈ A.ids ++ [y] ++ (B.ids ++ [x] ++ C.ids) → j ≠ x → j ≠ y →
        B.rootRef ≠ some j → s2.heap.get j = s.heap.get j) →
      reprAt s2.heap ctx.holePar (some y)
        (T.node A y cy ky (T.node B x cx kx C)) := by
    intro s2 hgx hgy hgb hother
    have hAcells : ∀ j ∈ A.ids, s2.heap.get j = s.heap.get j := by
      intro j hj
      refine hother j (by simp [hj]) ?_ ?_ ?_
      · intro hEq; exact (hA_f j hj).2 (by simp [hEq])
      · intro hEq; exact (hA_f j hj).1 (by simp [hEq])
      · intro hEq
        exact (hA_f j hj).2 (by simp [rootRef_mem B j hEq])
    have hCcells : ∀ j ∈ C.ids, s2.heap.get j = s.heap.get j := by
      intro j hj
      refine hother j ?_ ?_ ?_ ?_
      · exact List.mem_append_right _ (List.mem_append_right _ hj)
      · intro hEq
        exact hx_f x (by simp) (hEq ▸ hj)
      · intro hEq
        exact hy_f y (by simp) (List.mem_append_right _ (hEq ▸ hj))
      · intro hEq
        exact (hB_f j (rootRef_mem B j hEq)).2 hj
    have hBcells : ∀ j ∈ B.ids, B.rootRef ≠ some j →
        s2.heap.get j = s.heap.get j := by
      intro j hj hnb
      refine hother j ?_ ?_ ?_ hnb
      · exact List.mem_append_right _
          (List.mem_append_left _ (List.mem_append_left _ hj))
      · intro hEq
        exact (hB_f j hj).1 (by simp [hEq])
      · intro hEq
        exact hy_f y (by simp)
          (List.mem_append_left _ (List.mem_append_left _ (hEq ▸ hj)))
    refine ⟨rfl, by rw [hgy], by rw [hgy]; exact hyc, by rw [hgy]; exact hyk,
      ?_, ?_⟩
    · -- A keeps hanging left of y
      rw [hgy]
      show reprAt s2.heap (some y) ((s.heap.get y).left) A
      exact reprAt_congr s.heap s2.heap A hAcells _ _ hA
    · -- right subtree of y: the node x with B and C below it
      rw [hgy]
      show reprAt s2.heap (some y) (some x) (T.node B x cx kx C)
      refine ⟨rfl, by rw [hgx], by rw [hgx]; exact hxc,
        by rw [hgx]; exact hxk, ?_, ?_⟩
      · -- B now hangs left of x, reparented
        rw [hgx]
        show reprAt s2.heap (some x) B.rootRef B
        refine reprAt_reparent s.heap s2.heap B (some x) (some y) hBN ?_ ?_ ?_
        · rw [← hB1]; exact hB
        · intro b hb
          rw [hgb b hb]
          exact ⟨rfl, rfl, rfl, rfl, rfl⟩
        · exact hBcells
      · -- C keeps hanging right of x
        rw [hgx]
        show reprAt s2.heap (some x) ((s.heap.get x).right) C
        exact reprAt_congr s.heap s2.heap C hCcells _ _ hC
  -- now case on the context and on B to execute the writes
  cases ctx with
  | top =>
    have hroot : s.tree.root = some x := hctx
    have hpar0 : (s.heap.get x).parent = none := by
      rw [hxp]; rfl
    cases B with
    | nil =>
      have hB1n : (s.heap.get y).right = none := hB1
      refine ⟨⟨{ s.tree with root := some y },
        (((s.heap.setLeft x none).setParent y none).setRight y
          (some x)).setParent x (some y)⟩, ?_, ?_, ?_, rfl, rfl, ?_⟩
      · simp only [__helper_rotate_right, hxly]
        simp only [Heap.get_setRight, Heap.get_setParent, Heap.get_setLeft,
          if_pos rfl, hyx, if_neg hyx]
        simp [hB1n, hpar0, hyx, hxy]
      · show (some y : Option Nat) = some y
        rfl
      · apply rebuild
        · simp [hyx, hxy, hpar0, T.rootRef]
        · simp [hyx, hxy, Ctx.holePar]
        · intro b hb; cases hb
        · intro j hj hjx hjy _
          simp [hjx, hjy]
      · intro j hj
        have hjx : j ≠ x := by
          intro hEq
          exact hj (by rw [footprint, hmidE]; simp [hEq])
        have hjy : j ≠ y := by
          intro hEq
          exact hj (by rw [footprint, hmidE]; simp [hEq])
        simp [hjx, hjy]
    | node Bl b0 bc bk Br =>
      have hB1s : (s.heap.get y).right = some b0 := hB1
      have hb0x : b0 ≠ x := hbx b0 rfl
      have hb0y : b0 ≠ y := hby b0 rfl
      have hxb0 : x ≠ b0 := fun hEq => hb0x hEq.symm
      have hyb0 : y ≠ b0 := fun hEq => hb0y hEq.symm
      refine ⟨⟨{ s.tree with root := some y },
        ((((s.heap.setLeft x (some b0)).setParent b0
          (some x)).setParent y none).setRight y (some x)).setParent x
          (some y)⟩, ?_, ?_, ?_, rfl, rfl, ?_⟩
      · simp only [__helper_rotate_right, hxly]
        simp only [Heap.get_setRight, Heap.get_setParent, Heap.get_setLeft,
          if_pos rfl, hyx, if_neg hyx]
        simp [hB1s, hpar0, hyx, hxy, hxb0, hyb0, hb0x, hb0y]
      · show (some y : Option Nat) = some y
        rfl
      · apply rebuild
        · simp [hyx, hxy, hxb0, hpar0, T.rootRef]
        · simp [hyx, hxy, hyb0, Ctx.holePar]
        · intro b hb
          obtain rfl : b0 = b := by simpa [T.rootRef] using hb
          simp [hb0x, hb0y]
        · intro j hj hjx hjy hjb
          have hjb0 : j ≠ b0 := by
            intro hEq
            exact hjb (by simp [T.rootRef, hEq])
          simp [hjx, hjy, hjb0]
      · intro j hj
        have hjx : j ≠ x := by
          intro hEq
          exact hj (by rw [footprint, hmidE]; simp [hEq])
        have hjy : j ≠ y := by
          intro hEq
          exact hj (by rw [footprint, hmidE]; simp [hEq])
        have hjb0 : j ≠ b0 := by
          intro hEq
          exact hj (by rw [footprint, hmidE]; simp [hEq])
        simp [hjx, hjy, hjb0]
  | goL up pi pc pk pr =>
    obtain ⟨hslot, hpip, hpic, hpik, hpr, hup⟩ := hctx
    have hparx : (s.heap.get x).parent = some pi := hxp
    have hpost : pi ∈ Ctx.postIds (Ctx.goL up pi pc pk pr) := by
      simp [Ctx.postIds]
    have hpix : pi ≠ x := fun hEq => hmid_post x hxmem (hEq ▸ hpost)
    have hpiy : pi ≠ y := fun hEq => hmid_post y hymem (hEq ▸ hpost)
    have hxpi : x ≠ pi := fun hEq => hpix hEq.symm
    have hypi : y ≠ pi := fun hEq => hpiy hEq.symm
    have hpib : ∀ b, B.rootRef = some b → b ≠ pi := by
      intro b hb hEq
      exact hmid_post b (hbmem b hb) (hEq ▸ hpost)
    have hpostN2 : pi ∉ pr.ids ++ up.postIds := by
      have : (pi :: (pr.ids ++ up.postIds)).Nodup := by
        simpa [Ctx.postIds] using hpostN
      exact (List.nodup_cons.mp this).1
    have hprsub : ∀ j ∈ pr.ids, j ∈ Ctx.postIds (Ctx.goL up pi pc pk pr) := by
      intro j hj
      simp [Ctx.postIds, hj]
    have hcells : ∀ s2 : St, s2.tree = s.tree →
        s2.heap.get pi = { s.heap.get pi with left := some y } →
        (∀ j, j ∈ Ctx.preIds (Ctx.goL up pi pc pk pr) ++
            Ctx.postIds (Ctx.goL up pi pc pk pr) → j ≠ pi →
            s2.heap.get j = s.heap.get j) →
        reprCtx s2.heap s2.tree.root (Ctx.goL up pi pc pk pr) (some y) := by
      intro s2 ht hgpi hother
      refine ⟨by rw [hgpi], by rw [hgpi]; exact hpip,
        by rw [hgpi]; exact hpic, by rw [hgpi]; exact hpik, ?_, ?_⟩
      · rw [hgpi]
        show reprAt s2.heap (some pi) ((s.heap.get pi).right) pr
        refine reprAt_congr s.heap s2.heap pr ?_ _ _ hpr
        intro j hj
        refine hother j (List.mem_append_right _ (hprsub j hj)) ?_
        intro hEq
        exact hpostN2 (List.mem_append_left _ (hEq ▸ hj))
      · rw [ht]
        refine reprCtx_congr s.heap s2.heap s.tree.root up ?_ _ hup
        intro j hj
        have hj2 : j ∈ Ctx.preIds (Ctx.goL up pi pc pk pr) ++
            Ctx.postIds (Ctx.goL up pi pc pk pr) := by
          simp only [Ctx.preIds, Ctx.postIds, List.mem_append,
            List.mem_cons] at hj ⊢
          tauto
        refine hother j hj2 ?_
        intro hEq
        rcases List.mem_append.mp hj with hjp | hjq
        · exact (hpre_f j hjp).2 (by rw [hEq]; exact hpost)
        · exact hpostN2 (List.mem_append_right _ (hEq ▸ hjq))
    cases B with
    | nil =>
      have hB1n : (s.heap.get y).right = none := hB1
      refine ⟨⟨s.tree,
        ((((s.heap.setLeft x none).setParent y (some pi)).setLeft pi
          (some y)).setRight y (some x)).setParent x (some y)⟩,
        ?_, ?_, ?_, rfl, rfl, ?_⟩
      · simp only [__helper_rotate_right, hxly]
        simp [hB1n, hparx, hyx, hxy, hxpi, hypi, hpix, hpiy, hslot]
      · refine hcells _ ?_ ?_ ?_
        · rfl
        · simp [hpix, hpiy]
        · intro j hj hjpi
          have hjx : j ≠ x := by
            intro hEq
            rcases List.mem_append.mp hj with hjp | hjq
            · exact (hpre_f j hjp).1 (by rw [hEq]; exact hxmem)
            · exact hmid_post x hxmem (hEq ▸ hjq)
          have hjy : j ≠ y := by
            intro hEq
            rcases List.mem_append.mp hj with hjp | hjq
            · exact (hpre_f j hjp).1 (by rw [hEq]; exact hymem)
            · exact hmid_post y hymem (hEq ▸ hjq)
          simp [hjx, hjy, hjpi]
      · apply rebuild
        · simp [hyx, hxy, hxpi, T.rootRef]
        · simp [hyx, hxy, hypi, Ctx.holePar]
        · intro b hb; cases hb
        · intro j hj hjx hjy _
          have hjpi : j ≠ pi := by
            intro hEq
            exact hmid_post j hj (hEq ▸ hpost)
          simp [hjx, hjy, hjpi]
      · intro j hj
        have hjx : j ≠ x := by
          intro hEq
          exact hj (by rw [footprint, hmidE]; simp [hEq])
        have hjy : j ≠ y := by
          intro hEq
          exact hj (by rw [footprint, hmidE]; simp [hEq])
        have hjpi : j ≠ pi := by
          intro hEq
          exact hj (by
            rw [footprint]
            exact List.mem_append_right _ (hEq ▸ hpost))
        simp [hjx, hjy, hjpi]
    | node Bl b0 bc bk Br =>
      have hB1s : (s.heap.get y).right = some b0 := hB1
      have hb0x : b0 ≠ x := hbx b0 rfl
      have hb0y : b0 ≠ y := hby b0 rfl
      have hxb0 : x ≠ b0 := fun hEq => hb0x hEq.symm
      have hyb0 : y ≠ b0 := fun hEq => hb0y hEq.symm
      have hb0pi : b0 ≠ pi := hpib b0 rfl
      have hpib0 : pi ≠ b0 := fun hEq => hb0pi hEq.symm
      refine ⟨⟨s.tree,
        (((((s.heap.setLeft x (some b0)).setParent b0
          (some x)).setParent y (some pi)).setLeft pi
          (some y)).setRight y (some x)).setParent x (some y)⟩,
        ?_, ?_, ?_, rfl, rfl, ?_⟩
      · simp only [__helper_rotate_right, hxly]
        simp [hB1s, hparx, hyx, hxy, hxpi, hypi, hpix, hpiy, hslot,
          hxb0, hyb0, hb0x, hb0y, hpib0, hb0pi]
      · refine hcells _ ?_ ?_ ?_
        · rfl
        · simp [hpix, hpiy, hpib0]
        · intro j hj hjpi
          have hjx : j ≠ x := by
            intro hEq
            rcases List.mem_append.mp hj with hjp | hjq
            · exact (hpre_f j hjp).1 (by rw [hEq]; exact hxmem)
            · exact hmid_post x hxmem (hEq ▸ hjq)
          have hjy : j ≠ y := by
            intro hEq
            rcases List.mem_append.mp hj with hjp | hjq
            · exact (hpre_f j hjp).1 (by rw [hEq]; exact hymem)
            · exact hmid_post y hymem (hEq ▸ hjq)
          have hjb0 : j ≠ b0 := by
            intro hEq
            rcases List.mem_append.mp hj with hjp | hjq
            · exact (hpre_f j hjp).1 (by rw [hEq]; exact hbmem b0 rfl)
            · exact hmid_post b0 (hbmem b0 rfl) (hEq ▸ hjq)
          simp [hjx, hjy, hjpi, hjb0]
      · apply rebuild
        · simp [hyx, hxy, hxpi, hxb0, T.rootRef]
        · simp [hyx, hxy, hypi, hyb0, Ctx.holePar]
        · intro b hb
          obtain rfl : b0 = b := by simpa [T.rootRef] using hb
          simp [hb0x, hb0y, hb0pi]
        · intro j hj hjx hjy hjb
          have hjpi : j ≠ pi := by
            intro hEq
            exact hmid_post j hj (hEq ▸ hpost)
          have hjb0 : j ≠ b0 := by
            intro hEq
            exact hjb (by simp [T.rootRef, hEq])
          simp [hjx, hjy, hjpi, hjb0]
      · intro j hj
        have hjx : j ≠ x := by
          intro hEq
          exact hj (by rw [footprint, hmidE]; simp [hEq])
        have hjy : j ≠ y := by
          intro hEq
          exact hj (by rw [footprint, hmidE]; simp [hEq])
        have hjb0 : j ≠ b0 := by
          intro hEq
          exact hj (by rw [footprint, hmidE]; simp [hEq])
        have hjpi : j ≠ pi := by
          intro hEq
          exact hj (by
            rw [footprint]
            exact List.mem_append_right _ (hEq ▸ hpost))
        simp [hjx, hjy, hjb0, hjpi]
  | goR up pl pi pc pk =>
    obtain ⟨hslot, hpip, hpic, hpik, hpl, hup⟩ := hctx
    have hparx : (s.heap.get x).parent = some pi := hxp
    have hpreM : pi ∈ Ctx.preIds (Ctx.goR up pl pi pc pk) := by
      simp [Ctx.preIds]
    have hpix : pi ≠ x := fun hEq => (hpre_f pi hpreM).1
      (by rw [hEq]; exact hxmem)
    have hpiy : pi ≠ y := fun hEq => (hpre_f pi hpreM).1
      (by rw [hEq]; exact hymem)
    have hxpi : x ≠ pi := fun hEq => hpix hEq.symm
    have hypi : y ≠ pi := fun hEq => hpiy hEq.symm
    have hpib : ∀ b, B.rootRef = some b → b ≠ pi := by
      intro b hb hEq
      exact (hpre_f pi hpreM).1 (by rw [← hEq]; exact hbmem b hb)
    have hpreN2 : (up.preIds ++ pl.ids ++ [pi]).Nodup := by
      simpa [Ctx.preIds] using hpreN
    obtain ⟨hupN, hplN, -, hupl_f, hplpi⟩ := nodup_append_triple hpreN2
    have hpll : (s.heap.get pi).left = pl.rootRef :=
      reprAt_rootRef _ _ _ _ hpl
    have hlneq : ¬((s.heap.get pi).left = some x) := by
      intro hEq
      have hxpl : x ∈ pl.ids := rootRef_mem pl x (by rw [← hpll]; exact hEq)
      have : x ∈ Ctx.preIds (Ctx.goR up pl pi pc pk) := by
        show x ∈ up.preIds ++ pl.ids ++ [pi]
        exact List.mem_append_left _ (List.mem_append_right _ hxpl)
      exact (hpre_f x this).1 hxmem
    have hplsub : ∀ j ∈ pl.ids, j ∈ Ctx.preIds (Ctx.goR up pl pi pc pk) := by
      intro j hj
      show j ∈ up.preIds ++ pl.ids ++ [pi]
      exact List.mem_append_left _ (List.mem_append_right _ hj)
    have hcells : ∀ s2 : St, s2.tree = s.tree →
        s2.heap.get pi = { s.heap.get pi with right := some y } →
        (∀ j, j ∈ Ctx.preIds (Ctx.goR up pl pi pc pk) ++
            Ctx.postIds (Ctx.goR up pl pi pc pk) → j ≠ pi →
            s2.heap.get j = s.heap.get j) →
        reprCtx s2.heap s2.tree.root (Ctx.goR up pl pi pc pk) (some y) := by
      intro s2 ht hgpi hother
      refine ⟨by rw [hgpi], by rw [hgpi]; exact hpip,
        by rw [hgpi]; exact hpic, by rw [hgpi]; exact hpik, ?_, ?_⟩
      · rw [hgpi]
        show reprAt s2.heap (some pi) ((s.heap.get pi).left) pl
        refine reprAt_congr s.heap s2.heap pl ?_ _ _ hpl
        intro j hj
        refine hother j (List.mem_append_left _ (hplsub j hj)) ?_
        intro hEq
        exact hplpi j hj (by simp [hEq])
      · rw [ht]
        refine reprCtx_congr s.heap s2.heap s.tree.root up ?_ _ hup
        intro j hj
        have hj2 : j ∈ Ctx.preIds (Ctx.goR up pl pi pc pk) ++
            Ctx.postIds (Ctx.goR up pl pi pc pk) := by
          simp only [Ctx.preIds, Ctx.postIds, List.mem_append] at hj ⊢
          tauto
        refine hother j hj2 ?_
        intro hEq
        rcases List.mem_append.mp hj with hjp | hjq
        · exact hupl_f j hjp |>.2 (by simp [hEq])
        · exact (hpre_f pi hpreM).2 (by rw [← hEq]; exact hjq)
    cases B with
    | nil =>
      have hB1n : (s.heap.get y).right = none := hB1
      refine ⟨⟨s.tree,
        ((((s.heap.setLeft x none).setParent y (some pi)).setRight pi
          (some y)).setRight y (some x)).setParent x (some y)⟩,
        ?_, ?_, ?_, rfl, rfl, ?_⟩
      · simp only [__helper_rotate_right, hxly]
        simp [hB1n, hparx, hyx, hxy, hxpi, hypi, hpix, hpiy, hlneq]
      · refine hcells _ ?_ ?_ ?_
        · rfl
        · simp [hpix, hpiy]
        · intro j hj hjpi
          have hjx : j ≠ x := by
            intro hEq
            rcases List.mem_append.mp hj with hjp | hjq
            · exact (hpre_f j hjp).1 (by rw [hEq]; exact hxmem)
            · exact hmid_post x hxmem (hEq ▸ hjq)
          have hjy : j ≠ y := by
            intro hEq
            rcases List.mem_append.mp hj with hjp | hjq
            · exact (hpre_f j hjp).1 (by rw [hEq]; exact hymem)
            · exact hmid_post y hymem (hEq ▸ hjq)
          simp [hjx, hjy, hjpi]
      · apply rebuild
        · simp [hyx, hxy, hxpi, T.rootRef]
        · simp [hyx, hxy, hypi, Ctx.holePar]
        · intro b hb; cases hb
        · intro j hj hjx hjy _
          have hjpi : j ≠ pi := by
            intro hEq
            exact (hpre_f pi hpreM).1 (by rw [← hEq]; exact hj)
          simp [hjx, hjy, hjpi]
      · intro j hj
        have hjx : j ≠ x := by
          intro hEq
          exact hj (by rw [footprint, hmidE]; simp [hEq])
        have hjy : j ≠ y := by
          intro hEq
          exact hj (by rw [footprint, hmidE]; simp [hEq])
        have hjpi : j ≠ pi := by
          intro hEq
          exact hj (by
            rw [footprint]
            refine List.mem_append_left _ (List.mem_append_left _ ?_)
            rw [hEq]
            exact hpreM)
        simp [hjx, hjy, hjpi]
    | node Bl b0 bc bk Br =>
      have hB1s : (s.heap.get y).right = some b0 := hB1
      have hb0x : b0 ≠ x := hbx b0 rfl
      have hb0y : b0 ≠ y := hby b0 rfl
      have hxb0 : x ≠ b0 := fun hEq => hb0x hEq.symm
      have hyb0 : y ≠ b0 := fun hEq => hb0y hEq.symm
      have hb0pi : b0 ≠ pi := hpib b0 rfl
      have hpib0 : pi ≠ b0 := fun hEq => hb0pi hEq.symm
      refine ⟨⟨s.tree,
        (((((s.heap.setLeft x (some b0)).setParent b0
          (some x)).setParent y (some pi)).setRight pi
          (some y)).setRight y (some x)).setParent x (some y)⟩,
        ?_, ?_, ?_, rfl, rfl, ?_⟩
      · simp only [__helper_rotate_right, hxly]
        simp [hB1s, hparx, hyx, hxy, hxpi, hypi, hpix, hpiy, hlneq,
          hxb0, hyb0, hb0x, hb0y, hpib0, hb0pi]
      · refine hcells _ ?_ ?_ ?_
        · rfl
        · simp [hpix, hpiy, hpib0]
        · intro j hj hjpi
          have hjx : j ≠ x := by
            intro hEq
            rcases List.mem_append.mp hj with hjp | hjq
            · exact (hpre_f j hjp).1 (by rw [hEq]; exact hxmem)
            · exact hmid_post x hxmem (hEq ▸ hjq)
          have hjy : j ≠ y := by
            intro hEq
            rcases List.mem_append.mp hj with hjp | hjq
            · exact (hpre_f j hjp).1 (by rw [hEq]; exact hymem)
            · exact hmid_post y hymem (hEq ▸ hjq)
          have hjb0 : j ≠ b0 := by
            intro hEq
            rcases List.mem_append.mp hj with hjp | hjq
            · exact (hpre_f j hjp).1 (by rw [hEq]; exact hbmem b0 rfl)
            · exact hmid_post b0 (hbmem b0 rfl) (hEq ▸ hjq)
          simp [hjx, hjy, hjpi, hjb0]
      · apply rebuild
        · simp [hyx, hxy, hxpi, hxb0, T.rootRef]
        · simp [hyx, hxy, hypi, hyb0, Ctx.holePar]
        · intro b hb
          obtain rfl : b0 = b := by simpa [T.rootRef] using hb
          simp [hb0x, hb0y, hb0pi]
        · intro j hj hjx hjy hjb
          have hjpi : j ≠ pi := by
            intro hEq
            exact (hpre_f pi hpreM).1 (by rw [← hEq]; exact hj)
          have hjb0 : j ≠ b0 := by
            intro hEq
            exact hjb (by simp [T.rootRef, hEq])
          simp [hjx, hjy, hjpi, hjb0]
      · intro j hj
        have hjx : j ≠ x := by
          intro hEq
          exact hj (by rw [footprint, hmidE]; simp [hEq])
        have hjy : j ≠ y := by
          intro hEq
          exact hj (by rw [footprint, hmidE]; simp [hEq])
        have hjb0 : j ≠ b0 := by
          intro hEq
          exact hj (by rw [footprint, hmidE]; simp [hEq])
        have hjpi : j ≠ pi := by
          intro hEq
          exact hj (by
            rw [footprint]
            refine List.mem_append_left _ (List.mem_append_left _ ?_)
            rw [hEq]
            exact hpreM)
        simp [hjx, hjy, hjb0, hjpi]

theorem LB_of_LB_lt (lo : Option Int) (a b : Int) :
    LB lo a → a < b → LB lo b := by
  cases lo with
  | none => intro _ _; trivial
  | some c => intro h1 h2; exact lt_trans h1 h2

theorem UB_of_lt_UB (hi : Option Int) (a b : Int) :
    a < b → UB b hi → UB a hi := by
  cases hi with
  | none => intro _ _; trivial
  | some c => intro h1 h2; exact lt_trans h1 h2

/-- A left rotation preserves search-tree order of the subtree. -/
theorem rotl_BstB (lo hi : Option Int) (A B C : T) (x y : Nat)
    (cx cy : Color) (kx ky : Int) :
    BstB lo hi (T.node A x cx kx (T.node B y cy ky C)) →
    BstB lo hi (T.node (T.node A x cx kx B) y cy ky C) := by
  intro h
  obtain ⟨hlx, hux, hA, hR⟩ := h
  obtain ⟨hly, huy, hB, hC⟩ := hR
  exact ⟨LB_of_LB_lt lo kx ky hlx hly, huy, ⟨hlx, hly, hA, hB⟩, hC⟩

/-- A right rotation preserves search-tree order of the subtree. -/
theorem rotr_BstB (lo hi : Option Int) (A B C : T) (x y : Nat)
    (cx cy : Color) (kx ky : Int) :
    BstB lo hi (T.node (T.node A y cy ky B) x cx kx C) →
    BstB lo hi (T.node A y cy ky (T.node B x cx kx C)) := by
  intro h
  obtain ⟨hlx, hux, hL, hC⟩ := h
  obtain ⟨hly, huy, hA, hB⟩ := hL
  exact ⟨hly, UB_of_lt_UB hi ky kx huy hux, hA, ⟨huy, hux, hB, hC⟩⟩

/-- Whole-tree version of the left-rotation refinement: the rotated
subtree replaces the original in the same context, the tree root is
updated accordingly, and search-tree order is preserved. -/
theorem rotate_left_correct (s : St) (ctx : Ctx) (A B C : T) (x y : Nat)
    (cx cy : Color) (kx ky : Int)
    (hN : ((ctx.plug (T.node A x cx kx (T.node B y cy ky C))).ids).Nodup)
    (hrepr : reprAt s.heap none s.tree.root
      (ctx.plug (T.node A x cx kx (T.node B y cy ky C)))) :
    ∃ s2, __helper_rotate_left s x = some s2 ∧
      reprAt s2.heap none s2.tree.root
        (ctx.plug (T.node (T.node A x cx kx B) y cy ky C)) ∧
      s2.tree.root =
        (ctx.plug (T.node (T.node A x cx kx B) y cy ky C)).rootRef ∧
      (Bst (ctx.plug (T.node A x cx kx (T.node B y cy ky C))) →
        Bst (ctx.plug (T.node (T.node A x cx kx B) y cy ky C))) ∧
      s2.tree.leftmost = s.tree.leftmost ∧
      s2.tree.rightmost = s.tree.rightmost ∧
      (∀ j, j ∉ (ctx.plug (T.node A x cx kx (T.node B y cy ky C))).ids →
        s2.heap.get j = s.heap.get j) := by
  rw [ids_plug] at hN
  obtain ⟨hctx, hsub⟩ := repr_plug_split s.heap s.tree.root ctx _ hrepr
  obtain ⟨s2, heq, hctx2, hsub2, hlm, hrm, hframe⟩ :=
    rotate_left_spec s ctx A B C x y cx cy kx ky hN hctx hsub
  refine ⟨s2, heq, ?_, ?_, ?_, hlm, hrm, ?_⟩
  · exact repr_plug_mk s2.heap s2.tree.root ctx _ _ hctx2 hsub2
  · exact reprAt_rootRef s2.heap none s2.tree.root _
      (repr_plug_mk s2.heap s2.tree.root ctx _ _ hctx2 hsub2)
  · intro hbst
    obtain ⟨hcb, hsb⟩ := (BstB_plug none none ctx _).mp hbst
    exact (BstB_plug none none ctx _).mpr
      ⟨hcb, rotl_BstB _ _ A B C x y cx cy kx ky hsb⟩
  · intro j hj
    rw [ids_plug] at hj
    exact hframe j hj

/-- Whole-tree version of the right-rotation refinement. -/
theorem rotate_right_correct (s : St) (ctx : Ctx) (A B C : T) (x y : Nat)
    (cx cy : Color) (kx ky : Int)
    (hN : ((ctx.plug (T.node (T.node A y cy ky B) x cx kx C)).ids).Nodup)
    (hrepr : reprAt s.heap none s.tree.root
      (ctx.plug (T.node (T.node A y cy ky B) x cx kx C))) :
    ∃ s2, __helper_rotate_right s x = some s2 ∧
      reprAt s2.heap none s2.tree.root
        (ctx.plug (T.node A y cy ky (T.node B x cx kx C))) ∧
      s2.tree.root =
        (ctx.plug (T.node A y cy ky (T.node B x cx kx C))).rootRef ∧
      (Bst (ctx.plug (T.node (T.node A y cy ky B) x cx kx C)) →
        Bst (ctx.plug (T.node A y cy ky (T.node B x cx kx C)))) ∧
      s2.tree.leftmost = s.tree.leftmost ∧
      s2.tree.rightmost = s.tree.rightmost ∧
      (∀ j, j ∉ (ctx.plug (T.node (T.node A y cy ky B) x cx kx C)).ids →
        s2.heap.get j = s.heap.get j) := by
  rw [ids_plug] at hN
  obtain ⟨hctx, hsub⟩ := repr_plug_split s.heap s.tree.root ctx _ hrepr
  obtain ⟨s2, heq, hctx2, hsub2, hlm, hrm, hframe⟩ :=
    rotate_right_spec s ctx A B C x y cx cy kx ky hN hctx hsub
  refine ⟨s2, heq, ?_, ?_, ?_, hlm, hrm, ?_⟩
  · exact repr_plug_mk s2.heap s2.tree.root ctx _ _ hctx2 hsub2
  · exact reprAt_rootRef s2.heap none s2.tree.root _
      (repr_plug_mk s2.heap s2.tree.root ctx _ _ hctx2 hsub2)
  · intro hbst
    obtain ⟨hcb, hsb⟩ := (BstB_plug none none ctx _).mp hbst
    exact (BstB_plug none none ctx _).mpr
      ⟨hcb, rotr_BstB _ _ A B C x y cx cy kx ky hsb⟩
  · intro j hj
    rw [ids_plug] at hj
    exact hframe j hj

/-- When the find descent locates the key, the single descent of
rb_tree_find_or_insert over a heap agreeing on the footprint stops at
the same node. -/
theorem foiLoop_found_of_findLoop (h1 h2 : Heap) (key : Int) (t : T)
    (hag : ∀ j ∈ t.ids, h2.get j = h1.get j) :
    ∀ par x fuel e prev dir rm, reprAt h1 par x t →
      findLoop h1 key fuel x = some (some e) →
      ∃ p2 d2 m2, foiLoop h2 key fuel x prev dir rm =
        some (some e, p2, d2, m2) := by
  induction t with
  | nil =>
    intro par x fuel e prev dir rm hx hfind
    subst hx
    cases fuel <;> simp [findLoop] at hfind
  | node l i c k r ihl ihr =>
    intro par x fuel e prev dir rm hx hfind
    obtain ⟨rfl, hp, hc, hk, hl, hr⟩ := hx
    cases fuel with
    | zero => simp [findLoop] at hfind
    | succ fuel =>
      have hi : h2.get i = h1.get i := hag i (by simp)
      simp only [findLoop] at hfind
      simp only [foiLoop, hi]
      split at hfind
      · rename_i hlt
        rw [if_pos hlt]
        exact ihl (fun j hj => hag j (by simp [hj])) _ _ fuel e
          (some i) 0 false hl hfind
      · split at hfind
        · rename_i hlt heq
          rw [if_neg hlt, if_pos heq]
          obtain rfl : i = e := by simpa using hfind
          exact ⟨prev, dir, rm, rfl⟩
        · rename_i hlt heq
          rw [if_neg hlt, if_neg heq]
          exact ihr (fun j hj => hag j (by simp [hj])) _ _ fuel e
            (some i) 1 rm hr hfind

/-- The found path of rb_tree_find_or_insert: when rb_tree_find locates
the key at node e, find_or_insert returns e, the tree handle and every
heap cell other than the candidate are untouched, and the candidate has
only its key field overwritten. -/
theorem find_or_insert_found_path
    (s : St) (t : T) (key : Int) (ci : Nat) (fuel : Nat) (e : Nat)
    (hrepr : reprAt s.heap none s.tree.root t)
    (hci : ci ∉ t.ids)
    (hfound : rb_tree_find s key fuel = some (some e)) :
    ∃ s2, rb_tree_find_or_insert s key ci fuel = some (e, s2) ∧
      s2.tree = s.tree ∧
      reprAt s2.heap none s.tree.root t ∧
      (∀ key2 fuel2, rb_tree_find s2 key2 fuel2 = rb_tree_find s key2 fuel2) ∧
      (∀ j, j ≠ ci → s2.heap.get j = s.heap.get j) ∧
      s2.heap.get ci = { s.heap.get ci with key := key } := by
  cases hroot : s.tree.root with
  | none =>
    rw [rb_tree_find, hroot] at hfound
    simp at hfound
  | some r =>
    have hrepr2 : reprAt s.heap none (some r) t := hroot ▸ hrepr
    set h0 : Heap := s.heap.upd ci { s.heap.get ci with key := key } with hh0
    have hag : ∀ j ∈ t.ids, h0.get j = s.heap.get j := by
      intro j hj
      have hne : j ≠ ci := fun hEq => hci (hEq ▸ hj)
      simp [hh0, hne]
    have hfind : findLoop s.heap key fuel (some r) = some (some e) := by
      rw [rb_tree_find, hroot] at hfound
      simpa [hroot] using hfound
    obtain ⟨p2, d2, m2, hloop⟩ :=
      foiLoop_found_of_findLoop s.heap h0 key t hag none (some r) fuel e
        none 0 true hrepr2 hfind
    refine ⟨{ s with heap := h0 }, ?_, rfl, ?_, ?_, ?_, ?_⟩
    · rw [rb_tree_find_or_insert, hroot]
      simp only [hloop]
    · exact reprAt_congr s.heap h0 t hag none (some r) hrepr2
    · intro key2 fuel2
      show rb_tree_find { s with heap := h0 } key2 fuel2 =
        rb_tree_find s key2 fuel2
      rw [rb_tree_find, rb_tree_find]
      simp only [hroot]
      exact findLoop_congr s.heap h0 key2 t hag none (some r) fuel2 hrepr2
    · intro j hj
      simp [hh0, hj]
    · simp [hh0]

/-! ## Navigation helpers: minimum descent and parent ascent -/

/-- The minimum descent returns the first entry of the subtree's
symmetric-order sequence. -/
theorem findMinimum_spec (h : Heap) (t : T) :
    ∀ par n0 fuel, reprAt h par (some n0) t → t.size ≤ fuel →
      ∃ m km rest, t.seq = (m, km) :: rest ∧
        __helper_rb_tree_find_minimum h fuel n0 = some m ∧
        (h.get m).key = km := by
  induction t with
  | nil => intro par n0 fuel hx _; cases hx
  | node l i c k r ihl ihr =>
    intro par n0 fuel hx hfuel
    obtain ⟨hn0, hp, hc, hk, hl, hr⟩ := hx
    rw [show n0 = i from Option.some.inj hn0]
    cases fuel with
    | zero => simp [T.size] at hfuel
    | succ fuel =>
      cases l with
      | nil =>
        have hln : (h.get i).left = none := hl
        refine ⟨i, k, r.seq, by simp, ?_, hk⟩
        simp [__helper_rb_tree_find_minimum, hln]
      | node a j c2 k2 b =>
        have hleft : (h.get i).left = some j :=
          reprAt_rootRef h (some i) ((h.get i).left) _ hl
        have hl2 : reprAt h (some i) (some j) (T.node a j c2 k2 b) := by
          rw [← hleft]; exact hl
        obtain ⟨m, km, rest, hseq, hmin, hkm⟩ :=
          ihl (some i) j fuel hl2 (by
            simp only [T.size] at hfuel ⊢
            omega)
        refine ⟨m, km, rest ++ (i, k) :: r.seq, by simp [hseq], ?_, hkm⟩
        simp [__helper_rb_tree_find_minimum, hleft, hmin]

/-- The parent ascent of the successor helper returns the frame node of
the first goL frame of the context. -/
theorem succAscend_spec (h : Heap) (root : Option Nat) :
    ∀ (ctx : Ctx) (sub : T) (x : Nat) (fuel : Nat),
      (footprint ctx sub).Nodup →
      reprCtx h root ctx (some x) → sub.rootRef = some x →
      ctx.depth + 1 ≤ fuel →
      succAscend h fuel x ctx.holePar = some ctx.nextUp := by
  intro ctx
  induction ctx with
  | top =>
    intro sub x fuel _ _ _ hfuel
    cases fuel with
    | zero => omega
    | succ fuel => rfl
  | goL up i c k r ih =>
    intro sub x fuel hN hctx hx hfuel
    obtain ⟨hslot, hpip, hpic, hpik, hs, hup⟩ := hctx
    cases fuel with
    | zero => omega
    | succ fuel =>
      have hrr : (h.get i).right = r.rootRef :=
        reprAt_rootRef h (some i) ((h.get i).right) r hs
      have hne : ¬((h.get i).right = some x) := by
        intro hEq
        have hxr : x ∈ r.ids := rootRef_mem r x (by rw [← hrr]; exact hEq)
        have hxs : x ∈ sub.ids := rootRef_mem sub x hx
        have hN3 : (Ctx.preIds (Ctx.goL up i c k r) ++ sub.ids ++
            Ctx.postIds (Ctx.goL up i c k r)).Nodup := hN
        obtain ⟨-, -, -, -, hmid_post⟩ := nodup_append_triple hN3
        exact hmid_post x hxs (by simp [Ctx.postIds, hxr])
      show succAscend h (fuel + 1) x (some i) = some (some i)
      simp [succAscend, hne]
  | goR up l i c k ih =>
    intro sub x fuel hN hctx hx hfuel
    obtain ⟨hslot, hpip, hpic, hpik, hs, hup⟩ := hctx
    cases fuel with
    | zero => omega
    | succ fuel =>
      show succAscend h (fuel + 1) x (some i) = some (Ctx.nextUp up)
      rw [succAscend]
      rw [if_pos hslot]
      rw [hpip]
      refine ih (T.node l i c k sub) i fuel ?_ hup rfl ?_
      · have : footprint (Ctx.goR up l i c k) sub =
            footprint up (T.node l i c k sub) := by
          simp [footprint, Ctx.preIds, Ctx.postIds, T.ids]
        rw [← this]
        exact hN
      · simp only [Ctx.depth] at hfuel
        omega

/-- The keys of a search tree all lie between the bounds. -/
theorem bstB_entry_bounds (t : T) :
    ∀ lo hi, BstB lo hi t → ∀ p ∈ t.seq, LB lo p.2 ∧ UB p.2 hi := by
  induction t with
  | nil => intro _ _ _ p hp; cases hp
  | node l i c k r ihl ihr =>
    intro lo hi ht p hp
    obtain ⟨hlk, huk, hbl, hbr⟩ := ht
    simp only [T.seq_node, List.mem_append, List.mem_cons] at hp
    rcases hp with hp | hp | hp
    · obtain ⟨h1, h2⟩ := ihl lo (some k) hbl p hp
      exact ⟨h1, UB_of_lt_UB hi p.2 k h2 huk⟩
    · rw [hp]; exact ⟨hlk, huk⟩
    · obtain ⟨h1, h2⟩ := ihr (some k) hi hbr p hp
      exact ⟨LB_of_LB_lt lo k p.2 hlk h1, h2⟩

/-- The symmetric-order sequence of a search tree has strictly
increasing keys. -/
theorem bstB_seq_pairwise (t : T) :
    ∀ lo hi, BstB lo hi t → t.seq.Pairwise (fun p q => p.2 < q.2) := by
  induction t with
  | nil => intro _ _ _; simp
  | node l i c k r ihl ihr =>
    intro lo hi ht
    obtain ⟨hlk, huk, hbl, hbr⟩ := ht
    simp only [T.seq_node]
    rw [List.pairwise_append]
    refine ⟨ihl lo (some k) hbl, ?_, ?_⟩
    · rw [List.pairwise_cons]
      refine ⟨?_, ihr (some k) hi hbr⟩
      intro q hq
      exact (bstB_entry_bounds r (some k) hi hbr q hq).1
    · intro p hp q hq
      have h1 : UB p.2 (some k) :=
        (bstB_entry_bounds l lo (some k) hbl p hp).2
      simp only [List.mem_cons] at hq
      rcases hq with hq | hq
      · rw [hq]; exact h1
      · exact lt_trans h1 (bstB_entry_bounds r (some k) hi hbr q hq).1

/-- A context whose ascent finds no goL frame has nothing after the
slot in symmetric order. -/
theorem nextUp_none_seqPost (ctx : Ctx) :
    ctx.nextUp = none → ctx.seqPost = [] := by
  induction ctx with
  | top => intro _; rfl
  | goL up i c k r ih => intro h; cases h
  | goR up l i c k ih =>
    intro h
    simp only [Ctx.seqPost]
    exact ih h

/-! ## Claim C9: inserting 10, 20, 30 -/

/-- C9: inserting the keys 10, 20, 30 in that order into an empty tree
(at node references 1, 2, 3) yields, after the third insertion, the node
holding 20 as the root, colored black, with the node holding 10 as its
red left child and the node holding 30 as its red right child, both
leaves. -/
theorem insert_10_20_30_final_shape :
    insertSeq 10 emptySt [(10, 1), (20, 2), (30, 3)] = some c9res ∧
    c9res.tree.root = some 2 ∧
    (c9res.heap.get 2).key = 20 ∧ (c9res.heap.get 2).color = Color.black ∧
    (c9res.heap.get 2).left = some 1 ∧ (c9res.heap.get 2).right = some 3 ∧
    (c9res.heap.get 1).key = 10 ∧ (c9res.heap.get 1).color = Color.red ∧
    (c9res.heap.get 1).left = none ∧ (c9res.heap.get 1).right = none ∧
    (c9res.heap.get 3).key = 30 ∧ (c9res.heap.get 3).color = Color.red ∧
    (c9res.heap.get 3).left = none ∧ (c9res.heap.get 3).right = none := by
  decide

/-! ## Claim C10: a duplicate insertion has already overwritten the
candidate node -/

/-- C10: whenever rb_tree_insert returns RB_DUPLICATE, the caller
supplied node has had its left, right and parent fields overwritten to
none and its key field overwritten to the new key, while the tree handle
and every other heap cell are unchanged. -/
theorem insert_duplicate_overwrites_candidate
    (s : St) (key : Int) (ni : Nat) (fuel : Nat) (s2 : St)
    (hdup : rb_tree_insert s key ni fuel = some (InsRes.dup, s2)) :
    (s2.heap.get ni).left = none ∧ (s2.heap.get ni).right = none ∧
    (s2.heap.get ni).parent = none ∧ (s2.heap.get ni).key = key ∧
    s2.tree = s.tree ∧ ∀ j, j ≠ ni → s2.heap.get j = s.heap.get j := by
  simp only [rb_tree_insert] at hdup
  split at hdup
  · exact absurd hdup (by simp)
  · split at hdup
    · exact absurd hdup (by simp)
    · rename_i hloop
      obtain ⟨-, rfl⟩ : InsRes.dup = InsRes.dup ∧
          ({ s with heap :=
              (s.heap.upd ni { left := none, right := none, parent := none,
                               key := key, color := (s.heap.get ni).color
                             }).setColor ni Color.red } : St) = s2 := by
        simpa using hdup
      refine ⟨by simp, by simp, by simp, by simp, rfl, ?_⟩
      intro j hj
      simp [Heap.upd, Heap.get, hj]
    · split at hdup
      · exact absurd hdup (by simp)
      · exact absurd hdup (by simp)

/-- Witness for C10: a concrete duplicate insertion (key 5 inserted at
node 2 while node 1 already holds key 5). -/
theorem insert_duplicate_overwrites_candidate_witness :
    rb_tree_insert oneSt 5 2 10 = some (InsRes.dup, dupSt) ∧
    ((dupSt.heap.get 2).left = none ∧ (dupSt.heap.get 2).right = none ∧
     (dupSt.heap.get 2).parent = none ∧ (dupSt.heap.get 2).key = 5 ∧
     dupSt.tree = oneSt.tree) :=
  ⟨by decide,
   (insert_duplicate_overwrites_candidate oneSt 5 2 10 dupSt (by decide)).1,
   (insert_duplicate_overwrites_candidate oneSt 5 2 10 dupSt (by decide)).2.1,
   (insert_duplicate_overwrites_candidate oneSt 5 2 10 dupSt (by decide)).2.2.1,
   (insert_duplicate_overwrites_candidate oneSt 5 2 10 dupSt (by decide)).2.2.2.1,
   (insert_duplicate_overwrites_candidate oneSt 5 2 10 dupSt (by decide)).2.2.2.2.1⟩

/-! ## Claim C3, counterexample part: the leftmost cache is never
maintained by the implementation -/

/-- C5 counterexample: rb_tree_find_or_insert with a key that is already
present (key 5, stored at node 1) returns the existing node 1, but the
candidate node 8, whose key field held 7, has had its key field
overwritten with 5 before the descent: the candidate is not left
untouched. -/
theorem find_or_insert_touches_candidate_key :
    rb_tree_find_or_insert c5base 5 8 10 = some (1, c5res) ∧
    (c5base.heap.get 8).key = 7 ∧ (c5res.heap.get 8).key = 5 := by
  decide

/-! ## Claim C7: the rotation primitives -/

/-- C7: for every node x laid out in the tree with a right child y,
__helper_rotate_left reattaches y's left subtree (B) as x's right child,
installs y in x's former slot (the tree root when x was the root,
otherwise the matching child slot of x's former parent — this is the
slot the context ctx describes), makes x the left child of y, and
preserves the search-tree order; __helper_rotate_right is the mirror
image. -/
theorem rotate_left_right_spec :
    (∀ (s : St) (ctx : Ctx) (A B C : T) (x y : Nat) (cx cy : Color)
      (kx ky : Int),
      ((ctx.plug (T.node A x cx kx (T.node B y cy ky C))).ids).Nodup →
      reprAt s.heap none s.tree.root
        (ctx.plug (T.node A x cx kx (T.node B y cy ky C))) →
      ∃ s2, __helper_rotate_left s x = some s2 ∧
        reprAt s2.heap none s2.tree.root
          (ctx.plug (T.node (T.node A x cx kx B) y cy ky C)) ∧
        s2.tree.root =
          (ctx.plug (T.node (T.node A x cx kx B) y cy ky C)).rootRef ∧
        (Bst (ctx.plug (T.node A x cx kx (T.node B y cy ky C))) →
          Bst (ctx.plug (T.node (T.node A x cx kx B) y cy ky C)))) ∧
    (∀ (s : St) (ctx : Ctx) (A B C : T) (x y : Nat) (cx cy : Color)
      (kx ky : Int),
      ((ctx.plug (T.node (T.node A y cy ky B) x cx kx C)).ids).Nodup →
      reprAt s.heap none s.tree.root
        (ctx.plug (T.node (T.node A y cy ky B) x cx kx C)) →
      ∃ s2, __helper_rotate_right s x = some s2 ∧
        reprAt s2.heap none s2.tree.root
          (ctx.plug (T.node A y cy ky (T.node B x cx kx C))) ∧
        s2.tree.root =
          (ctx.plug (T.node A y cy ky (T.node B x cx kx C))).rootRef ∧
        (Bst (ctx.plug (T.node (T.node A y cy ky B) x cx kx C)) →
          Bst (ctx.plug (T.node A y cy ky (T.node B x cx kx C))))) := by
  constructor
  · intro s ctx A B C x y cx cy kx ky hN hrepr
    obtain ⟨s2, heq, h1, h2, h3, -, -, -⟩ :=
      rotate_left_correct s ctx A B C x y cx cy kx ky hN hrepr
    exact ⟨s2, heq, h1, h2, h3⟩
  · intro s ctx A B C x y cx cy kx ky hN hrepr
    obtain ⟨s2, heq, h1, h2, h3, -, -, -⟩ :=
      rotate_right_correct s ctx A B C x y cx cy kx ky hN hrepr
    exact ⟨s2, heq, h1, h2, h3⟩

/-- Witness for C7: rotating left at the root of the concrete two-node
state rotSt makes node 2 the root with node 1 as its left child. -/
theorem rotate_left_right_spec_witness :
    reprAt rotSt.heap none rotSt.tree.root
      (Ctx.top.plug (T.node T.nil 1 Color.black 1
        (T.node T.nil 2 Color.red 2 T.nil))) ∧
    __helper_rotate_left rotSt 1 = some rotRes ∧
    rotRes.tree.root = some 2 ∧
    (rotRes.heap.get 2).left = some 1 ∧
    (rotRes.heap.get 1).parent = some 2 := by
  refine ⟨by decide, ?_⟩
  obtain ⟨s2, heq, hrepr2, hroot, -⟩ :=
    rotate_left_right_spec.1 rotSt Ctx.top T.nil T.nil T.nil 1 2
      Color.black Color.red 1 2 (by decide) (by decide)
  have hs2 : rotRes = s2 := by
    rw [rotRes, heq]
    rfl
  rw [hs2]
  exact ⟨heq, by rw [← hs2]; decide, by rw [← hs2]; decide,
    by rw [← hs2]; decide⟩

/-! ## Claim C8: the successor computation -/

/-- C8: for a node x laid out in the tree with left subtree L and right
subtree R, the successor helper returns the minimum of R (the first
entry of R's symmetric-order sequence, whose key under BST order is
least in R) when R is not empty; otherwise it walks up parents while
the current node is a right child and returns the first ancestor of
which x's subtree is a left child (the frame node of the first goL
frame), or none when no such ancestor exists, in which case x holds the
maximum key of the tree. -/
theorem successor_spec
    (h : Heap) (root : Option Nat) (ctx : Ctx) (L R : T) (x : Nat)
    (cx : Color) (kx : Int) (fuel : Nat)
    (hN : (footprint ctx (T.node L x cx kx R)).Nodup)
    (hctx : reprCtx h root ctx (some x))
    (hsub : reprAt h ctx.holePar (some x) (T.node L x cx kx R))
    (hfuel : ctx.depth + R.size + 1 ≤ fuel) :
    (R = T.nil →
      __helper_rb_tree_find_successor h fuel x = some ctx.nextUp ∧
      (ctx.nextUp = none → Bst (ctx.plug (T.node L x cx kx R)) →
        ∀ p ∈ (ctx.plug (T.node L x cx kx R)).seq, p.2 ≤ kx)) ∧
    (R ≠ T.nil →
      ∃ m km rest, R.seq = (m, km) :: rest ∧
        __helper_rb_tree_find_successor h fuel x = some (some m) ∧
        (Bst (ctx.plug (T.node L x cx kx R)) → ∀ p ∈ R.seq, km ≤ p.2)) := by
  obtain ⟨-, hxp, hxc, hxk, hL, hR⟩ := hsub
  constructor
  · rintro rfl
    have hrn : (h.get x).right = none := hR
    constructor
    · rw [__helper_rb_tree_find_successor, hrn, hxp]
      exact succAscend_spec h root ctx (T.node L x cx kx T.nil) x fuel hN
        hctx rfl (by simp only [T.size] at hfuel; omega)
    · intro hnone hbst p hp
      have hpost := nextUp_none_seqPost ctx hnone
      have hpair := bstB_seq_pairwise _ none none hbst
      rw [seq_plug, hpost] at hp hpair
      simp only [T.seq_node, T.seq_nil] at hp hpair
      have hp2 : p ∈ (ctx.seqPre ++ L.seq) ++ [(x, kx)] := by
        simpa [List.append_assoc] using hp
      have hpair2 : ((ctx.seqPre ++ L.seq) ++ [(x, kx)]).Pairwise
          (fun p q => p.2 < q.2) := by
        simpa [List.append_assoc] using hpair
      obtain ⟨-, -, hcross⟩ := List.pairwise_append.mp hpair2
      rcases List.mem_append.mp hp2 with hp3 | hp3
      · exact le_of_lt (hcross p hp3 (x, kx) (by simp))
      · simp only [List.mem_singleton] at hp3
        rw [hp3]
  · intro hRn
    cases R with
    | nil => exact absurd rfl hRn
    | node Rl ri rc rk Rr =>
      have hrs : (h.get x).right = some ri :=
        reprAt_rootRef h (some x) ((h.get x).right) _ hR
      have hR2 : reprAt h (some x) (some ri) (T.node Rl ri rc rk Rr) := by
        rw [← hrs]; exact hR
      obtain ⟨m, km, rest, hseq, hmin, hkm⟩ :=
        findMinimum_spec h (T.node Rl ri rc rk Rr) (some x) ri fuel hR2
          (by omega)
      refine ⟨m, km, rest, hseq, ?_, ?_⟩
      · simp only [__helper_rb_tree_find_successor, hrs, hmin]
      · intro hbst p hp
        obtain ⟨-, hsb⟩ := (BstB_plug none none ctx _).mp hbst
        obtain ⟨-, -, -, hbR⟩ := hsb
        have hpair := bstB_seq_pairwise _ _ _ hbR
        rw [hseq] at hpair hp
        rcases List.mem_cons.mp hp with hp | hp
        · rw [hp]
        · exact le_of_lt ((List.pairwise_cons.mp hpair).1 p hp)

/-- Witness for C8: in the two-node state rotSt the successor of node 1
(key 1) is node 2 (key 2), the minimum of its right subtree. -/
theorem successor_spec_witness :
    reprCtx rotSt.heap rotSt.tree.root Ctx.top (some 1) ∧
    reprAt rotSt.heap Ctx.top.holePar (some 1)
      (T.node T.nil 1 Color.black 1 (T.node T.nil 2 Color.red 2 T.nil)) ∧
    __helper_rb_tree_find_successor rotSt.heap 10 1 = some (some 2) := by
  refine ⟨by decide, by decide, ?_⟩
  obtain ⟨m, km, rest, hseq, hsucc, -⟩ :=
    (successor_spec rotSt.heap rotSt.tree.root Ctx.top T.nil
      (T.node T.nil 2 Color.red 2 T.nil) 1 Color.black 1 10
      (by decide) (by decide) (by decide) (by decide)).2 (by decide)
  obtain ⟨rfl, -, -⟩ : m = 2 ∧ km = 2 ∧ rest = [] := by
    have : ((2 : Nat), (2 : Int)) :: ([] : List (Nat × Int)) =
        (m, km) :: rest := by
      rw [← hseq]; rfl
    simp only [List.cons.injEq, Prod.mk.injEq] at this
    exact ⟨this.1.1.symm, this.1.2.symm, this.2.symm⟩
  exact hsucc

/-! ## Red-black plug decomposition and context bookkeeping -/

theorem color_black_of_ne_red (c : Color) : c ≠ Color.red → c = Color.black := by
  cases c with
  | red => intro h; exact absurd rfl h
  | black => intro h; rfl

theorem cmpI_neg_iff (a b : Int) : cmpI a b < 0 ↔ a < b := by
  unfold cmpI
  split
  · rename_i h; simp [h]
  · rename_i h
    split
    · rename_i h2
      constructor
      · intro h3; omega
      · intro h3; exact absurd h3 h
    · simp [h]

theorem cmpI_zero_iff (a b : Int) : cmpI a b = 0 ↔ a = b := by
  unfold cmpI
  split
  · rename_i h
    constructor
    · intro h2; omega
    · intro h2; omega
  · rename_i h
    split
    · rename_i h2
      constructor
      · intro h3; omega
      · intro h3; omega
    · rename_i h2
      constructor
      · intro h3; omega
      · intro h3; rfl

theorem cmpI_gt (a b : Int) : ¬ cmpI a b < 0 → cmpI a b ≠ 0 → b < a := by
  intro h1 h2
  rw [cmpI_neg_iff] at h1
  have h3 : a ≠ b := fun hEq => h2 ((cmpI_zero_iff a b).mpr hEq)
  omega

theorem allR_appendC (a b : Ctx) : (a.appendC b).allR = (a.allR && b.allR) := by
  induction a with
  | top => simp [Ctx.appendC, Ctx.allR]
  | goL up i c k r ih => simp [Ctx.appendC, Ctx.allR]
  | goR up l i c k ih => simp [Ctx.appendC, Ctx.allR, ih]

theorem allR_iff_seqPost_nil (ctx : Ctx) :
    ctx.allR = true ↔ ctx.seqPost = [] := by
  induction ctx with
  | top => simp [Ctx.allR, Ctx.seqPost]
  | goL up i c k r ih => simp [Ctx.allR, Ctx.seqPost]
  | goR up l i c k ih => simpa [Ctx.allR, Ctx.seqPost] using ih

theorem depth_size_plug (ctx : Ctx) :
    ∀ sub, ctx.depth + sub.size ≤ (ctx.plug sub).size := by
  induction ctx with
  | top => intro sub; simp [Ctx.depth, Ctx.plug]
  | goL up i c k r ih =>
    intro sub
    have := ih (T.node sub i c k r)
    simp only [Ctx.depth, Ctx.plug, T.size] at this ⊢
    omega
  | goR up l i c k ih =>
    intro sub
    have := ih (T.node l i c k sub)
    simp only [Ctx.depth, Ctx.plug, T.size] at this ⊢
    omega

theorem plug_rootRef_frames (ctx : Ctx) :
    ∀ sub j, ctx ≠ Ctx.top → (ctx.plug sub).rootRef = some j →
      j ∈ ctx.preIds ++ ctx.postIds := by
  induction ctx with
  | top => intro sub j h; exact absurd rfl h
  | goL up i c k r ih =>
    intro sub j _ hr
    cases up with
    | top =>
      obtain rfl : i = j := by
        simpa [Ctx.plug, T.rootRef] using hr
      simp [Ctx.preIds, Ctx.postIds]
    | goL u2 i2 c2 k2 r2 =>
      have := ih (T.node sub i c k r) j (by simp) hr
      simp only [Ctx.preIds, Ctx.postIds, List.mem_append] at this ⊢
      tauto
    | goR u2 l2 i2 c2 k2 =>
      have := ih (T.node sub i c k r) j (by simp) hr
      simp only [Ctx.preIds, Ctx.postIds, List.mem_append] at this ⊢
      tauto
  | goR up l i c k ih =>
    intro sub j _ hr
    cases up with
    | top =>
      obtain rfl : i = j := by
        simpa [Ctx.plug, T.rootRef] using hr
      simp [Ctx.preIds, Ctx.postIds]
    | goL u2 i2 c2 k2 r2 =>
      have := ih (T.node l i c k sub) j (by simp) hr
      simp only [Ctx.preIds, Ctx.postIds, List.mem_append] at this ⊢
      tauto
    | goR u2 l2 i2 c2 k2 =>
      have := ih (T.node l i c k sub) j (by simp) hr
      simp only [Ctx.preIds, Ctx.postIds, List.mem_append] at this ⊢
      tauto

theorem outerBlack_of_plug (ctx : Ctx) :
    ∀ sub, rootColor (ctx.plug sub) = Color.black → ctx.outerBlack := by
  induction ctx with
  | top => intro sub _; trivial
  | goL up i c k r ih =>
    intro sub h
    cases up with
    | top =>
      show c = Color.black
      simpa [Ctx.plug, rootColor] using h
    | goL u2 i2 c2 k2 r2 =>
      show Ctx.outerBlack (Ctx.goL u2 i2 c2 k2 r2)
      exact ih (T.node sub i c k r) h
    | goR u2 l2 i2 c2 k2 =>
      show Ctx.outerBlack (Ctx.goR u2 l2 i2 c2 k2)
      exact ih (T.node sub i c k r) h
  | goR up l i c k ih =>
    intro sub h
    cases up with
    | top =>
      show c = Color.black
      simpa [Ctx.plug, rootColor] using h
    | goL u2 i2 c2 k2 r2 =>
      show Ctx.outerBlack (Ctx.goL u2 i2 c2 k2 r2)
      exact ih (T.node l i c k sub) h
    | goR u2 l2 i2 c2 k2 =>
      show Ctx.outerBlack (Ctx.goR u2 l2 i2 c2 k2)
      exact ih (T.node l i c k sub) h

theorem outerBlack_dropL (up : Ctx) (i : Nat) (c : Color) (k : Int) (r : T) :
    (Ctx.goL up i c k r).outerBlack → up.outerBlack := by
  cases up with
  | top => intro _; trivial
  | goL u2 i2 c2 k2 r2 => intro h; exact h
  | goR u2 l2 i2 c2 k2 => intro h; exact h

theorem outerBlack_dropR (up : Ctx) (l : T) (i : Nat) (c : Color) (k : Int) :
    (Ctx.goR up l i c k).outerBlack → up.outerBlack := by
  cases up with
  | top => intro _; trivial
  | goL u2 i2 c2 k2 r2 => intro h; exact h
  | goR u2 l2 i2 c2 k2 => intro h; exact h

theorem outerBlack_consL (up : Ctx) (i : Nat) (k : Int) (r : T) :
    up.outerBlack → (Ctx.goL up i Color.black k r).outerBlack := by
  cases up with
  | top => intro _; rfl
  | goL u2 i2 c2 k2 r2 => intro h; exact h
  | goR u2 l2 i2 c2 k2 => intro h; exact h

theorem outerBlack_consR (up : Ctx) (l : T) (i : Nat) (k : Int) :
    up.outerBlack → (Ctx.goR up l i Color.black k).outerBlack := by
  cases up with
  | top => intro _; rfl
  | goL u2 i2 c2 k2 r2 => intro h; exact h
  | goR u2 l2 i2 c2 k2 => intro h; exact h

theorem rootColor_plug_black (ctx : Ctx) :
    ∀ sub, ctx ≠ Ctx.top → ctx.outerBlack →
      rootColor (ctx.plug sub) = Color.black := by
  induction ctx with
  | top => intro sub h; exact absurd rfl h
  | goL up i c k r ih =>
    intro sub _ hob
    cases up with
    | top =>
      have hc : c = Color.black := hob
      simp [Ctx.plug, rootColor, hc]
    | goL u2 i2 c2 k2 r2 =>
      exact ih (T.node sub i c k r) (by simp) hob
    | goR u2 l2 i2 c2 k2 =>
      exact ih (T.node sub i c k r) (by simp) hob
  | goR up l i c k ih =>
    intro sub _ hob
    cases up with
    | top =>
      have hc : c = Color.black := hob
      simp [Ctx.plug, rootColor, hc]
    | goL u2 i2 c2 k2 r2 =>
      exact ih (T.node l i c k sub) (by simp) hob
    | goR u2 l2 i2 c2 k2 =>
      exact ih (T.node l i c k sub) (by simp) hob

theorem RBsub_plug (ctx : Ctx) :
    ∀ sub n, CtxRB ctx n → RBsub sub → bh sub = n →
      (rootColor sub = Color.red → ctx.headColor = Color.black) →
      RBsub (ctx.plug sub) := by
  induction ctx with
  | top => intro sub n _ hS _ _; exact hS
  | goL up i c k r ih =>
    intro sub n hC hS hbh hred
    obtain ⟨hRr, hbr, hredC, hup⟩ := hC
    refine ih (T.node sub i c k r) (n + bl c) hup ?_ ?_ ?_
    · constructor
      · refine ⟨?_, hS.1, hRr.1⟩
        intro hc
        refine ⟨?_, (hredC hc).2⟩
        apply color_black_of_ne_red
        intro hsr
        rw [hc] at hred
        exact Color.noConfusion (hred hsr)
      · exact ⟨hS.2, hRr.2, by rw [hbh, hbr]⟩
    · show bh sub + _ = n + bl c
      rw [hbh]; rfl
    · intro hc
      exact (hredC hc).1
  | goR up l i c k ih =>
    intro sub n hC hS hbh hred
    obtain ⟨hRl, hbl, hredC, hup⟩ := hC
    refine ih (T.node l i c k sub) (n + bl c) hup ?_ ?_ ?_
    · constructor
      · refine ⟨?_, hRl.1, hS.1⟩
        intro hc
        refine ⟨(hredC hc).2, ?_⟩
        apply color_black_of_ne_red
        intro hsr
        rw [hc] at hred
        exact Color.noConfusion (hred hsr)
      · exact ⟨hRl.2, hS.2, by rw [hbh, hbl]⟩
    · show bh l + _ = n + bl c
      rw [hbl]; rfl
    · intro hc
      exact (hredC hc).1
  
theorem CtxRB_of_plug (ctx : Ctx) :
    ∀ sub, RBsub (ctx.plug sub) →
      CtxRB ctx (bh sub) ∧ RBsub sub ∧
      (rootColor sub = Color.red → ctx.headColor = Color.black) := by
  induction ctx with
  | top => intro sub h; exact ⟨trivial, h, fun _ => rfl⟩
  | goL up i c k r ih =>
    intro sub h
    obtain ⟨hC, hS, hH⟩ := ih (T.node sub i c k r) h
    obtain ⟨⟨hrr, hnl, hnr⟩, ⟨hbl2, hbr2, hbe⟩⟩ := hS
    refine ⟨⟨⟨hnr, hbr2⟩, hbe.symm, ?_, ?_⟩, ⟨hnl, hbl2⟩, ?_⟩
    · intro hc
      exact ⟨hH hc, (hrr hc).2⟩
    · have : bh (T.node sub i c k r) = bh sub + bl c := rfl
      rw [← this]; exact hC
    · intro hsr
      apply color_black_of_ne_red
      intro hc
      rw [(hrr hc).1] at hsr
      exact Color.noConfusion hsr
  | goR up l i c k ih =>
    intro sub h
    obtain ⟨hC, hS, hH⟩ := ih (T.node l i c k sub) h
    obtain ⟨⟨hrr, hnl, hnr⟩, ⟨hbl2, hbr2, hbe⟩⟩ := hS
    refine ⟨⟨⟨hnl, hbl2⟩, hbe, ?_, ?_⟩, ⟨hnr, hbr2⟩, ?_⟩
    · intro hc
      exact ⟨hH hc, (hrr hc).1⟩
    · have : bh (T.node l i c k sub) = bh l + bl c := rfl
      rw [← hbe, ← this]; exact hC
    · intro hsr
      apply color_black_of_ne_red
      intro hc
      rw [(hrr hc).2] at hsr
      exact Color.noConfusion hsr

theorem loB_appendC (a b : Ctx) (lo : Option Int) :
    (a.appendC b).loB lo = a.loB (b.loB lo) := by
  induction a with
  | top => rfl
  | goL up i c k r ih => simpa [Ctx.appendC, Ctx.loB] using ih
  | goR up l i c k ih => simp [Ctx.appendC, Ctx.loB]

theorem hiB_appendC (a b : Ctx) (hi : Option Int) :
    (a.appendC b).hiB hi = a.hiB (b.hiB hi) := by
  induction a with
  | top => rfl
  | goL up i c k r ih => simp [Ctx.appendC, Ctx.hiB]
  | goR up l i c k ih => simpa [Ctx.appendC, Ctx.hiB] using ih

theorem reprAt_key (h : Heap) (t : T) :
    ∀ par x, reprAt h par x t → ∀ p ∈ t.seq, (h.get p.1).key = p.2 := by
  induction t with
  | nil => intro par x _ p hp; simp at hp
  | node l i c k r ihl ihr =>
    intro par x ht p hp
    obtain ⟨-, -, -, hk, hl, hr⟩ := ht
    simp only [T.seq_node, List.mem_append, List.mem_cons] at hp
    rcases hp with hp | (hp | hp)
    · exact ihl _ _ hl p hp
    · rw [hp]; exact hk
    · exact ihr _ _ hr p hp

theorem T.size_eq_seq_length (t : T) : t.size = t.seq.length := by
  induction t with
  | nil => rfl
  | node l i c k r ihl ihr => simp [T.size, T.seq, ihl, ihr]; omega

/-! ## Refinement of the insert descent -/

/-- The BST descent of rb_tree_insert: on a heap laying out a search
tree none of whose keys equals the new node's key, the loop succeeds,
links the new node at the empty slot characterised by a context of the
tree, and returns the rightmost flag exactly when every frame of that
context is a right-child frame. -/
theorem insertLoop_spec (h : Heap) (ni : Nat) :
    ∀ (t : T) (lo hi : Option Int) (fuel : Nat) (par : Option Nat)
      (n0 : Nat) (rm : Bool),
      reprAt h par (some n0) t →
      BstB lo hi t →
      (∀ k ∈ t.keys, (h.get ni).key ≠ k) →
      LB lo (h.get ni).key → UB (h.get ni).key hi →
      t.size ≤ fuel →
      ∃ ctx h2 nd rm2,
        insertLoop ni fuel h rm n0 = some (some (h2, rm2, nd)) ∧
        ctx.plug T.nil = t ∧
        rm2 = (rm && ctx.allR) ∧
        LB (ctx.loB lo) (h.get ni).key ∧
        UB (h.get ni).key (ctx.hiB hi) ∧
        ((∃ up c k r, ctx = Ctx.goL up nd c k r ∧
            h2 = h.setLeft nd (some ni)) ∨
         (∃ up l c k, ctx = Ctx.goR up l nd c k ∧
            h2 = h.setRight nd (some ni))) := by
  intro t
  induction t with
  | nil =>
    intro lo hi fuel par n0 rm ht
    exact absurd ht (by simp)
  | node l i co k r ihl ihr =>
    intro lo hi fuel par n0 rm ht hB hkeys hlo hhi hsz
    obtain ⟨hn0, hp, hc, hk, hl, hr⟩ := ht
    obtain rfl : i = n0 := (Option.some.inj hn0).symm
    obtain ⟨hBl1, hBu1, hBl, hBr⟩ := hB
    cases fuel with
    | zero => simp only [T.size] at hsz; omega
    | succ fuel =>
      have hkmem : k ∈ (T.node l i co k r).keys := by
        simp [T.keys, T.seq_node]
      have h0 : cmpI (h.get ni).key k ≠ 0 :=
        fun hc0 => (hkeys k hkmem) ((cmpI_zero_iff _ _).mp hc0)
      by_cases hlt : cmpI (h.get ni).key k < 0
      · -- descend left
        have hklt : (h.get ni).key < k := (cmpI_neg_iff _ _).mp hlt
        cases hll : (h.get i).left with
        | none =>
          cases l with
          | node l2 i2 c2 k2 r2 =>
            rw [hll] at hl
            exact absurd hl.1 (by simp)
          | nil =>
            have heq : insertLoop ni (fuel+1) h rm i =
                some (some (h.setLeft i (some ni), false, i)) := by
              simp only [insertLoop, hk]
              rw [if_neg h0, if_pos hlt, hll]
            refine ⟨Ctx.goL Ctx.top i co k r, h.setLeft i (some ni), i,
              false, heq, rfl, by simp [Ctx.allR], hlo, hklt,
              Or.inl ⟨Ctx.top, co, k, r, rfl, rfl⟩⟩
        | some l0 =>
          rw [hll] at hl
          obtain ⟨ctx2, h2, nd, rm2, heq2, hplug, hrm, hLB, hUB, hdisj⟩ :=
            ihl lo (some k) fuel (some i) l0 false hl hBl
              (fun k2 hk2 => hkeys k2
                (by
                  simp only [T.keys, T.seq_node, List.map_append,
                    List.map_cons, List.mem_append, List.mem_cons] at hk2 ⊢
                  tauto))
              hlo hklt (by simp only [T.size] at hsz; omega)
          have heq : insertLoop ni (fuel+1) h rm i =
              insertLoop ni fuel h false l0 := by
            simp only [insertLoop, hk]
            rw [if_neg h0, if_pos hlt, hll]
          refine ⟨ctx2.appendC (Ctx.goL Ctx.top i co k r), h2, nd, rm2,
            by rw [heq]; exact heq2, ?_, ?_, ?_, ?_, ?_⟩
          · rw [plug_appendC, hplug]
            rfl
          · simp [allR_appendC, Ctx.allR, hrm]
          · rw [loB_appendC]
            exact hLB
          · rw [hiB_appendC]
            exact hUB
          · rcases hdisj with ⟨up, c3, k3, r3, hctxEq, hh2⟩ |
                ⟨up, l3, c3, k3, hctxEq, hh2⟩
            · exact Or.inl ⟨up.appendC (Ctx.goL Ctx.top i co k r), c3, k3,
                r3, by rw [hctxEq]; rfl, hh2⟩
            · exact Or.inr ⟨up.appendC (Ctx.goL Ctx.top i co k r), l3, c3,
                k3, by rw [hctxEq]; rfl, hh2⟩
      · -- descend right
        have hkgt : k < (h.get ni).key := cmpI_gt _ _ hlt h0
        cases hrr : (h.get i).right with
        | none =>
          cases r with
          | node l2 i2 c2 k2 r2 =>
            rw [hrr] at hr
            exact absurd hr.1 (by simp)
          | nil =>
            have heq : insertLoop ni (fuel+1) h rm i =
                some (some (h.setRight i (some ni), rm, i)) := by
              simp only [insertLoop, hk]
              rw [if_neg h0, if_neg hlt, hrr]
            refine ⟨Ctx.goR Ctx.top l i co k, h.setRight i (some ni), i,
              rm, heq, rfl, by simp [Ctx.allR], hkgt, hhi,
              Or.inr ⟨Ctx.top, l, co, k, rfl, rfl⟩⟩
        | some r0 =>
          rw [hrr] at hr
          obtain ⟨ctx2, h2, nd, rm2, heq2, hplug, hrm, hLB, hUB, hdisj⟩ :=
            ihr (some k) hi fuel (some i) r0 rm hr hBr
              (fun k2 hk2 => hkeys k2
                (by
                  simp only [T.keys, T.seq_node, List.map_append,
                    List.map_cons, List.mem_append, List.mem_cons] at hk2 ⊢
                  tauto))
              hkgt hhi (by simp only [T.size] at hsz; omega)
          have heq : insertLoop ni (fuel+1) h rm i =
              insertLoop ni fuel h rm r0 := by
            simp only [insertLoop, hk]
            rw [if_neg h0, if_neg hlt, hrr]
          refine ⟨ctx2.appendC (Ctx.goR Ctx.top l i co k), h2, nd, rm2,
            by rw [heq]; exact heq2, ?_, ?_, ?_, ?_, ?_⟩
          · rw [plug_appendC, hplug]
            rfl
          · simp [allR_appendC, Ctx.allR, hrm]
          · rw [loB_appendC]
            exact hLB
          · rw [hiB_appendC]
            exact hUB
          · rcases hdisj with ⟨up, c3, k3, r3, hctxEq, hh2⟩ |
                ⟨up, l3, c3, k3, hctxEq, hh2⟩
            · exact Or.inl ⟨up.appendC (Ctx.goR Ctx.top l i co k), c3, k3,
                r3, by rw [hctxEq]; rfl, hh2⟩
            · exact Or.inr ⟨up.appendC (Ctx.goR Ctx.top l i co k), l3, c3,
                k3, by rw [hctxEq]; rfl, hh2⟩

/-! ## Correctness of the find descent over a search tree -/

/-- The find descent locates any entry of the laid-out search tree. -/
theorem findLoop_found_spec (h : Heap) (t : T) :
    ∀ (lo hi : Option Int) (par x : Option Nat) (fuel : Nat) (i : Nat)
      (k : Int),
      reprAt h par x t → BstB lo hi t → (i, k) ∈ t.seq → t.size ≤ fuel →
      findLoop h k fuel x = some (some i) := by
  induction t with
  | nil => intro lo hi par x fuel i k _ _ hmem; simp at hmem
  | node l j co kj r ihl ihr =>
    intro lo hi par x fuel i k ht hB hmem hsz
    obtain ⟨hx, hp, hc, hk, hl, hr⟩ := ht
    subst hx
    obtain ⟨hBl1, hBu1, hBl, hBr⟩ := hB
    cases fuel with
    | zero => simp only [T.size] at hsz; omega
    | succ fuel =>
      simp only [T.seq_node, List.mem_append, List.mem_cons] at hmem
      rcases hmem with hmem | (hmem | hmem)
      · have hklt : k < kj :=
          (bstB_entry_bounds l lo (some kj) hBl (i, k) hmem).2
        have hcmp : cmpI k kj < 0 := (cmpI_neg_iff _ _).mpr hklt
        simp only [findLoop, hk]
        rw [if_pos hcmp]
        exact ihl lo (some kj) (some j) ((h.get j).left) fuel i k hl hBl
          hmem (by simp only [T.size] at hsz; omega)
      · obtain ⟨rfl, rfl⟩ : i = j ∧ k = kj := by
          simpa using hmem
        have hcmp : cmpI k k = 0 := (cmpI_zero_iff _ _).mpr rfl
        simp only [findLoop, hk]
        rw [if_neg (by omega), if_pos hcmp]
      · have hkgt : kj < k :=
          (bstB_entry_bounds r (some kj) hi hBr (i, k) hmem).1
        have hcmp1 : ¬ cmpI k kj < 0 := by
          rw [cmpI_neg_iff]; omega
        have hcmp2 : cmpI k kj ≠ 0 := by
          intro hc0
          rw [cmpI_zero_iff] at hc0
          omega
        simp only [findLoop, hk]
        rw [if_neg hcmp1, if_neg hcmp2]
        exact ihr (some kj) hi (some j) ((h.get j).right) fuel i k hr hBr
          hmem (by simp only [T.size] at hsz; omega)

/-- The find descent falls off the tree on a key the search tree does
not hold. -/
theorem findLoop_notfound_spec (h : Heap) (t : T) :
    ∀ (lo hi : Option Int) (par x : Option Nat) (fuel : Nat) (k : Int),
      reprAt h par x t → BstB lo hi t → k ∉ t.keys →
      t.size + 1 ≤ fuel →
      findLoop h k fuel x = some none := by
  induction t with
  | nil =>
    intro lo hi par x fuel k ht _ _ hsz
    subst ht
    cases fuel with
    | zero => omega
    | succ fuel => rfl
  | node l j co kj r ihl ihr =>
    intro lo hi par x fuel k ht hB hmem hsz
    obtain ⟨hx, hp, hc, hk, hl, hr⟩ := ht
    subst hx
    obtain ⟨hBl1, hBu1, hBl, hBr⟩ := hB
    cases fuel with
    | zero => simp only [T.size] at hsz; omega
    | succ fuel =>
      have hkeysplit : k ∉ l.keys ∧ k ≠ kj ∧ k ∉ r.keys := by
        simp only [T.keys, T.seq_node, List.map_append, List.map_cons,
          List.mem_append, List.mem_cons] at hmem
        simp only [T.keys]
        tauto
      by_cases hlt : k < kj
      · have hcmp : cmpI k kj < 0 := (cmpI_neg_iff _ _).mpr hlt
        simp only [findLoop, hk]
        rw [if_pos hcmp]
        exact ihl lo (some kj) (some j) ((h.get j).left) fuel k hl hBl
          hkeysplit.1 (by simp only [T.size] at hsz; omega)
      · have hgt : kj < k := by
          have := hkeysplit.2.1
          omega
        have hcmp1 : ¬ cmpI k kj < 0 := by
          rw [cmpI_neg_iff]; omega
        have hcmp2 : cmpI k kj ≠ 0 := by
          intro hc0
          rw [cmpI_zero_iff] at hc0
          omega
        simp only [findLoop, hk]
        rw [if_neg hcmp1, if_neg hcmp2]
        exact ihr (some kj) hi (some j) ((h.get j).right) fuel k hr hBr
          hkeysplit.2.2 (by simp only [T.size] at hsz; omega)

@[simp]
theorem T.ids_recolor (j : Nat) (c : Color) (t : T) :
    (t.recolor j c).ids = t.ids := by
  induction t with
  | nil => rfl
  | node l i c0 k r ihl ihr => simp [T.recolor, ihl, ihr]

@[simp]
theorem T.seq_recolor (j : Nat) (c : Color) (t : T) :
    (t.recolor j c).seq = t.seq := by
  induction t with
  | nil => rfl
  | node l i c0 k r ihl ihr => simp [T.recolor, ihl, ihr]

theorem T.recolor_eq_self (t : T) (j : Nat) (c : Color) :
    j ∉ t.ids → t.recolor j c = t := by
  induction t with
  | nil => intro _; rfl
  | node l i c0 k r ihl ihr =>
    intro hj
    simp only [T.ids_node, List.mem_append, List.mem_singleton,
      not_or] at hj
    obtain ⟨hjl, hjir⟩ := hj
    have hji : ¬ j = i := fun hEq => hjir (by simp [hEq])
    have hjr : j ∉ r.ids := fun hm => hjir (by simp [hm])
    have hij : i ≠ j := fun hEq => hji hEq.symm
    simp [T.recolor, hij, ihl hjl, ihr hjr]

theorem Ctx.holePar_recolor (ctx : Ctx) (j : Nat) (c : Color) :
    (ctx.recolor j c).holePar = ctx.holePar := by
  cases ctx <;> rfl

theorem Ctx.recolor_untouched (ctx : Ctx) (j : Nat) (c : Color) :
    j ∉ ctx.preIds ++ ctx.postIds → ctx.recolor j c = ctx := by
  induction ctx with
  | top => intro _; rfl
  | goL up i c0 k r ih =>
    intro hj
    simp only [Ctx.preIds, Ctx.postIds, List.mem_append, List.mem_cons,
      not_or] at hj
    obtain ⟨hjpre, ⟨hji, hjr⟩, hjpost⟩ := hj
    have hij : i ≠ j := fun hEq => hji hEq.symm
    rw [Ctx.recolor, if_neg hij,
      ih (by simp only [List.mem_append, not_or]; exact ⟨hjpre, hjpost⟩),
      T.recolor_eq_self r j c hjr]
  | goR up l i c0 k ih =>
    intro hj
    simp only [Ctx.preIds, Ctx.postIds, List.mem_append,
      List.mem_singleton, not_or] at hj
    obtain ⟨⟨⟨hjpre, hjl⟩, hji⟩, hjpost⟩ := hj
    have hij : i ≠ j := fun hEq => hji hEq.symm
    rw [Ctx.recolor, if_neg hij,
      T.recolor_eq_self l j c hjl,
      ih (by simp only [List.mem_append, not_or]; exact ⟨hjpre, hjpost⟩)]

theorem reprAt_setColor (h : Heap) (t : T) :
    ∀ (par x : Option Nat) (j : Nat) (c : Color),
      reprAt h par x t → reprAt (h.setColor j c) par x (t.recolor j c) := by
  induction t with
  | nil => intro par x j c ht; exact ht
  | node l i c0 k r ihl ihr =>
    intro par x j c ht
    obtain ⟨hx, hp, hc, hk, hl, hr⟩ := ht
    by_cases hij : i = j
    · subst hij
      show reprAt (h.setColor i c) par x
        (T.node (T.recolor i c l) i (if i = i then c else c0) k
          (T.recolor i c r))
      rw [if_pos rfl]
      have hgi : (h.setColor i c).get i = { h.get i with color := c } := by
        simp
      refine ⟨hx, ?_, ?_, ?_, ?_, ?_⟩ <;> simp only [hgi]
      · exact hp
      · exact hk
      · exact ihl _ _ i c hl
      · exact ihr _ _ i c hr
    · show reprAt (h.setColor j c) par x
        (T.node (T.recolor j c l) i (if i = j then c else c0) k
          (T.recolor j c r))
      rw [if_neg hij]
      have hgi : (h.setColor j c).get i = h.get i := by
        simp only [Heap.get_setColor, if_neg hij]
      refine ⟨hx, ?_, ?_, ?_, ?_, ?_⟩ <;> simp only [hgi]
      · exact hp
      · exact hc
      · exact hk
      · exact ihl _ _ j c hl
      · exact ihr _ _ j c hr

theorem reprCtx_setColor (h : Heap) (root : Option Nat) (ctx : Ctx) :
    ∀ (x : Option Nat) (j : Nat) (c : Color),
      reprCtx h root ctx x →
      reprCtx (h.setColor j c) root (ctx.recolor j c) x := by
  induction ctx with
  | top => intro x j c hc; exact hc
  | goL up i c0 k r ih =>
    intro x j c hctx
    obtain ⟨hx, hp, hcol, hk, hr, hup⟩ := hctx
    by_cases hij : i = j
    · subst hij
      show reprCtx (h.setColor i c) root
        (Ctx.goL (Ctx.recolor i c up) i (if i = i then c else c0) k
          (T.recolor i c r)) x
      rw [if_pos rfl]
      have hgi : (h.setColor i c).get i = { h.get i with color := c } := by
        simp
      refine ⟨?_, ?_, ?_, ?_, ?_, ih _ i c hup⟩ <;>
        simp only [hgi, Ctx.holePar_recolor]
      · exact hx
      · exact hp
      · exact hk
      · exact reprAt_setColor h r _ _ i c hr
    · show reprCtx (h.setColor j c) root
        (Ctx.goL (Ctx.recolor j c up) i (if i = j then c else c0) k
          (T.recolor j c r)) x
      rw [if_neg hij]
      have hgi : (h.setColor j c).get i = h.get i := by
        simp only [Heap.get_setColor, if_neg hij]
      refine ⟨?_, ?_, ?_, ?_, ?_, ih _ j c hup⟩ <;>
        simp only [hgi, Ctx.holePar_recolor]
      · exact hx
      · exact hp
      · exact hcol
      · exact hk
      · exact reprAt_setColor h r _ _ j c hr
  | goR up l i c0 k ih =>
    intro x j c hctx
    obtain ⟨hx, hp, hcol, hk, hl, hup⟩ := hctx
    by_cases hij : i = j
    · subst hij
      show reprCtx (h.setColor i c) root
        (Ctx.goR (Ctx.recolor i c up) (T.recolor i c l) i
          (if i = i then c else c0) k) x
      rw [if_pos rfl]
      have hgi : (h.setColor i c).get i = { h.get i with color := c } := by
        simp
      refine ⟨?_, ?_, ?_, ?_, ?_, ih _ i c hup⟩ <;>
        simp only [hgi, Ctx.holePar_recolor]
      · exact hx
      · exact hp
      · exact hk
      · exact reprAt_setColor h l _ _ i c hl
    · show reprCtx (h.setColor j c) root
        (Ctx.goR (Ctx.recolor j c up) (T.recolor j c l) i
          (if i = j then c else c0) k) x
      rw [if_neg hij]
      have hgi : (h.setColor j c).get i = h.get i := by
        simp only [Heap.get_setColor, if_neg hij]
      refine ⟨?_, ?_, ?_, ?_, ?_, ih _ j c hup⟩ <;>
        simp only [hgi, Ctx.holePar_recolor]
      · exact hx
      · exact hp
      · exact hcol
      · exact hk
      · exact reprAt_setColor h l _ _ j c hl

/-! ## Refinement of the insert fix-up loop -/

theorem insertRebalanceLoop_spec :
    ∀ (fuel : Nat) (s : St) (pnode : Nat) (ctx : Ctx) (sub : T),
      (footprint ctx sub).Nodup →
      reprCtx s.heap s.tree.root ctx (some pnode) →
      reprAt s.heap ctx.holePar (some pnode) sub →
      sub.rootRef = some pnode →
      RBsub sub → rootColor sub = Color.red →
      CtxRB ctx (bh sub) → ctx.outerBlack →
      BstB none none (ctx.plug sub) →
      ctx.depth + 1 ≤ fuel →
      ∃ s1 t1, insertRebalanceLoop fuel s pnode = some s1 ∧
        reprAt s1.heap none s1.tree.root t1 ∧
        t1.seq = (ctx.plug sub).seq ∧
        RBsub t1 ∧ BstB none none t1 ∧
        s1.tree.leftmost = s.tree.leftmost ∧
        s1.tree.rightmost = s.tree.rightmost := by
  intro fuel
  induction fuel with
  | zero =>
    intro s pnode ctx sub _ _ _ _ _ _ _ _ _ hfuel
    omega
  | succ fuel ih =>
    intro s pnode ctx sub hN hctx hsub hroot hRB hred hCtxRB hOB hBst hfuel
    by_cases hrt : s.tree.root = some pnode
    · -- exit: pnode is the root; the context must be empty
      have hctxtop : ctx = Ctx.top := by
        by_contra hct
        have hplugrepr : reprAt s.heap none s.tree.root (ctx.plug sub) :=
          repr_plug_mk s.heap s.tree.root ctx sub (some pnode) hctx
            (hroot ▸ hsub)
        have hrr : s.tree.root = (ctx.plug sub).rootRef :=
          reprAt_rootRef _ _ _ _ hplugrepr
        have hmem : pnode ∈ ctx.preIds ++ ctx.postIds :=
          plug_rootRef_frames ctx sub pnode hct (by rw [← hrr, hrt])
        have hmem2 : pnode ∈ sub.ids := rootRef_mem sub pnode hroot
        rw [footprint] at hN
        obtain ⟨-, -, -, hpre_f, hmid_post⟩ := nodup_append_triple hN
        rcases List.mem_append.mp hmem with hm | hm
        · exact (hpre_f pnode hm).1 hmem2
        · exact hmid_post pnode hmem2 hm
      subst hctxtop
      have heq : insertRebalanceLoop (fuel+1) s pnode = some s := by
        simp only [insertRebalanceLoop, hrt, if_true]
      refine ⟨s, sub, heq, ?_, rfl, hRB, hBst, rfl, rfl⟩
      rw [hrt]
      exact hroot ▸ hsub
    · -- pnode is not the root: the context has at least one frame
      cases sub with
      | nil => exact absurd hroot (by simp [T.rootRef])
      | node SA pn0 sc sk SB =>
      obtain rfl : pnode = pn0 := (Option.some.inj hroot).symm
      have hscr : sc = Color.red := hred
      subst hscr
      obtain ⟨-, hpp, hpc2, hpk2, hSA, hSB⟩ := hsub
      cases ctx with
      | top => exact absurd (show s.tree.root = some pnode from hctx) hrt
      | goL up par pc pk PR =>
        obtain ⟨hparl, hppar, hpcol, hpkey, hPR, hup⟩ := hctx
        have hparent : (s.heap.get pnode).parent = some par := hpp
        obtain ⟨hPRrb, hPRbh, hredc, hupRB⟩ := hCtxRB
        by_cases hpcr : pc = Color.red
        · subst hpcr
          cases up with
          | top =>
            exact absurd (show Color.red = Color.black from hOB)
              (by simp)
          | goL u2 gp gc gk GU =>
            obtain ⟨hgpl, hgpar, hgcol, hgkey, hGU, hu2⟩ := hup
            have hppar2 : (s.heap.get par).parent = some gp := hppar
            have hgcb : gc = Color.black := (hredc rfl).1
            subst hgcb
            have hPRb : rootColor PR = Color.black := (hredc rfl).2
            have hupRB2 : CtxRB (Ctx.goL u2 gp Color.black gk GU)
                (bh (T.node SA pnode Color.red sk SB)) := by
              simpa [bl] using hupRB
            obtain ⟨hGUrb, hGUbh, hgredc, hu2RB⟩ := hupRB2
            have hu2RB2 : CtxRB u2
                (bh (T.node SA pnode Color.red sk SB) + 1) := by
              simpa [bl] using hu2RB
            have hgrand : __helper_get_grandparent s.heap pnode = some gp := by
              simp [__helper_get_grandparent, hparent, hppar2]
            have hGUroot : (s.heap.get gp).right = GU.rootRef :=
              reprAt_rootRef _ _ _ _ hGU
            -- nodup decomposition
            have hN1 := hN
            rw [footprint] at hN1
            obtain ⟨hpreN, hsubN, hpostN, hpre_f, hsub_post⟩ :=
              nodup_append_triple hN1
            have hpostN2 : ((par :: PR.ids) ++ (gp :: GU.ids) ++
                u2.postIds).Nodup := by
              have h0 : ((par :: PR.ids) ++ ((gp :: GU.ids) ++
                  u2.postIds)).Nodup := hpostN
              simpa [List.append_assoc] using h0
            obtain ⟨hparPRN, hgpGUN, hu2postN, hd1, hd2⟩ :=
              nodup_append_triple hpostN2
            have hsub_facts : ∀ j ∈ (T.node SA pnode Color.red sk SB).ids,
                j ≠ par ∧ j ∉ PR.ids ∧ j ≠ gp ∧ j ∉ GU.ids ∧
                j ∉ u2.postIds ∧ j ∉ u2.preIds := by
              intro j hj
              have h0 : j ∉ (par :: PR.ids) ++ ((gp :: GU.ids) ++
                  u2.postIds) := hsub_post j hj
              refine ⟨fun hEq => h0 (by simp [hEq]),
                fun hm => h0 (by simp [hm]),
                fun hEq => h0 (by simp [hEq]),
                fun hm => h0 (by simp [hm]),
                fun hm => h0 (by simp [hm]),
                fun hm => (hpre_f j hm).1 hj⟩
            have hpar_PR : par ∉ PR.ids := (List.nodup_cons.mp hparPRN).1
            have hgp_GU : gp ∉ GU.ids := (List.nodup_cons.mp hgpGUN).1
            have hGUN : GU.ids.Nodup := (List.nodup_cons.mp hgpGUN).2
            have hpar_gp : par ≠ gp :=
              fun hEq => (hd1 par (by simp)).1 (by simp [hEq])
            have hpar_GU : par ∉ GU.ids :=
              fun hm => (hd1 par (by simp)).1 (by simp [hm])
            have hpar_u2post : par ∉ u2.postIds := (hd1 par (by simp)).2
            have hgp_u2post : gp ∉ u2.postIds := hd2 gp (by simp)
            have hPR_GU : ∀ a ∈ PR.ids, a ∉ GU.ids ∧ a ≠ gp ∧
                a ∉ u2.postIds := by
              intro a ha
              exact ⟨fun hm => (hd1 a (by simp [ha])).1 (by simp [hm]),
                fun hEq => (hd1 a (by simp [ha])).1 (by simp [hEq]),
                (hd1 a (by simp [ha])).2⟩
            have hgp_PR : gp ∉ PR.ids :=
              fun hm => (hPR_GU gp hm).2.1 rfl
            have hpar_sub : par ∉ (T.node SA pnode Color.red sk SB).ids :=
              fun hm => (hsub_facts par hm).1 rfl
            have hgp_sub : gp ∉ (T.node SA pnode Color.red sk SB).ids :=
              fun hm => (hsub_facts gp hm).2.2.1 rfl
            have hpar_u2mem : par ∉ u2.preIds ++ u2.postIds := by
              simp only [List.mem_append, not_or]
              exact ⟨fun hm => (hpre_f par hm).2 (by simp [Ctx.postIds]),
                hpar_u2post⟩
            have hgp_u2mem : gp ∉ u2.preIds ++ u2.postIds := by
              simp only [List.mem_append, not_or]
              exact ⟨fun hm => (hpre_f gp hm).2 (by simp [Ctx.postIds]),
                hgp_u2post⟩
            have hpnfacts := hsub_facts pnode (by simp)
            by_cases hc1 : ∃ UL u uk UR, GU = T.node UL u Color.red uk UR
            · -- Case 1: the uncle exists and is red
              obtain ⟨UL, u, uk, UR, rfl⟩ := hc1
              obtain ⟨hgur, hupar3, hucol, hukey, hUL, hUR⟩ := hGU
              have humem : u ∈ (T.node UL u Color.red uk UR).ids := by simp
              have hu_par : ¬ u = par :=
                fun hEq => hpar_GU (hEq ▸ humem)
              have hu_gp : ¬ u = gp :=
                fun hEq => hgp_GU (hEq ▸ humem)
              have hu_sub : u ∉ (T.node SA pnode Color.red sk SB).ids :=
                fun hm => (hsub_facts u hm).2.2.2.1 humem
              have hu_PR : u ∉ PR.ids :=
                fun hm => (hPR_GU u hm).1 humem
              have hu_u2post : u ∉ u2.postIds := hd2 u (by simp [humem])
              have hu_u2mem : u ∉ u2.preIds ++ u2.postIds := by
                simp only [List.mem_append, not_or]
                refine ⟨fun hm => (hpre_f u hm).2 ?_, hu_u2post⟩
                simp only [Ctx.postIds, List.mem_append, List.mem_cons]
                right
                left
                right
                exact humem
              have hu_UL : u ∉ UL.ids ∧ u ∉ UR.ids := by
                have h2 : (UL.ids ++ [u] ++ UR.ids).Nodup := by
                  simpa using hGUN
                obtain ⟨-, -, -, hf, hmid⟩ := nodup_append_triple h2
                exact ⟨fun hm => (hf u hm).1 (by simp),
                  fun hm => hmid u (by simp) hm⟩
              have hpar_UL : par ∉ UL.ids ∧ par ∉ UR.ids :=
                ⟨fun hm => hpar_GU (by simp [hm]),
                 fun hm => hpar_GU (by simp [hm])⟩
              have hgp_UL : gp ∉ UL.ids ∧ gp ∉ UR.ids :=
                ⟨fun hm => hgp_GU (by simp [hm]),
                 fun hm => hgp_GU (by simp [hm])⟩
              -- layout of the recolored subtree
              have hsub0 : reprAt s.heap u2.holePar (some gp)
                  (T.node (T.node (T.node SA pnode Color.red sk SB) par
                    Color.red pk PR) gp Color.black gk
                    (T.node UL u Color.red uk UR)) := by
                refine ⟨rfl, hgpar, hgcol, hgkey, ?_, ?_⟩
                · rw [hgpl]
                  refine ⟨rfl, hppar2, hpcol, hpkey, ?_, hPR⟩
                  rw [hparl]
                  exact ⟨rfl, hpp, hpc2, hpk2, hSA, hSB⟩
                · rw [hgur]
                  exact ⟨rfl, hupar3, hucol, hukey, hUL, hUR⟩
              have hpn_u : ¬ pnode = u :=
                fun hEq => hpnfacts.2.2.2.1 (hEq ▸ humem)
              have hSAf : par ∉ SA.ids ∧ u ∉ SA.ids ∧ gp ∉ SA.ids :=
                ⟨fun hm => hpar_sub (by simp [hm]),
                 fun hm => hu_sub (by simp [hm]),
                 fun hm => hgp_sub (by simp [hm])⟩
              have hSBf : par ∉ SB.ids ∧ u ∉ SB.ids ∧ gp ∉ SB.ids :=
                ⟨fun hm => hpar_sub (by simp [hm]),
                 fun hm => hu_sub (by simp [hm]),
                 fun hm => hgp_sub (by simp [hm])⟩
              have hcompute : T.recolor gp Color.red (T.recolor u Color.black
                  (T.recolor par Color.black
                    (T.node (T.node (T.node SA pnode Color.red sk SB) par
                      Color.red pk PR) gp Color.black gk
                      (T.node UL u Color.red uk UR)))) =
                  T.node (T.node (T.node SA pnode Color.red sk SB) par
                    Color.black pk PR) gp Color.red gk
                    (T.node UL u Color.black uk UR) := by
                simp [T.recolor, hpar_gp.symm, hu_par, hu_gp,
                  Ne.symm hu_par, Ne.symm hu_gp, hpar_gp,
                  hpnfacts.1, hpnfacts.2.2.1, hpn_u,
                  T.recolor_eq_self _ _ _ hSAf.1,
                  T.recolor_eq_self _ _ _ hSAf.2.1,
                  T.recolor_eq_self _ _ _ hSAf.2.2,
                  T.recolor_eq_self _ _ _ hSBf.1,
                  T.recolor_eq_self _ _ _ hSBf.2.1,
                  T.recolor_eq_self _ _ _ hSBf.2.2,
                  T.recolor_eq_self _ _ _ hpar_PR,
                  T.recolor_eq_self _ _ _ hpar_UL.1,
                  T.recolor_eq_self _ _ _ hpar_UL.2,
                  T.recolor_eq_self _ _ _ hu_PR,
                  T.recolor_eq_self _ _ _ hu_UL.1,
                  T.recolor_eq_self _ _ _ hu_UL.2,
                  T.recolor_eq_self _ _ _ hgp_PR,
                  T.recolor_eq_self _ _ _ hgp_UL.1,
                  T.recolor_eq_self _ _ _ hgp_UL.2]
              have hsub2 : reprAt
                  (((s.heap.setColor par Color.black).setColor u
                    Color.black).setColor gp Color.red) u2.holePar (some gp)
                  (T.node (T.node (T.node SA pnode Color.red sk SB) par
                    Color.black pk PR) gp Color.red gk
                    (T.node UL u Color.black uk UR)) := by
                have h0 := reprAt_setColor _ _ _ _ gp Color.red
                  (reprAt_setColor _ _ _ _ u Color.black
                    (reprAt_setColor _ _ _ _ par Color.black hsub0))
                rw [hcompute] at h0
                exact h0
              have hu2x : reprCtx
                  (((s.heap.setColor par Color.black).setColor u
                    Color.black).setColor gp Color.red) s.tree.root u2
                  (some gp) := by
                have h0 := reprCtx_setColor _ _ _ _ gp Color.red
                  (reprCtx_setColor _ _ _ _ u Color.black
                    (reprCtx_setColor _ _ _ _ par Color.black hu2))
                rw [Ctx.recolor_untouched u2 par Color.black hpar_u2mem,
                  Ctx.recolor_untouched u2 u Color.black hu_u2mem,
                  Ctx.recolor_untouched u2 gp Color.red hgp_u2mem] at h0
                exact h0
              have hN2 : (footprint u2
                  (T.node (T.node (T.node SA pnode Color.red sk SB) par
                    Color.black pk PR) gp Color.red gk
                    (T.node UL u Color.black uk UR))).Nodup := by
                have e : footprint u2
                    (T.node (T.node (T.node SA pnode Color.red sk SB) par
                      Color.black pk PR) gp Color.red gk
                      (T.node UL u Color.black uk UR)) =
                    footprint (Ctx.goL (Ctx.goL u2 gp Color.black gk
                      (T.node UL u Color.red uk UR)) par Color.red pk PR)
                      (T.node SA pnode Color.red sk SB) := by
                  simp [footprint, Ctx.preIds, Ctx.postIds,
                    List.append_assoc]
                rw [e]
                exact hN
              have hRBs2 : RBsub
                  (T.node (T.node (T.node SA pnode Color.red sk SB) par
                    Color.black pk PR) gp Color.red gk
                    (T.node UL u Color.black uk UR)) := by
                obtain ⟨⟨hGUrr, hGUnl, hGUnr⟩, hbUL, hbUR, hbeq⟩ := hGUrb
                refine ⟨⟨fun _ => ⟨rfl, rfl⟩,
                  ⟨fun hc => Color.noConfusion hc, hRB.1, hPRrb.1⟩,
                  ⟨fun hc => Color.noConfusion hc, hGUnl, hGUnr⟩⟩,
                  ⟨hRB.2, hPRrb.2, hPRbh.symm⟩, ⟨hbUL, hbUR, hbeq⟩, ?_⟩
                have h1 : bh (T.node UL u Color.red uk UR) =
                    bh (T.node SA pnode Color.red sk SB) := hGUbh
                simp [bh] at h1 ⊢
                omega
              have hCtxRB2 : CtxRB u2
                  (bh (T.node (T.node (T.node SA pnode Color.red sk SB) par
                    Color.black pk PR) gp Color.red gk
                    (T.node UL u Color.black uk UR))) := by
                have e : bh (T.node (T.node (T.node SA pnode Color.red sk SB)
                    par Color.black pk PR) gp Color.red gk
                    (T.node UL u Color.black uk UR)) =
                    bh (T.node SA pnode Color.red sk SB) + 1 := by
                  simp [bh]
                rw [e]
                exact hu2RB2
              have hOB2 : u2.outerBlack :=
                outerBlack_dropL _ _ _ _ _ (outerBlack_dropL _ _ _ _ _ hOB)
              have hBst2 : BstB none none (u2.plug
                  (T.node (T.node (T.node SA pnode Color.red sk SB) par
                    Color.black pk PR) gp Color.red gk
                    (T.node UL u Color.black uk UR))) := by
                have hBp := (BstB_plug none none u2
                  (T.node (T.node (T.node SA pnode Color.red sk SB) par
                    Color.red pk PR) gp Color.black gk
                    (T.node UL u Color.red uk UR))).mp hBst
                exact (BstB_plug none none u2 _).mpr ⟨hBp.1, hBp.2⟩
              have hdepth2 : u2.depth + 1 ≤ fuel := by
                simp only [Ctx.depth] at hfuel
                omega
              have hstep : insertRebalanceLoop (fuel+1) s pnode =
                  insertRebalanceLoop fuel
                    ⟨s.tree, ((s.heap.setColor par Color.black).setColor u
                      Color.black).setColor gp Color.red⟩ gp := by
                simp [insertRebalanceLoop, hrt, hparent, hpcol, hgrand,
                  hgpl, hgur, hucol]
              obtain ⟨s1, t1, hloop, hrepr1, hseq1, hRB1, hBst1, hlm1,
                  hrm1⟩ :=
                ih ⟨s.tree, ((s.heap.setColor par Color.black).setColor u
                    Color.black).setColor gp Color.red⟩ gp u2
                  (T.node (T.node (T.node SA pnode Color.red sk SB) par
                    Color.black pk PR) gp Color.red gk
                    (T.node UL u Color.black uk UR))
                  hN2 hu2x hsub2 rfl hRBs2 rfl hCtxRB2 hOB2 hBst2 hdepth2
              refine ⟨s1, t1, ?_, hrepr1, ?_, hRB1, hBst1, hlm1, hrm1⟩
              · rw [hstep]
                exact hloop
              · rw [hseq1, seq_plug, seq_plug]
                simp [Ctx.seqPre, Ctx.seqPost, List.append_assoc]
            · -- Case 3 (zig-zig): the uncle is black or absent; recolor
              -- parent and grandparent and rotate the grandparent right
              have hGUb : rootColor GU = Color.black := by
                cases GU with
                | nil => rfl
                | node UL u uc uk UR =>
                  cases uc with
                  | red => exact absurd ⟨UL, u, uk, UR, rfl⟩ hc1
                  | black => rfl
              have hSA3 : par ∉ SA.ids ∧ gp ∉ SA.ids :=
                ⟨fun hm => hpar_sub (by simp [hm]),
                 fun hm => hgp_sub (by simp [hm])⟩
              have hSB3 : par ∉ SB.ids ∧ gp ∉ SB.ids :=
                ⟨fun hm => hpar_sub (by simp [hm]),
                 fun hm => hgp_sub (by simp [hm])⟩
              have hPRroot2 : (s.heap.get par).right = PR.rootRef :=
                reprAt_rootRef _ _ _ _ hPR
              have hPRne : ¬ ((s.heap.get par).right = some pnode) := by
                rw [hPRroot2]
                intro hEq
                exact hpnfacts.2.1 (rootRef_mem PR pnode hEq)
              have hgrand3 : __helper_get_grandparent
                  (s.heap.setColor par Color.black) pnode = some gp := by
                simp [__helper_get_grandparent, hparent, hppar2,
                  hpnfacts.1]
              have hsub0 : reprAt s.heap u2.holePar (some gp)
                  (T.node (T.node (T.node SA pnode Color.red sk SB) par
                    Color.red pk PR) gp Color.black gk GU) := by
                refine ⟨rfl, hgpar, hgcol, hgkey, ?_, hGU⟩
                rw [hgpl]
                refine ⟨rfl, hppar2, hpcol, hpkey, ?_, hPR⟩
                rw [hparl]
                exact ⟨rfl, hpp, hpc2, hpk2, hSA, hSB⟩
              have hcompute : T.recolor gp Color.red
                  (T.recolor par Color.black
                    (T.node (T.node (T.node SA pnode Color.red sk SB) par
                      Color.red pk PR) gp Color.black gk GU)) =
                  T.node (T.node (T.node SA pnode Color.red sk SB) par
                    Color.black pk PR) gp Color.red gk GU := by
                simp [T.recolor, hpar_gp.symm, hpar_gp,
                  hpnfacts.1, hpnfacts.2.2.1,
                  T.recolor_eq_self _ _ _ hSA3.1,
                  T.recolor_eq_self _ _ _ hSA3.2,
                  T.recolor_eq_self _ _ _ hSB3.1,
                  T.recolor_eq_self _ _ _ hSB3.2,
                  T.recolor_eq_self _ _ _ hpar_PR,
                  T.recolor_eq_self _ _ _ hgp_PR,
                  T.recolor_eq_self _ _ _ hpar_GU,
                  T.recolor_eq_self _ _ _ hgp_GU]
              have hsub4 : reprAt
                  ((s.heap.setColor par Color.black).setColor gp Color.red)
                  u2.holePar (some gp)
                  (T.node (T.node (T.node SA pnode Color.red sk SB) par
                    Color.black pk PR) gp Color.red gk GU) := by
                have h0 := reprAt_setColor _ _ _ _ gp Color.red
                  (reprAt_setColor _ _ _ _ par Color.black hsub0)
                rw [hcompute] at h0
                exact h0
              have hu2x : reprCtx
                  ((s.heap.setColor par Color.black).setColor gp Color.red)
                  s.tree.root u2 (some gp) := by
                have h0 := reprCtx_setColor _ _ _ _ gp Color.red
                  (reprCtx_setColor _ _ _ _ par Color.black hu2)
                rw [Ctx.recolor_untouched u2 par Color.black hpar_u2mem,
                  Ctx.recolor_untouched u2 gp Color.red hgp_u2mem] at h0
                exact h0
              have hN3 : (footprint u2
                  (T.node (T.node (T.node SA pnode Color.red sk SB) par
                    Color.black pk PR) gp Color.red gk GU)).Nodup := by
                have e : footprint u2
                    (T.node (T.node (T.node SA pnode Color.red sk SB) par
                      Color.black pk PR) gp Color.red gk GU) =
                    footprint (Ctx.goL (Ctx.goL u2 gp Color.black gk GU)
                      par Color.red pk PR)
                      (T.node SA pnode Color.red sk SB) := by
                  simp [footprint, Ctx.preIds, Ctx.postIds,
                    List.append_assoc]
                rw [e]
                exact hN
              obtain ⟨s5, hrot, hctx5, hsub5, hlm5, hrm5, hcells5⟩ :=
                rotate_right_spec
                  ⟨s.tree, (s.heap.setColor par Color.black).setColor gp
                    Color.red⟩ u2
                  (T.node SA pnode Color.red sk SB) PR GU gp par
                  Color.red Color.black gk pk hN3 hu2x hsub4
              have hc23 : insertCase23 s pnode par false =
                  some (s5, pnode) := by
                simp [insertCase23, hPRne, hparent, hgrand3, hrot]
              have hstep : insertRebalanceLoop (fuel+1) s pnode =
                  insertRebalanceLoop fuel s5 pnode := by
                cases GU with
                | nil =>
                  have hgun : (s.heap.get gp).right = none := hGUroot
                  simp [insertRebalanceLoop, hrt, hparent, hpcol, hgrand,
                    hgpl, hgun, hc23]
                | node UL u uc uk UR =>
                  have hucb : uc = Color.black := hGUb
                  subst hucb
                  have hgun : (s.heap.get gp).right = some u := hGUroot
                  have hucol2 : (s.heap.get u).color = Color.black :=
                    hGU.2.2.1
                  simp [insertRebalanceLoop, hrt, hparent, hpcol, hgrand,
                    hgpl, hgun, hucol2, hc23]
              -- re-split the rotated layout at the new loop node
              obtain ⟨-, hp5, hc5, hk5, hl5, hr5⟩ := hsub5
              have hl5root : (s5.heap.get par).left = some pnode :=
                reprAt_rootRef _ _ _ _ hl5
              have hsub_new : reprAt s5.heap (some par) (some pnode)
                  (T.node SA pnode Color.red sk SB) := by
                rw [← hl5root]
                exact hl5
              have hctx_new : reprCtx s5.heap s5.tree.root
                  (Ctx.goL u2 par Color.black pk
                    (T.node PR gp Color.red gk GU)) (some pnode) :=
                ⟨hl5root, hp5, hc5, hk5, hr5, hctx5⟩
              have hN_new : (footprint
                  (Ctx.goL u2 par Color.black pk
                    (T.node PR gp Color.red gk GU))
                  (T.node SA pnode Color.red sk SB)).Nodup := by
                have e : footprint
                    (Ctx.goL u2 par Color.black pk
                      (T.node PR gp Color.red gk GU))
                    (T.node SA pnode Color.red sk SB) =
                    footprint (Ctx.goL (Ctx.goL u2 gp Color.black gk GU)
                      par Color.red pk PR)
                      (T.node SA pnode Color.red sk SB) := by
                  simp [footprint, Ctx.preIds, Ctx.postIds,
                    List.append_assoc]
                rw [e]
                exact hN
              have hCtxRB_new : CtxRB
                  (Ctx.goL u2 par Color.black pk
                    (T.node PR gp Color.red gk GU))
                  (bh (T.node SA pnode Color.red sk SB)) := by
                refine ⟨⟨⟨fun _ => ⟨hPRb, hGUb⟩, hPRrb.1, hGUrb.1⟩,
                  ⟨hPRrb.2, hGUrb.2, hPRbh.trans hGUbh.symm⟩⟩, ?_, ?_, ?_⟩
                · show bh PR + _ = _
                  simp [bh, hPRbh]
                · intro hc
                  exact Color.noConfusion hc
                · simpa [bl] using hu2RB2
              have hOB_new : (Ctx.goL u2 par Color.black pk
                  (T.node PR gp Color.red gk GU)).outerBlack :=
                outerBlack_consL _ _ _ _
                  (outerBlack_dropL _ _ _ _ _
                    (outerBlack_dropL _ _ _ _ _ hOB))
              have hBst_new : BstB none none
                  ((Ctx.goL u2 par Color.black pk
                    (T.node PR gp Color.red gk GU)).plug
                    (T.node SA pnode Color.red sk SB)) := by
                have hBp := (BstB_plug none none u2
                  (T.node (T.node (T.node SA pnode Color.red sk SB) par
                    Color.red pk PR) gp Color.black gk GU)).mp hBst
                have hBs5 := rotr_BstB _ _
                  (T.node SA pnode Color.red sk SB) PR GU gp par
                  Color.red Color.black gk pk hBp.2
                exact (BstB_plug none none u2 _).mpr ⟨hBp.1, hBs5⟩
              have hdepth_new : (Ctx.goL u2 par Color.black pk
                  (T.node PR gp Color.red gk GU)).depth + 1 ≤ fuel := by
                simp only [Ctx.depth] at hfuel ⊢
                omega
              obtain ⟨s1, t1, hloop, hrepr1, hseq1, hRB1, hBst1, hlm1,
                  hrm1⟩ :=
                ih s5 pnode
                  (Ctx.goL u2 par Color.black pk
                    (T.node PR gp Color.red gk GU))
                  (T.node SA pnode Color.red sk SB)
                  hN_new hctx_new hsub_new rfl hRB rfl hCtxRB_new hOB_new
                  hBst_new hdepth_new
              refine ⟨s1, t1, ?_, hrepr1, ?_, hRB1, hBst1, ?_, ?_⟩
              · rw [hstep]
                exact hloop
              · rw [hseq1, seq_plug, seq_plug]
                simp [Ctx.seqPre, Ctx.seqPost, List.append_assoc]
              · exact hlm1.trans hlm5
              · exact hrm1.trans hrm5
          | goR u2 Gl gp gc gk =>
            obtain ⟨hgpr, hgpar, hgcol, hgkey, hGl, hu2⟩ := hup
            have hppar2 : (s.heap.get par).parent = some gp := hppar
            have hgcb : gc = Color.black := (hredc rfl).1
            subst hgcb
            have hPRb : rootColor PR = Color.black := (hredc rfl).2
            have hupRB2 : CtxRB (Ctx.goR u2 Gl gp Color.black gk)
                (bh (T.node SA pnode Color.red sk SB)) := by
              simpa [bl] using hupRB
            obtain ⟨hGlrb, hGlbh, hgredc, hu2RB⟩ := hupRB2
            have hu2RB2 : CtxRB u2
                (bh (T.node SA pnode Color.red sk SB) + 1) := by
              simpa [bl] using hu2RB
            have hgrand : __helper_get_grandparent s.heap pnode = some gp := by
              simp [__helper_get_grandparent, hparent, hppar2]
            have hGlroot : (s.heap.get gp).left = Gl.rootRef :=
              reprAt_rootRef _ _ _ _ hGl
            -- nodup decomposition
            have hN1 := hN
            rw [footprint] at hN1
            obtain ⟨hpreN, hsubN, hpostN, hpre_f, hsub_post⟩ :=
              nodup_append_triple hN1
            have hpreN2 : (u2.preIds ++ Gl.ids ++ [gp]).Nodup := hpreN
            obtain ⟨hu2preN, hGlN, -, hpref1, hpref2⟩ :=
              nodup_append_triple hpreN2
            have hpostN2 : ((par :: PR.ids) ++ u2.postIds).Nodup := hpostN
            have hparPRN : (par :: PR.ids).Nodup := hpostN2.of_append_left
            have hpostdisj : (par :: PR.ids).Disjoint u2.postIds :=
              List.disjoint_of_nodup_append hpostN2
            have hpar_PR : par ∉ PR.ids := (List.nodup_cons.mp hparPRN).1
            have hgp_Gl : gp ∉ Gl.ids :=
              fun hm => hpref2 gp hm (by simp)
            have hgp_post : gp ∉ (par :: PR.ids) ++ u2.postIds :=
              (hpre_f gp (by simp [Ctx.preIds])).2
            have hpar_gp : par ≠ gp :=
              fun hEq => hgp_post (by simp [hEq])
            have hsub_facts : ∀ j ∈ (T.node SA pnode Color.red sk SB).ids,
                j ≠ par ∧ j ∉ PR.ids ∧ j ≠ gp ∧ j ∉ Gl.ids ∧
                j ∉ u2.postIds ∧ j ∉ u2.preIds := by
              intro j hj
              have h0 : j ∉ (par :: PR.ids) ++ u2.postIds := hsub_post j hj
              refine ⟨fun hEq => h0 (by simp [hEq]),
                fun hm => h0 (by simp [hm]),
                fun hEq => (hpre_f j (by simp [Ctx.preIds, hEq])).1 hj,
                fun hm => (hpre_f j (by simp [Ctx.preIds, hm])).1 hj,
                fun hm => h0 (by simp [hm]),
                fun hm => (hpre_f j (by simp [Ctx.preIds, hm])).1 hj⟩
            have hpnfacts := hsub_facts pnode (by simp)
            have hsubN2 : (SA.ids ++ [pnode] ++ SB.ids).Nodup := by
              simpa using hsubN
            have hpn_SASB : pnode ∉ SA.ids ∧ pnode ∉ SB.ids := by
              obtain ⟨-, -, -, hf, hmid⟩ := nodup_append_triple hsubN2
              exact ⟨fun hm => (hf pnode hm).1 (by simp),
                fun hm => hmid pnode (by simp) hm⟩
            have hpar_sub : par ∉ (T.node SA pnode Color.red sk SB).ids :=
              fun hm => (hsub_facts par hm).1 rfl
            have hgp_sub : gp ∉ (T.node SA pnode Color.red sk SB).ids :=
              fun hm => (hsub_facts gp hm).2.2.1 rfl
            have hgp_PR : gp ∉ PR.ids :=
              fun hm => hgp_post (by simp [hm])
            have hpar_Gl : par ∉ Gl.ids :=
              fun hm => (hpre_f par (by simp [Ctx.preIds, hm])).2
                (by simp [Ctx.postIds])
            have hpar_u2mem : par ∉ u2.preIds ++ u2.postIds := by
              simp only [List.mem_append, not_or]
              exact ⟨fun hm => (hpre_f par (by simp [Ctx.preIds, hm])).2
                  (by simp [Ctx.postIds]),
                fun hm => hpostdisj (by simp) hm⟩
            have hgp_u2mem : gp ∉ u2.preIds ++ u2.postIds := by
              simp only [List.mem_append, not_or]
              exact ⟨fun hm => hpref1 gp hm |>.2 (by simp),
                fun hm => hgp_post (by simp [hm])⟩
            have hpn_u2mem : pnode ∉ u2.preIds ++ u2.postIds := by
              simp only [List.mem_append, not_or]
              exact ⟨hpnfacts.2.2.2.2.2, hpnfacts.2.2.2.2.1⟩
            by_cases hc1 : ∃ UL u uk UR, Gl = T.node UL u Color.red uk UR
            · -- Case 1: the uncle exists and is red (uncle on the left)
              obtain ⟨UL, u, uk, UR, rfl⟩ := hc1
              obtain ⟨hgul, hupar3, hucol, hukey, hUL, hUR⟩ := hGl
              have humem : u ∈ (T.node UL u Color.red uk UR).ids := by simp
              have hu_par : ¬ u = par :=
                fun hEq => hpar_Gl (hEq ▸ humem)
              have hu_gp : ¬ u = gp :=
                fun hEq => hgp_Gl (hEq ▸ humem)
              have hu_sub : u ∉ (T.node SA pnode Color.red sk SB).ids :=
                fun hm => (hsub_facts u hm).2.2.2.1 humem
              have hu_PR : u ∉ PR.ids := by
                intro hm
                exact (hpre_f u (by simp [Ctx.preIds, humem])).2
                  (by simp [Ctx.postIds, hm])
              have hu_u2mem : u ∉ u2.preIds ++ u2.postIds := by
                simp only [List.mem_append, not_or]
                exact ⟨fun hm => (hpref1 u hm).1 humem,
                  fun hm => (hpre_f u (by simp [Ctx.preIds, humem])).2
                    (by simp [Ctx.postIds, hm])⟩
              have hpn_u : ¬ pnode = u :=
                fun hEq => hpnfacts.2.2.2.1 (hEq ▸ humem)
              have hu_UL : u ∉ UL.ids ∧ u ∉ UR.ids := by
                have h2 : (UL.ids ++ [u] ++ UR.ids).Nodup := by
                  simpa using hGlN
                obtain ⟨-, -, -, hf, hmid⟩ := nodup_append_triple h2
                exact ⟨fun hm => (hf u hm).1 (by simp),
                  fun hm => hmid u (by simp) hm⟩
              have hpar_UL : par ∉ UL.ids ∧ par ∉ UR.ids :=
                ⟨fun hm => hpar_Gl (by simp [hm]),
                 fun hm => hpar_Gl (by simp [hm])⟩
              have hgp_UL : gp ∉ UL.ids ∧ gp ∉ UR.ids :=
                ⟨fun hm => hgp_Gl (by simp [hm]),
                 fun hm => hgp_Gl (by simp [hm])⟩
              have hSAf : par ∉ SA.ids ∧ u ∉ SA.ids ∧ gp ∉ SA.ids :=
                ⟨fun hm => hpar_sub (by simp [hm]),
                 fun hm => hu_sub (by simp [hm]),
                 fun hm => hgp_sub (by simp [hm])⟩
              have hSBf : par ∉ SB.ids ∧ u ∉ SB.ids ∧ gp ∉ SB.ids :=
                ⟨fun hm => hpar_sub (by simp [hm]),
                 fun hm => hu_sub (by simp [hm]),
                 fun hm => hgp_sub (by simp [hm])⟩
              have hsub0 : reprAt s.heap u2.holePar (some gp)
                  (T.node (T.node UL u Color.red uk UR) gp Color.black gk
                    (T.node (T.node SA pnode Color.red sk SB) par
                      Color.red pk PR)) := by
                refine ⟨rfl, hgpar, hgcol, hgkey, ?_, ?_⟩
                · rw [hgul]
                  exact ⟨rfl, hupar3, hucol, hukey, hUL, hUR⟩
                · rw [hgpr]
                  refine ⟨rfl, hppar2, hpcol, hpkey, ?_, hPR⟩
                  rw [hparl]
                  exact ⟨rfl, hpp, hpc2, hpk2, hSA, hSB⟩
              have hcompute : T.recolor gp Color.red (T.recolor u Color.black
                  (T.recolor par Color.black
                    (T.node (T.node UL u Color.red uk UR) gp Color.black gk
                      (T.node (T.node SA pnode Color.red sk SB) par
                        Color.red pk PR)))) =
                  T.node (T.node UL u Color.black uk UR) gp Color.red gk
                    (T.node (T.node SA pnode Color.red sk SB) par
                      Color.black pk PR) := by
                simp [T.recolor, hpar_gp.symm, hu_par, hu_gp,
                  Ne.symm hu_par, Ne.symm hu_gp, hpar_gp,
                  hpnfacts.1, hpnfacts.2.2.1, hpn_u,
                  T.recolor_eq_self _ _ _ hSAf.1,
                  T.recolor_eq_self _ _ _ hSAf.2.1,
                  T.recolor_eq_self _ _ _ hSAf.2.2,
                  T.recolor_eq_self _ _ _ hSBf.1,
                  T.recolor_eq_self _ _ _ hSBf.2.1,
                  T.recolor_eq_self _ _ _ hSBf.2.2,
                  T.recolor_eq_self _ _ _ hpar_PR,
                  T.recolor_eq_self _ _ _ hpar_UL.1,
                  T.recolor_eq_self _ _ _ hpar_UL.2,
                  T.recolor_eq_self _ _ _ hu_PR,
                  T.recolor_eq_self _ _ _ hu_UL.1,
                  T.recolor_eq_self _ _ _ hu_UL.2,
                  T.recolor_eq_self _ _ _ hgp_PR,
                  T.recolor_eq_self _ _ _ hgp_UL.1,
                  T.recolor_eq_self _ _ _ hgp_UL.2]
              have hsub2 : reprAt
                  (((s.heap.setColor par Color.black).setColor u
                    Color.black).setColor gp Color.red) u2.holePar (some gp)
                  (T.node (T.node UL u Color.black uk UR) gp Color.red gk
                    (T.node (T.node SA pnode Color.red sk SB) par
                      Color.black pk PR)) := by
                have h0 := reprAt_setColor _ _ _ _ gp Color.red
                  (reprAt_setColor _ _ _ _ u Color.black
                    (reprAt_setColor _ _ _ _ par Color.black hsub0))
                rw [hcompute] at h0
                exact h0
              have hu2x : reprCtx
                  (((s.heap.setColor par Color.black).setColor u
                    Color.black).setColor gp Color.red) s.tree.root u2
                  (some gp) := by
                have h0 := reprCtx_setColor _ _ _ _ gp Color.red
                  (reprCtx_setColor _ _ _ _ u Color.black
                    (reprCtx_setColor _ _ _ _ par Color.black hu2))
                rw [Ctx.recolor_untouched u2 par Color.black hpar_u2mem,
                  Ctx.recolor_untouched u2 u Color.black hu_u2mem,
                  Ctx.recolor_untouched u2 gp Color.red hgp_u2mem] at h0
                exact h0
              have hN2 : (footprint u2
                  (T.node (T.node UL u Color.black uk UR) gp Color.red gk
                    (T.node (T.node SA pnode Color.red sk SB) par
                      Color.black pk PR))).Nodup := by
                have e : footprint u2
                    (T.node (T.node UL u Color.black uk UR) gp Color.red gk
                      (T.node (T.node SA pnode Color.red sk SB) par
                        Color.black pk PR)) =
                    footprint (Ctx.goL (Ctx.goR u2
                      (T.node UL u Color.red uk UR) gp Color.black gk)
                      par Color.red pk PR)
                      (T.node SA pnode Color.red sk SB) := by
                  simp [footprint, Ctx.preIds, Ctx.postIds,
                    List.append_assoc]
                rw [e]
                exact hN
              have hRBs2 : RBsub
                  (T.node (T.node UL u Color.black uk UR) gp Color.red gk
                    (T.node (T.node SA pnode Color.red sk SB) par
                      Color.black pk PR)) := by
                obtain ⟨⟨hGlrr, hGlnl, hGlnr⟩, hbUL, hbUR, hbeq⟩ := hGlrb
                refine ⟨⟨fun _ => ⟨rfl, rfl⟩,
                  ⟨fun hc => Color.noConfusion hc, hGlnl, hGlnr⟩,
                  ⟨fun hc => Color.noConfusion hc, hRB.1, hPRrb.1⟩⟩,
                  ⟨hbUL, hbUR, hbeq⟩, ⟨hRB.2, hPRrb.2, hPRbh.symm⟩, ?_⟩
                have h1 : bh (T.node UL u Color.red uk UR) =
                    bh (T.node SA pnode Color.red sk SB) := hGlbh
                simp [bh] at h1 ⊢
                omega
              have hCtxRB2 : CtxRB u2
                  (bh (T.node (T.node UL u Color.black uk UR) gp Color.red
                    gk (T.node (T.node SA pnode Color.red sk SB) par
                      Color.black pk PR))) := by
                have e : bh (T.node (T.node UL u Color.black uk UR) gp
                    Color.red gk (T.node (T.node SA pnode Color.red sk SB)
                      par Color.black pk PR)) =
                    bh (T.node SA pnode Color.red sk SB) + 1 := by
                  have h1 : bh (T.node UL u Color.red uk UR) =
                      bh (T.node SA pnode Color.red sk SB) := hGlbh
                  simp [bh] at h1 ⊢
                  omega
                rw [e]
                exact hu2RB2
              have hOB2 : u2.outerBlack :=
                outerBlack_dropR _ _ _ _ _ (outerBlack_dropL _ _ _ _ _ hOB)
              have hBst2 : BstB none none (u2.plug
                  (T.node (T.node UL u Color.black uk UR) gp Color.red gk
                    (T.node (T.node SA pnode Color.red sk SB) par
                      Color.black pk PR))) := by
                have hBp := (BstB_plug none none u2
                  (T.node (T.node UL u Color.red uk UR) gp Color.black gk
                    (T.node (T.node SA pnode Color.red sk SB) par
                      Color.red pk PR))).mp hBst
                exact (BstB_plug none none u2 _).mpr ⟨hBp.1, hBp.2⟩
              have hdepth2 : u2.depth + 1 ≤ fuel := by
                simp only [Ctx.depth] at hfuel
                omega
              have hglne : ¬ ((s.heap.get gp).left = some par) := by
                rw [hgul]
                simp [hu_par]
              have hstep : insertRebalanceLoop (fuel+1) s pnode =
                  insertRebalanceLoop fuel
                    ⟨s.tree, ((s.heap.setColor par Color.black).setColor u
                      Color.black).setColor gp Color.red⟩ gp := by
                simp [insertRebalanceLoop, hrt, hparent, hpcol, hgrand,
                  hglne, hgul, hucol, hu_par]
              obtain ⟨s1, t1, hloop, hrepr1, hseq1, hRB1, hBst1, hlm1,
                  hrm1⟩ :=
                ih ⟨s.tree, ((s.heap.setColor par Color.black).setColor u
                    Color.black).setColor gp Color.red⟩ gp u2
                  (T.node (T.node UL u Color.black uk UR) gp Color.red gk
                    (T.node (T.node SA pnode Color.red sk SB) par
                      Color.black pk PR))
                  hN2 hu2x hsub2 rfl hRBs2 rfl hCtxRB2 hOB2 hBst2 hdepth2
              refine ⟨s1, t1, ?_, hrepr1, ?_, hRB1, hBst1, hlm1, hrm1⟩
              · rw [hstep]
                exact hloop
              · rw [hseq1, seq_plug, seq_plug]
                simp [Ctx.seqPre, Ctx.seqPost, List.append_assoc]
            · -- Case 2 + 3 (zig-zag): rotate the parent right, recolor,
              -- then rotate the grandparent left
              have hGlb : rootColor Gl = Color.black := by
                cases Gl with
                | nil => rfl
                | node UL u uc uk UR =>
                  cases uc with
                  | red => exact absurd ⟨UL, u, uk, UR, rfl⟩ hc1
                  | black => rfl
              have hgp_SASB : gp ∉ SA.ids ∧ gp ∉ SB.ids :=
                ⟨fun hm => hgp_sub (by simp [hm]),
                 fun hm => hgp_sub (by simp [hm])⟩
              obtain ⟨⟨hrr_sub, hnSA, hnSB⟩, hbSA, hbSB, hbeqS⟩ := hRB
              -- first rotation: straighten the zig-zag at the parent
              have hupA : reprCtx s.heap s.tree.root
                  (Ctx.goR u2 Gl gp Color.black gk) (some par) :=
                ⟨hgpr, hgpar, hgcol, hgkey, hGl, hu2⟩
              have hsubA0 : reprAt s.heap
                  (Ctx.goR u2 Gl gp Color.black gk).holePar (some par)
                  (T.node (T.node SA pnode Color.red sk SB) par
                    Color.red pk PR) := by
                refine ⟨rfl, hppar2, hpcol, hpkey, ?_, hPR⟩
                rw [hparl]
                exact ⟨rfl, hpp, hpc2, hpk2, hSA, hSB⟩
              have hNA : (footprint (Ctx.goR u2 Gl gp Color.black gk)
                  (T.node (T.node SA pnode Color.red sk SB) par
                    Color.red pk PR)).Nodup := by
                have e : footprint (Ctx.goR u2 Gl gp Color.black gk)
                    (T.node (T.node SA pnode Color.red sk SB) par
                      Color.red pk PR) =
                    footprint (Ctx.goL (Ctx.goR u2 Gl gp Color.black gk)
                      par Color.red pk PR)
                      (T.node SA pnode Color.red sk SB) := by
                  simp [footprint, Ctx.preIds, Ctx.postIds,
                    List.append_assoc]
                rw [e]
                exact hN
              obtain ⟨sA, hrotA, hctxA, hsubA, hlmA, hrmA, hcellsA⟩ :=
                rotate_right_spec s (Ctx.goR u2 Gl gp Color.black gk)
                  SA SB PR par pnode Color.red Color.red pk sk
                  hNA hupA hsubA0
              obtain ⟨hgprA, hgparA, hgcolA, hgkeyA, hGlA, hu2A⟩ := hctxA
              have hsubB0 : reprAt sA.heap u2.holePar (some gp)
                  (T.node Gl gp Color.black gk
                    (T.node SA pnode Color.red sk
                      (T.node SB par Color.red pk PR))) := by
                refine ⟨rfl, hgparA, hgcolA, hgkeyA, hGlA, ?_⟩
                rw [hgprA]
                exact hsubA
              obtain ⟨-, hpA, hcA, hkA, hlA, hrA⟩ := hsubA
              have hpA2 : (sA.heap.get pnode).parent = some gp := hpA
              obtain ⟨hrAx, hparpA, hparcA, hparkA, hSBA, hPRA⟩ := hrA
              have hcomputeB : T.recolor gp Color.red
                  (T.recolor pnode Color.black
                    (T.node Gl gp Color.black gk
                      (T.node SA pnode Color.red sk
                        (T.node SB par Color.red pk PR)))) =
                  T.node Gl gp Color.red gk
                    (T.node SA pnode Color.black sk
                      (T.node SB par Color.red pk PR)) := by
                simp [T.recolor, Ne.symm hpnfacts.2.2.1, Ne.symm hpnfacts.1,
                  hpnfacts.2.2.1, hpar_gp,
                  T.recolor_eq_self _ _ _ hpnfacts.2.2.2.1,
                  T.recolor_eq_self _ _ _ hpn_SASB.1,
                  T.recolor_eq_self _ _ _ hpn_SASB.2,
                  T.recolor_eq_self _ _ _ hpnfacts.2.1,
                  T.recolor_eq_self _ _ _ hgp_Gl,
                  T.recolor_eq_self _ _ _ hgp_SASB.1,
                  T.recolor_eq_self _ _ _ hgp_SASB.2,
                  T.recolor_eq_self _ _ _ hgp_PR]
              have hsubB : reprAt
                  ((sA.heap.setColor pnode Color.black).setColor gp
                    Color.red) u2.holePar (some gp)
                  (T.node Gl gp Color.red gk
                    (T.node SA pnode Color.black sk
                      (T.node SB par Color.red pk PR))) := by
                have h0 := reprAt_setColor _ _ _ _ gp Color.red
                  (reprAt_setColor _ _ _ _ pnode Color.black hsubB0)
                rw [hcomputeB] at h0
                exact h0
              have hu2B : reprCtx
                  ((sA.heap.setColor pnode Color.black).setColor gp
                    Color.red) sA.tree.root u2 (some gp) := by
                have h0 := reprCtx_setColor _ _ _ _ gp Color.red
                  (reprCtx_setColor _ _ _ _ pnode Color.black hu2A)
                rw [Ctx.recolor_untouched u2 pnode Color.black hpn_u2mem,
                  Ctx.recolor_untouched u2 gp Color.red hgp_u2mem] at h0
                exact h0
              have hNB : (footprint u2
                  (T.node Gl gp Color.red gk
                    (T.node SA pnode Color.black sk
                      (T.node SB par Color.red pk PR)))).Nodup := by
                have e : footprint u2
                    (T.node Gl gp Color.red gk
                      (T.node SA pnode Color.black sk
                        (T.node SB par Color.red pk PR))) =
                    footprint (Ctx.goL (Ctx.goR u2 Gl gp Color.black gk)
                      par Color.red pk PR)
                      (T.node SA pnode Color.red sk SB) := by
                  simp [footprint, Ctx.preIds, Ctx.postIds,
                    List.append_assoc]
                rw [e]
                exact hN
              obtain ⟨s5, hrotB, hctx5, hsub5, hlmB, hrmB, hcellsB⟩ :=
                rotate_left_spec
                  ⟨sA.tree, (sA.heap.setColor pnode Color.black).setColor
                    gp Color.red⟩ u2
                  Gl SA (T.node SB par Color.red pk PR) gp pnode
                  Color.red Color.black gk sk hNB hu2B hsubB
              have hgrandB : __helper_get_grandparent
                  (sA.heap.setColor pnode Color.black) par = some gp := by
                simp [__helper_get_grandparent, hparpA, hpA2,
                  Ne.symm hpnfacts.1]
              have hc23 : insertCase23 s pnode par true =
                  some (s5, par) := by
                simp [insertCase23, hparl, hparent, hrotA, hparpA,
                  hgrandB, hrotB, Ne.symm hpnfacts.1]
              have hstep : insertRebalanceLoop (fuel+1) s pnode =
                  insertRebalanceLoop fuel s5 par := by
                cases Gl with
                | nil =>
                  have hgln : (s.heap.get gp).left = none := hGlroot
                  simp [insertRebalanceLoop, hrt, hparent, hpcol, hgrand,
                    hgln, hc23]
                | node ULx ux ucx ukx URx =>
                  have hucb : ucx = Color.black := hGlb
                  subst hucb
                  have hgln : (s.heap.get gp).left = some ux := hGlroot
                  have hucolx : (s.heap.get ux).color = Color.black :=
                    hGl.2.2.1
                  have huxpar : ¬ ux = par :=
                    fun hEq => hpar_Gl (hEq ▸ (by simp : ux ∈
                      (T.node ULx ux Color.black ukx URx).ids))
                  simp [insertRebalanceLoop, hrt, hparent, hpcol, hgrand,
                    hgln, hucolx, huxpar, hc23]
              -- re-split the rotated layout at the new loop node
              obtain ⟨-, hp5, hc5, hk5, hl5, hr5⟩ := hsub5
              have hr5root : (s5.heap.get pnode).right = some par :=
                reprAt_rootRef _ _ _ _ hr5
              have hsub_new : reprAt s5.heap (some pnode) (some par)
                  (T.node SB par Color.red pk PR) := by
                rw [← hr5root]
                exact hr5
              have hctx_new : reprCtx s5.heap s5.tree.root
                  (Ctx.goR u2 (T.node Gl gp Color.red gk SA) pnode
                    Color.black sk) (some par) :=
                ⟨hr5root, hp5, hc5, hk5, hl5, hctx5⟩
              have hN_new : (footprint
                  (Ctx.goR u2 (T.node Gl gp Color.red gk SA) pnode
                    Color.black sk)
                  (T.node SB par Color.red pk PR)).Nodup := by
                have e : footprint
                    (Ctx.goR u2 (T.node Gl gp Color.red gk SA) pnode
                      Color.black sk)
                    (T.node SB par Color.red pk PR) =
                    footprint (Ctx.goL (Ctx.goR u2 Gl gp Color.black gk)
                      par Color.red pk PR)
                      (T.node SA pnode Color.red sk SB) := by
                  simp [footprint, Ctx.preIds, Ctx.postIds,
                    List.append_assoc]
                rw [e]
                exact hN
              have hRB_new : RBsub (T.node SB par Color.red pk PR) := by
                refine ⟨⟨fun _ => ⟨(hrr_sub rfl).2, hPRb⟩, hnSB, hPRrb.1⟩,
                  hbSB, hPRrb.2, ?_⟩
                have h1 := hPRbh
                simp [bh] at h1
                omega
              have hCtxRB_new : CtxRB
                  (Ctx.goR u2 (T.node Gl gp Color.red gk SA) pnode
                    Color.black sk)
                  (bh (T.node SB par Color.red pk PR)) := by
                refine ⟨⟨⟨fun _ => ⟨hGlb, (hrr_sub rfl).1⟩, hGlrb.1, hnSA⟩,
                  ⟨hGlrb.2, hbSA, ?_⟩⟩, ?_, ?_, ?_⟩
                · have h1 := hGlbh
                  simp [bh] at h1 ⊢
                  omega
                · show bh (T.node Gl gp Color.red gk SA) = _
                  have h1 := hGlbh
                  simp [bh] at h1 ⊢
                  omega
                · intro hc
                  exact Color.noConfusion hc
                · have h1 : bh (T.node SB par Color.red pk PR) =
                      bh (T.node SA pnode Color.red sk SB) := by
                    simp [bh]
                    omega
                  rw [show bh (T.node SB par Color.red pk PR) +
                      bl Color.black =
                      bh (T.node SA pnode Color.red sk SB) + 1 by
                    simp [bl, h1]]
                  exact hu2RB2
              have hOB_new : (Ctx.goR u2 (T.node Gl gp Color.red gk SA)
                  pnode Color.black sk).outerBlack :=
                outerBlack_consR _ _ _ _
                  (outerBlack_dropR _ _ _ _ _
                    (outerBlack_dropL _ _ _ _ _ hOB))
              have hBst_new : BstB none none
                  ((Ctx.goR u2 (T.node Gl gp Color.red gk SA) pnode
                    Color.black sk).plug
                    (T.node SB par Color.red pk PR)) := by
                have hBp := (BstB_plug none none u2
                  (T.node Gl gp Color.black gk
                    (T.node (T.node SA pnode Color.red sk SB) par
                      Color.red pk PR))).mp hBst
                obtain ⟨hcb, hLBgp, hUBgp, hBGl, hBX⟩ := hBp
                have hBX2 := rotr_BstB _ _ SA SB PR par pnode
                  Color.red Color.red pk sk hBX
                have hsb2 := rotl_BstB _ _ Gl SA
                  (T.node SB par Color.red pk PR) gp pnode
                  Color.black Color.red gk sk
                  ⟨hLBgp, hUBgp, hBGl, hBX2⟩
                exact (BstB_plug none none u2 _).mpr ⟨hcb, hsb2⟩
              have hdepth_new : (Ctx.goR u2 (T.node Gl gp Color.red gk SA)
                  pnode Color.black sk).depth + 1 ≤ fuel := by
                simp only [Ctx.depth] at hfuel ⊢
                omega
              obtain ⟨s1, t1, hloop, hrepr1, hseq1, hRB1, hBst1, hlm1,
                  hrm1⟩ :=
                ih s5 par
                  (Ctx.goR u2 (T.node Gl gp Color.red gk SA) pnode
                    Color.black sk)
                  (T.node SB par Color.red pk PR)
                  hN_new hctx_new hsub_new rfl hRB_new rfl hCtxRB_new
                  hOB_new hBst_new hdepth_new
              refine ⟨s1, t1, ?_, hrepr1, ?_, hRB1, hBst1, ?_, ?_⟩
              · rw [hstep]
                exact hloop
              · rw [hseq1, seq_plug, seq_plug]
                simp [Ctx.seqPre, Ctx.seqPost, List.append_assoc]
              · exact hlm1.trans (hlmB.trans hlmA)
              · exact hrm1.trans (hrmB.trans hrmA)


        · -- the parent frame is black: the loop exits with a valid tree
          have hpcb : pc = Color.black := color_black_of_ne_red pc hpcr
          have hcolb : (s.heap.get par).color = Color.black := by
            rw [hpcol, hpcb]
          have hstep : insertRebalanceLoop (fuel+1) s pnode = some s := by
            simp [insertRebalanceLoop, hrt, hparent, hcolb]
          refine ⟨s, (Ctx.goL up par pc pk PR).plug
            (T.node SA pnode Color.red sk SB), hstep, ?_, rfl, ?_, hBst,
            rfl, rfl⟩
          · exact repr_plug_mk s.heap s.tree.root _ _ (some pnode)
              ⟨hparl, hppar, hpcol, hpkey, hPR, hup⟩
              ⟨rfl, hpp, hpc2, hpk2, hSA, hSB⟩
          · exact RBsub_plug _ _ _ ⟨hPRrb, hPRbh, hredc, hupRB⟩ hRB rfl
              (fun _ => hpcb)
      | goR up PL par pc pk =>
        obtain ⟨hparr, hppar, hpcol, hpkey, hPL, hup⟩ := hctx
        have hparent : (s.heap.get pnode).parent = some par := hpp
        obtain ⟨hPLrb, hPLbh, hredc, hupRB⟩ := hCtxRB
        by_cases hpcr : pc = Color.red
        · subst hpcr
          cases up with
          | top =>
            exact absurd (show Color.red = Color.black from hOB)
              (by simp)
          | goR u2 Gl gp gc gk =>
            obtain ⟨hgpr2, hgpar, hgcol, hgkey, hGl, hu2⟩ := hup
            have hppar2 : (s.heap.get par).parent = some gp := hppar
            have hgcb : gc = Color.black := (hredc rfl).1
            subst hgcb
            have hPLb : rootColor PL = Color.black := (hredc rfl).2
            have hupRB2 : CtxRB (Ctx.goR u2 Gl gp Color.black gk)
                (bh (T.node SA pnode Color.red sk SB)) := by
              simpa [bl] using hupRB
            obtain ⟨hGlrb, hGlbh, hgredc, hu2RB⟩ := hupRB2
            have hu2RB2 : CtxRB u2
                (bh (T.node SA pnode Color.red sk SB) + 1) := by
              simpa [bl] using hu2RB
            have hgrand : __helper_get_grandparent s.heap pnode = some gp := by
              simp [__helper_get_grandparent, hparent, hppar2]
            have hGlroot : (s.heap.get gp).left = Gl.rootRef :=
              reprAt_rootRef _ _ _ _ hGl
            -- nodup decomposition
            have hN1 := hN
            rw [footprint] at hN1
            obtain ⟨hpreN, hsubN, hpostN, hpre_f, hsub_post⟩ :=
              nodup_append_triple hN1
            have hpreN2 : ((u2.preIds ++ Gl.ids ++ [gp]) ++ PL.ids ++
                [par]).Nodup := hpreN
            obtain ⟨hupN, hPLN, -, hf1, hf2⟩ := nodup_append_triple hpreN2
            obtain ⟨hu2preN, hGlN0, -, hg1, hg2⟩ := nodup_append_triple hupN
            have hpar_PL : par ∉ PL.ids := fun hm => hf2 par hm (by simp)
            have hgp_Gl : gp ∉ Gl.ids := fun hm => hg2 gp hm (by simp)
            have hpar_gp : par ≠ gp :=
              fun hEq => (hf1 gp (by simp)).2 (by simp [hEq])
            have hgp_PL : gp ∉ PL.ids := fun hm => (hf1 gp (by simp)).1 hm
            have hpar_Gl : par ∉ Gl.ids :=
              fun hm => (hf1 par (by simp [hm])).2 (by simp)
            have hsub_facts : ∀ j ∈ (T.node SA pnode Color.red sk SB).ids,
                j ≠ par ∧ j ∉ PL.ids ∧ j ≠ gp ∧ j ∉ Gl.ids ∧
                j ∉ u2.postIds ∧ j ∉ u2.preIds := by
              intro j hj
              refine ⟨fun hEq => (hpre_f j (by simp [Ctx.preIds, hEq])).1 hj,
                fun hm => (hpre_f j (by simp [Ctx.preIds, hm])).1 hj,
                fun hEq => (hpre_f j (by simp [Ctx.preIds, hEq])).1 hj,
                fun hm => (hpre_f j (by simp [Ctx.preIds, hm])).1 hj,
                hsub_post j hj,
                fun hm => (hpre_f j (by simp [Ctx.preIds, hm])).1 hj⟩
            have hpnfacts := hsub_facts pnode (by simp)
            have hpar_sub : par ∉ (T.node SA pnode Color.red sk SB).ids :=
              fun hm => (hsub_facts par hm).1 rfl
            have hgp_sub : gp ∉ (T.node SA pnode Color.red sk SB).ids :=
              fun hm => (hsub_facts gp hm).2.2.1 rfl
            have hpar_u2mem : par ∉ u2.preIds ++ u2.postIds := by
              simp only [List.mem_append, not_or]
              exact ⟨fun hm => (hf1 par (by simp [hm])).2 (by simp),
                fun hm => (hpre_f par (by simp [Ctx.preIds])).2 hm⟩
            have hgp_u2mem : gp ∉ u2.preIds ++ u2.postIds := by
              simp only [List.mem_append, not_or]
              exact ⟨fun hm => (hg1 gp hm).2 (by simp),
                fun hm => (hpre_f gp (by simp [Ctx.preIds])).2 hm⟩
            by_cases hc1 : ∃ UL u uk UR, Gl = T.node UL u Color.red uk UR
            · -- Case 1: the uncle exists and is red (uncle on the left)
              obtain ⟨UL, u, uk, UR, rfl⟩ := hc1
              obtain ⟨hgul, hupar3, hucol, hukey, hUL, hUR⟩ := hGl
              have humem : u ∈ (T.node UL u Color.red uk UR).ids := by simp
              have hu_par : ¬ u = par :=
                fun hEq => hpar_Gl (hEq ▸ humem)
              have hu_gp : ¬ u = gp :=
                fun hEq => hgp_Gl (hEq ▸ humem)
              have hu_sub : u ∉ (T.node SA pnode Color.red sk SB).ids :=
                fun hm => (hsub_facts u hm).2.2.2.1 humem
              have hu_PL : u ∉ PL.ids :=
                fun hm => (hf1 u (by simp [humem])).1 hm
              have hu_u2mem : u ∉ u2.preIds ++ u2.postIds := by
                simp only [List.mem_append, not_or]
                exact ⟨fun hm => (hg1 u hm).1 humem,
                  fun hm => (hpre_f u (by simp [Ctx.preIds, humem])).2 hm⟩
              have hpn_u : ¬ pnode = u :=
                fun hEq => hpnfacts.2.2.2.1 (hEq ▸ humem)
              have hGlN : (T.node UL u Color.red uk UR).ids.Nodup := hGlN0
              have hu_UL : u ∉ UL.ids ∧ u ∉ UR.ids := by
                have h2 : (UL.ids ++ [u] ++ UR.ids).Nodup := by
                  simpa using hGlN
                obtain ⟨-, -, -, hf, hmid⟩ := nodup_append_triple h2
                exact ⟨fun hm => (hf u hm).1 (by simp),
                  fun hm => hmid u (by simp) hm⟩
              have hpar_UL : par ∉ UL.ids ∧ par ∉ UR.ids :=
                ⟨fun hm => hpar_Gl (by simp [hm]),
                 fun hm => hpar_Gl (by simp [hm])⟩
              have hgp_UL : gp ∉ UL.ids ∧ gp ∉ UR.ids :=
                ⟨fun hm => hgp_Gl (by simp [hm]),
                 fun hm => hgp_Gl (by simp [hm])⟩
              have hSAf : par ∉ SA.ids ∧ u ∉ SA.ids ∧ gp ∉ SA.ids :=
                ⟨fun hm => hpar_sub (by simp [hm]),
                 fun hm => hu_sub (by simp [hm]),
                 fun hm => hgp_sub (by simp [hm])⟩
              have hSBf : par ∉ SB.ids ∧ u ∉ SB.ids ∧ gp ∉ SB.ids :=
                ⟨fun hm => hpar_sub (by simp [hm]),
                 fun hm => hu_sub (by simp [hm]),
                 fun hm => hgp_sub (by simp [hm])⟩
              have hsub0 : reprAt s.heap u2.holePar (some gp)
                  (T.node (T.node UL u Color.red uk UR) gp Color.black gk
                    (T.node PL par Color.red pk
                      (T.node SA pnode Color.red sk SB))) := by
                refine ⟨rfl, hgpar, hgcol, hgkey, ?_, ?_⟩
                · rw [hgul]
                  exact ⟨rfl, hupar3, hucol, hukey, hUL, hUR⟩
                · rw [hgpr2]
                  refine ⟨rfl, hppar2, hpcol, hpkey, hPL, ?_⟩
                  rw [hparr]
                  exact ⟨rfl, hpp, hpc2, hpk2, hSA, hSB⟩
              have hcompute : T.recolor gp Color.red (T.recolor u Color.black
                  (T.recolor par Color.black
                    (T.node (T.node UL u Color.red uk UR) gp Color.black gk
                      (T.node PL par Color.red pk
                        (T.node SA pnode Color.red sk SB))))) =
                  T.node (T.node UL u Color.black uk UR) gp Color.red gk
                    (T.node PL par Color.black pk
                      (T.node SA pnode Color.red sk SB)) := by
                simp [T.recolor, hpar_gp.symm, hu_par, hu_gp,
                  Ne.symm hu_par, Ne.symm hu_gp, hpar_gp,
                  hpnfacts.1, hpnfacts.2.2.1, hpn_u,
                  T.recolor_eq_self _ _ _ hSAf.1,
                  T.recolor_eq_self _ _ _ hSAf.2.1,
                  T.recolor_eq_self _ _ _ hSAf.2.2,
                  T.recolor_eq_self _ _ _ hSBf.1,
                  T.recolor_eq_self _ _ _ hSBf.2.1,
                  T.recolor_eq_self _ _ _ hSBf.2.2,
                  T.recolor_eq_self _ _ _ hpar_PL,
                  T.recolor_eq_self _ _ _ hpar_UL.1,
                  T.recolor_eq_self _ _ _ hpar_UL.2,
                  T.recolor_eq_self _ _ _ hu_PL,
                  T.recolor_eq_self _ _ _ hu_UL.1,
                  T.recolor_eq_self _ _ _ hu_UL.2,
                  T.recolor_eq_self _ _ _ hgp_PL,
                  T.recolor_eq_self _ _ _ hgp_UL.1,
                  T.recolor_eq_self _ _ _ hgp_UL.2]
              have hsub2 : reprAt
                  (((s.heap.setColor par Color.black).setColor u
                    Color.black).setColor gp Color.red) u2.holePar (some gp)
                  (T.node (T.node UL u Color.black uk UR) gp Color.red gk
                    (T.node PL par Color.black pk
                      (T.node SA pnode Color.red sk SB))) := by
                have h0 := reprAt_setColor _ _ _ _ gp Color.red
                  (reprAt_setColor _ _ _ _ u Color.black
                    (reprAt_setColor _ _ _ _ par Color.black hsub0))
                rw [hcompute] at h0
                exact h0
              have hu2x : reprCtx
                  (((s.heap.setColor par Color.black).setColor u
                    Color.black).setColor gp Color.red) s.tree.root u2
                  (some gp) := by
                have h0 := reprCtx_setColor _ _ _ _ gp Color.red
                  (reprCtx_setColor _ _ _ _ u Color.black
                    (reprCtx_setColor _ _ _ _ par Color.black hu2))
                rw [Ctx.recolor_untouched u2 par Color.black hpar_u2mem,
                  Ctx.recolor_untouched u2 u Color.black hu_u2mem,
                  Ctx.recolor_untouched u2 gp Color.red hgp_u2mem] at h0
                exact h0
              have hN2 : (footprint u2
                  (T.node (T.node UL u Color.black uk UR) gp Color.red gk
                    (T.node PL par Color.black pk
                      (T.node SA pnode Color.red sk SB)))).Nodup := by
                have e : footprint u2
                    (T.node (T.node UL u Color.black uk UR) gp Color.red gk
                      (T.node PL par Color.black pk
                        (T.node SA pnode Color.red sk SB))) =
                    footprint (Ctx.goR (Ctx.goR u2
                      (T.node UL u Color.red uk UR) gp Color.black gk)
                      PL par Color.red pk)
                      (T.node SA pnode Color.red sk SB) := by
                  simp [footprint, Ctx.preIds, Ctx.postIds,
                    List.append_assoc]
                rw [e]
                exact hN
              have hRBs2 : RBsub
                  (T.node (T.node UL u Color.black uk UR) gp Color.red gk
                    (T.node PL par Color.black pk
                      (T.node SA pnode Color.red sk SB))) := by
                obtain ⟨⟨hGlrr, hGlnl, hGlnr⟩, hbUL, hbUR, hbeq⟩ := hGlrb
                refine ⟨⟨fun _ => ⟨rfl, rfl⟩,
                  ⟨fun hc => Color.noConfusion hc, hGlnl, hGlnr⟩,
                  ⟨fun hc => Color.noConfusion hc, hPLrb.1, hRB.1⟩⟩,
                  ⟨hbUL, hbUR, hbeq⟩, ⟨hPLrb.2, hRB.2, ?_⟩, ?_⟩
                · have h1 := hPLbh
                  simp [bh] at h1 ⊢
                  omega
                · have h1 : bh (T.node UL u Color.red uk UR) =
                      bh (T.node SA pnode Color.red sk SB) := hGlbh
                  have h2 := hPLbh
                  simp [bh] at h1 h2 ⊢
                  omega
              have hCtxRB2 : CtxRB u2
                  (bh (T.node (T.node UL u Color.black uk UR) gp Color.red
                    gk (T.node PL par Color.black pk
                      (T.node SA pnode Color.red sk SB)))) := by
                have e : bh (T.node (T.node UL u Color.black uk UR) gp
                    Color.red gk (T.node PL par Color.black pk
                      (T.node SA pnode Color.red sk SB))) =
                    bh (T.node SA pnode Color.red sk SB) + 1 := by
                  have h1 : bh (T.node UL u Color.red uk UR) =
                      bh (T.node SA pnode Color.red sk SB) := hGlbh
                  simp [bh] at h1 ⊢
                  omega
                rw [e]
                exact hu2RB2
              have hOB2 : u2.outerBlack :=
                outerBlack_dropR _ _ _ _ _ (outerBlack_dropR _ _ _ _ _ hOB)
              have hBst2 : BstB none none (u2.plug
                  (T.node (T.node UL u Color.black uk UR) gp Color.red gk
                    (T.node PL par Color.black pk
                      (T.node SA pnode Color.red sk SB)))) := by
                have hBp := (BstB_plug none none u2
                  (T.node (T.node UL u Color.red uk UR) gp Color.black gk
                    (T.node PL par Color.red pk
                      (T.node SA pnode Color.red sk SB)))).mp hBst
                exact (BstB_plug none none u2 _).mpr ⟨hBp.1, hBp.2⟩
              have hdepth2 : u2.depth + 1 ≤ fuel := by
                simp only [Ctx.depth] at hfuel
                omega
              have hstep : insertRebalanceLoop (fuel+1) s pnode =
                  insertRebalanceLoop fuel
                    ⟨s.tree, ((s.heap.setColor par Color.black).setColor u
                      Color.black).setColor gp Color.red⟩ gp := by
                simp [insertRebalanceLoop, hrt, hparent, hpcol, hgrand,
                  hgul, hucol, hu_par]
              obtain ⟨s1, t1, hloop, hrepr1, hseq1, hRB1, hBst1, hlm1,
                  hrm1⟩ :=
                ih ⟨s.tree, ((s.heap.setColor par Color.black).setColor u
                    Color.black).setColor gp Color.red⟩ gp u2
                  (T.node (T.node UL u Color.black uk UR) gp Color.red gk
                    (T.node PL par Color.black pk
                      (T.node SA pnode Color.red sk SB)))
                  hN2 hu2x hsub2 rfl hRBs2 rfl hCtxRB2 hOB2 hBst2 hdepth2
              refine ⟨s1, t1, ?_, hrepr1, ?_, hRB1, hBst1, hlm1, hrm1⟩
              · rw [hstep]
                exact hloop
              · rw [hseq1, seq_plug, seq_plug]
                simp [Ctx.seqPre, Ctx.seqPost, List.append_assoc]
            · -- Case 3 (zig-zig): recolor parent and grandparent and
              -- rotate the grandparent left
              have hGlb : rootColor Gl = Color.black := by
                cases Gl with
                | nil => rfl
                | node UL u uc uk UR =>
                  cases uc with
                  | red => exact absurd ⟨UL, u, uk, UR, rfl⟩ hc1
                  | black => rfl
              have hSA3 : par ∉ SA.ids ∧ gp ∉ SA.ids :=
                ⟨fun hm => hpar_sub (by simp [hm]),
                 fun hm => hgp_sub (by simp [hm])⟩
              have hSB3 : par ∉ SB.ids ∧ gp ∉ SB.ids :=
                ⟨fun hm => hpar_sub (by simp [hm]),
                 fun hm => hgp_sub (by simp [hm])⟩
              have hPLroot2 : (s.heap.get par).left = PL.rootRef :=
                reprAt_rootRef _ _ _ _ hPL
              have hPLne : ¬ ((s.heap.get par).left = some pnode) := by
                rw [hPLroot2]
                intro hEq
                exact hpnfacts.2.1 (rootRef_mem PL pnode hEq)
              have hgrand3 : __helper_get_grandparent
                  (s.heap.setColor par Color.black) pnode = some gp := by
                simp [__helper_get_grandparent, hparent, hppar2,
                  hpnfacts.1]
              have hsub0 : reprAt s.heap u2.holePar (some gp)
                  (T.node Gl gp Color.black gk
                    (T.node PL par Color.red pk
                      (T.node SA pnode Color.red sk SB))) := by
                refine ⟨rfl, hgpar, hgcol, hgkey, hGl, ?_⟩
                rw [hgpr2]
                refine ⟨rfl, hppar2, hpcol, hpkey, hPL, ?_⟩
                rw [hparr]
                exact ⟨rfl, hpp, hpc2, hpk2, hSA, hSB⟩
              have hcompute : T.recolor gp Color.red
                  (T.recolor par Color.black
                    (T.node Gl gp Color.black gk
                      (T.node PL par Color.red pk
                        (T.node SA pnode Color.red sk SB)))) =
                  T.node Gl gp Color.red gk
                    (T.node PL par Color.black pk
                      (T.node SA pnode Color.red sk SB)) := by
                simp [T.recolor, hpar_gp.symm, hpar_gp,
                  hpnfacts.1, hpnfacts.2.2.1,
                  T.recolor_eq_self _ _ _ hSA3.1,
                  T.recolor_eq_self _ _ _ hSA3.2,
                  T.recolor_eq_self _ _ _ hSB3.1,
                  T.recolor_eq_self _ _ _ hSB3.2,
                  T.recolor_eq_self _ _ _ hpar_PL,
                  T.recolor_eq_self _ _ _ hgp_PL,
                  T.recolor_eq_self _ _ _ hpar_Gl,
                  T.recolor_eq_self _ _ _ hgp_Gl]
              have hsub4 : reprAt
                  ((s.heap.setColor par Color.black).setColor gp Color.red)
                  u2.holePar (some gp)
                  (T.node Gl gp Color.red gk
                    (T.node PL par Color.black pk
                      (T.node SA pnode Color.red sk SB))) := by
                have h0 := reprAt_setColor _ _ _ _ gp Color.red
                  (reprAt_setColor _ _ _ _ par Color.black hsub0)
                rw [hcompute] at h0
                exact h0
              have hu2x : reprCtx
                  ((s.heap.setColor par Color.black).setColor gp Color.red)
                  s.tree.root u2 (some gp) := by
                have h0 := reprCtx_setColor _ _ _ _ gp Color.red
                  (reprCtx_setColor _ _ _ _ par Color.black hu2)
                rw [Ctx.recolor_untouched u2 par Color.black hpar_u2mem,
                  Ctx.recolor_untouched u2 gp Color.red hgp_u2mem] at h0
                exact h0
              have hN3 : (footprint u2
                  (T.node Gl gp Color.red gk
                    (T.node PL par Color.black pk
                      (T.node SA pnode Color.red sk SB)))).Nodup := by
                have e : footprint u2
                    (T.node Gl gp Color.red gk
                      (T.node PL par Color.black pk
                        (T.node SA pnode Color.red sk SB))) =
                    footprint (Ctx.goR (Ctx.goR u2 Gl gp Color.black gk)
                      PL par Color.red pk)
                      (T.node SA pnode Color.red sk SB) := by
                  simp [footprint, Ctx.preIds, Ctx.postIds,
                    List.append_assoc]
                rw [e]
                exact hN
              obtain ⟨s5, hrot, hctx5, hsub5, hlm5, hrm5, hcells5⟩ :=
                rotate_left_spec
                  ⟨s.tree, (s.heap.setColor par Color.black).setColor gp
                    Color.red⟩ u2
                  Gl PL (T.node SA pnode Color.red sk SB) gp par
                  Color.red Color.black gk pk hN3 hu2x hsub4
              have hc23 : insertCase23 s pnode par true =
                  some (s5, pnode) := by
                simp [insertCase23, hPLne, hparent, hgrand3, hrot]
              have hstep : insertRebalanceLoop (fuel+1) s pnode =
                  insertRebalanceLoop fuel s5 pnode := by
                cases Gl with
                | nil =>
                  have hgln : (s.heap.get gp).left = none := hGlroot
                  simp [insertRebalanceLoop, hrt, hparent, hpcol, hgrand,
                    hgln, hc23]
                | node ULx ux ucx ukx URx =>
                  have hucb : ucx = Color.black := hGlb
                  subst hucb
                  have hgln : (s.heap.get gp).left = some ux := hGlroot
                  have hucolx : (s.heap.get ux).color = Color.black :=
                    hGl.2.2.1
                  have huxpar : ¬ ux = par :=
                    fun hEq => hpar_Gl (hEq ▸ (by simp : ux ∈
                      (T.node ULx ux Color.black ukx URx).ids))
                  simp [insertRebalanceLoop, hrt, hparent, hpcol, hgrand,
                    hgln, hucolx, huxpar, hc23]
              -- re-split the rotated layout at the new loop node
              obtain ⟨-, hp5, hc5, hk5, hl5, hr5⟩ := hsub5
              have hr5root : (s5.heap.get par).right = some pnode :=
                reprAt_rootRef _ _ _ _ hr5
              have hsub_new : reprAt s5.heap (some par) (some pnode)
                  (T.node SA pnode Color.red sk SB) := by
                rw [← hr5root]
                exact hr5
              have hctx_new : reprCtx s5.heap s5.tree.root
                  (Ctx.goR u2 (T.node Gl gp Color.red gk PL) par
                    Color.black pk) (some pnode) :=
                ⟨hr5root, hp5, hc5, hk5, hl5, hctx5⟩
              have hN_new : (footprint
                  (Ctx.goR u2 (T.node Gl gp Color.red gk PL) par
                    Color.black pk)
                  (T.node SA pnode Color.red sk SB)).Nodup := by
                have e : footprint
                    (Ctx.goR u2 (T.node Gl gp Color.red gk PL) par
                      Color.black pk)
                    (T.node SA pnode Color.red sk SB) =
                    footprint (Ctx.goR (Ctx.goR u2 Gl gp Color.black gk)
                      PL par Color.red pk)
                      (T.node SA pnode Color.red sk SB) := by
                  simp [footprint, Ctx.preIds, Ctx.postIds,
                    List.append_assoc]
                rw [e]
                exact hN
              have hCtxRB_new : CtxRB
                  (Ctx.goR u2 (T.node Gl gp Color.red gk PL) par
                    Color.black pk)
                  (bh (T.node SA pnode Color.red sk SB)) := by
                refine ⟨⟨⟨fun _ => ⟨hGlb, hPLb⟩, hGlrb.1, hPLrb.1⟩,
                  ⟨hGlrb.2, hPLrb.2, ?_⟩⟩, ?_, ?_, ?_⟩
                · have h1 := hGlbh
                  have h2 := hPLbh
                  simp [bh] at h1 h2 ⊢
                  omega
                · show bh Gl + _ = _
                  have h1 := hGlbh
                  simp [bh] at h1 ⊢
                  omega
                · intro hc
                  exact Color.noConfusion hc
                · simpa [bl] using hu2RB2
              have hOB_new : (Ctx.goR u2 (T.node Gl gp Color.red gk PL)
                  par Color.black pk).outerBlack :=
                outerBlack_consR _ _ _ _
                  (outerBlack_dropR _ _ _ _ _
                    (outerBlack_dropR _ _ _ _ _ hOB))
              have hBst_new : BstB none none
                  ((Ctx.goR u2 (T.node Gl gp Color.red gk PL) par
                    Color.black pk).plug
                    (T.node SA pnode Color.red sk SB)) := by
                have hBp := (BstB_plug none none u2
                  (T.node Gl gp Color.black gk
                    (T.node PL par Color.red pk
                      (T.node SA pnode Color.red sk SB)))).mp hBst
                have hBs5 := rotl_BstB _ _ Gl PL
                  (T.node SA pnode Color.red sk SB) gp par
                  Color.black Color.red gk pk hBp.2
                exact (BstB_plug none none u2 _).mpr ⟨hBp.1, hBs5⟩
              have hdepth_new : (Ctx.goR u2 (T.node Gl gp Color.red gk PL)
                  par Color.black pk).depth + 1 ≤ fuel := by
                simp only [Ctx.depth] at hfuel ⊢
                omega
              obtain ⟨s1, t1, hloop, hrepr1, hseq1, hRB1, hBst1, hlm1,
                  hrm1⟩ :=
                ih s5 pnode
                  (Ctx.goR u2 (T.node Gl gp Color.red gk PL) par
                    Color.black pk)
                  (T.node SA pnode Color.red sk SB)
                  hN_new hctx_new hsub_new rfl hRB rfl hCtxRB_new hOB_new
                  hBst_new hdepth_new
              refine ⟨s1, t1, ?_, hrepr1, ?_, hRB1, hBst1, ?_, ?_⟩
              · rw [hstep]
                exact hloop
              · rw [hseq1, seq_plug, seq_plug]
                simp [Ctx.seqPre, Ctx.seqPost, List.append_assoc]
              · exact hlm1.trans hlm5
              · exact hrm1.trans hrm5
          | goL u2 gp gc gk GU =>
            obtain ⟨hgpl2, hgpar, hgcol, hgkey, hGU, hu2⟩ := hup
            have hppar2 : (s.heap.get par).parent = some gp := hppar
            have hgcb : gc = Color.black := (hredc rfl).1
            subst hgcb
            have hPLb : rootColor PL = Color.black := (hredc rfl).2
            have hupRB2 : CtxRB (Ctx.goL u2 gp Color.black gk GU)
                (bh (T.node SA pnode Color.red sk SB)) := by
              simpa [bl] using hupRB
            obtain ⟨hGUrb, hGUbh, hgredc, hu2RB⟩ := hupRB2
            have hu2RB2 : CtxRB u2
                (bh (T.node SA pnode Color.red sk SB) + 1) := by
              simpa [bl] using hu2RB
            have hgrand : __helper_get_grandparent s.heap pnode = some gp := by
              simp [__helper_get_grandparent, hparent, hppar2]
            have hGUroot : (s.heap.get gp).right = GU.rootRef :=
              reprAt_rootRef _ _ _ _ hGU
            -- nodup decomposition
            have hN1 := hN
            rw [footprint] at hN1
            obtain ⟨hpreN, hsubN, hpostN, hpre_f, hsub_post⟩ :=
              nodup_append_triple hN1
            have hpreN2 : (u2.preIds ++ PL.ids ++ [par]).Nodup := hpreN
            obtain ⟨hu2preN, hPLN, -, hq1, hq2⟩ := nodup_append_triple hpreN2
            have hpostN2 : ((gp :: GU.ids) ++ u2.postIds).Nodup := hpostN
            have hgpGUN : (gp :: GU.ids).Nodup := hpostN2.of_append_left
            have hpostdisj : (gp :: GU.ids).Disjoint u2.postIds :=
              List.disjoint_of_nodup_append hpostN2
            have hgp_GU : gp ∉ GU.ids := (List.nodup_cons.mp hgpGUN).1
            have hGUN : GU.ids.Nodup := (List.nodup_cons.mp hgpGUN).2
            have hpar_PL : par ∉ PL.ids := fun hm => hq2 par hm (by simp)
            have hpar_post : par ∉ (gp :: GU.ids) ++ u2.postIds :=
              (hpre_f par (by simp [Ctx.preIds])).2
            have hpar_gp : par ≠ gp :=
              fun hEq => hpar_post (by simp [hEq])
            have hpar_GU : par ∉ GU.ids :=
              fun hm => hpar_post (by simp [hm])
            have hgp_PL : gp ∉ PL.ids :=
              fun hm => (hpre_f gp (by simp [Ctx.preIds, hm])).2
                (by simp [Ctx.postIds])
            have hsub_facts : ∀ j ∈ (T.node SA pnode Color.red sk SB).ids,
                j ≠ par ∧ j ∉ PL.ids ∧ j ≠ gp ∧ j ∉ GU.ids ∧
                j ∉ u2.postIds ∧ j ∉ u2.preIds := by
              intro j hj
              have h0 : j ∉ (gp :: GU.ids) ++ u2.postIds := hsub_post j hj
              refine ⟨fun hEq => (hpre_f j (by simp [Ctx.preIds, hEq])).1 hj,
                fun hm => (hpre_f j (by simp [Ctx.preIds, hm])).1 hj,
                fun hEq => h0 (by simp [hEq]),
                fun hm => h0 (by simp [hm]),
                fun hm => h0 (by simp [hm]),
                fun hm => (hpre_f j (by simp [Ctx.preIds, hm])).1 hj⟩
            have hpnfacts := hsub_facts pnode (by simp)
            have hsubN2 : (SA.ids ++ [pnode] ++ SB.ids).Nodup := by
              simpa using hsubN
            have hpn_SASB : pnode ∉ SA.ids ∧ pnode ∉ SB.ids := by
              obtain ⟨-, -, -, hf, hmid⟩ := nodup_append_triple hsubN2
              exact ⟨fun hm => (hf pnode hm).1 (by simp),
                fun hm => hmid pnode (by simp) hm⟩
            have hpar_sub : par ∉ (T.node SA pnode Color.red sk SB).ids :=
              fun hm => (hsub_facts par hm).1 rfl
            have hgp_sub : gp ∉ (T.node SA pnode Color.red sk SB).ids :=
              fun hm => (hsub_facts gp hm).2.2.1 rfl
            have hgp_GUf : gp ∉ GU.ids := hgp_GU
            have hpar_u2mem : par ∉ u2.preIds ++ u2.postIds := by
              simp only [List.mem_append, not_or]
              exact ⟨fun hm => (hq1 par hm).2 (by simp),
                fun hm => hpar_post (by simp [hm])⟩
            have hgp_u2mem : gp ∉ u2.preIds ++ u2.postIds := by
              simp only [List.mem_append, not_or]
              exact ⟨fun hm => (hpre_f gp (by simp [Ctx.preIds, hm])).2
                  (by simp [Ctx.postIds]),
                fun hm => hpostdisj (by simp) hm⟩
            have hpn_u2mem : pnode ∉ u2.preIds ++ u2.postIds := by
              simp only [List.mem_append, not_or]
              exact ⟨hpnfacts.2.2.2.2.2, hpnfacts.2.2.2.2.1⟩
            by_cases hc1 : ∃ UL u uk UR, GU = T.node UL u Color.red uk UR
            · -- Case 1: the uncle exists and is red (uncle on the right)
              obtain ⟨UL, u, uk, UR, rfl⟩ := hc1
              obtain ⟨hgur, hupar3, hucol, hukey, hUL, hUR⟩ := hGU
              have humem : u ∈ (T.node UL u Color.red uk UR).ids := by simp
              have hu_par : ¬ u = par :=
                fun hEq => hpar_GU (hEq ▸ humem)
              have hu_gp : ¬ u = gp :=
                fun hEq => hgp_GU (hEq ▸ humem)
              have hu_sub : u ∉ (T.node SA pnode Color.red sk SB).ids :=
                fun hm => (hsub_facts u hm).2.2.2.1 humem
              have hu_PL : u ∉ PL.ids := by
                intro hm
                exact (hpre_f u (by simp [Ctx.preIds, hm])).2
                  (by simp [Ctx.postIds, humem])
              have hu_u2mem : u ∉ u2.preIds ++ u2.postIds := by
                simp only [List.mem_append, not_or]
                exact ⟨fun hm => (hpre_f u (by simp [Ctx.preIds, hm])).2
                    (by simp [Ctx.postIds, humem]),
                  fun hm => hpostdisj (by simp [humem]) hm⟩
              have hpn_u : ¬ pnode = u :=
                fun hEq => hpnfacts.2.2.2.1 (hEq ▸ humem)
              have hu_UL : u ∉ UL.ids ∧ u ∉ UR.ids := by
                have h2 : (UL.ids ++ [u] ++ UR.ids).Nodup := by
                  simpa using hGUN
                obtain ⟨-, -, -, hf, hmid⟩ := nodup_append_triple h2
                exact ⟨fun hm => (hf u hm).1 (by simp),
                  fun hm => hmid u (by simp) hm⟩
              have hpar_UL : par ∉ UL.ids ∧ par ∉ UR.ids :=
                ⟨fun hm => hpar_GU (by simp [hm]),
                 fun hm => hpar_GU (by simp [hm])⟩
              have hgp_UL : gp ∉ UL.ids ∧ gp ∉ UR.ids :=
                ⟨fun hm => hgp_GU (by simp [hm]),
                 fun hm => hgp_GU (by simp [hm])⟩
              have hSAf : par ∉ SA.ids ∧ u ∉ SA.ids ∧ gp ∉ SA.ids :=
                ⟨fun hm => hpar_sub (by simp [hm]),
                 fun hm => hu_sub (by simp [hm]),
                 fun hm => hgp_sub (by simp [hm])⟩
              have hSBf : par ∉ SB.ids ∧ u ∉ SB.ids ∧ gp ∉ SB.ids :=
                ⟨fun hm => hpar_sub (by simp [hm]),
                 fun hm => hu_sub (by simp [hm]),
                 fun hm => hgp_sub (by simp [hm])⟩
              have hsub0 : reprAt s.heap u2.holePar (some gp)
                  (T.node (T.node PL par Color.red pk
                      (T.node SA pnode Color.red sk SB)) gp Color.black gk
                    (T.node UL u Color.red uk UR)) := by
                refine ⟨rfl, hgpar, hgcol, hgkey, ?_, ?_⟩
                · rw [hgpl2]
                  refine ⟨rfl, hppar2, hpcol, hpkey, hPL, ?_⟩
                  rw [hparr]
                  exact ⟨rfl, hpp, hpc2, hpk2, hSA, hSB⟩
                · rw [hgur]
                  exact ⟨rfl, hupar3, hucol, hukey, hUL, hUR⟩
              have hcompute : T.recolor gp Color.red (T.recolor u Color.black
                  (T.recolor par Color.black
                    (T.node (T.node PL par Color.red pk
                        (T.node SA pnode Color.red sk SB)) gp Color.black
                      gk (T.node UL u Color.red uk UR)))) =
                  T.node (T.node PL par Color.black pk
                      (T.node SA pnode Color.red sk SB)) gp Color.red gk
                    (T.node UL u Color.black uk UR) := by
                simp [T.recolor, hpar_gp.symm, hu_par, hu_gp,
                  Ne.symm hu_par, Ne.symm hu_gp, hpar_gp,
                  hpnfacts.1, hpnfacts.2.2.1, hpn_u,
                  T.recolor_eq_self _ _ _ hSAf.1,
                  T.recolor_eq_self _ _ _ hSAf.2.1,
                  T.recolor_eq_self _ _ _ hSAf.2.2,
                  T.recolor_eq_self _ _ _ hSBf.1,
                  T.recolor_eq_self _ _ _ hSBf.2.1,
                  T.recolor_eq_self _ _ _ hSBf.2.2,
                  T.recolor_eq_self _ _ _ hpar_PL,
                  T.recolor_eq_self _ _ _ hpar_UL.1,
                  T.recolor_eq_self _ _ _ hpar_UL.2,
                  T.recolor_eq_self _ _ _ hu_PL,
                  T.recolor_eq_self _ _ _ hu_UL.1,
                  T.recolor_eq_self _ _ _ hu_UL.2,
                  T.recolor_eq_self _ _ _ hgp_PL,
                  T.recolor_eq_self _ _ _ hgp_UL.1,
                  T.recolor_eq_self _ _ _ hgp_UL.2]
              have hsub2 : reprAt
                  (((s.heap.setColor par Color.black).setColor u
                    Color.black).setColor gp Color.red) u2.holePar (some gp)
                  (T.node (T.node PL par Color.black pk
                      (T.node SA pnode Color.red sk SB)) gp Color.red gk
                    (T.node UL u Color.black uk UR)) := by
                have h0 := reprAt_setColor _ _ _ _ gp Color.red
                  (reprAt_setColor _ _ _ _ u Color.black
                    (reprAt_setColor _ _ _ _ par Color.black hsub0))
                rw [hcompute] at h0
                exact h0
              have hu2x : reprCtx
                  (((s.heap.setColor par Color.black).setColor u
                    Color.black).setColor gp Color.red) s.tree.root u2
                  (some gp) := by
                have h0 := reprCtx_setColor _ _ _ _ gp Color.red
                  (reprCtx_setColor _ _ _ _ u Color.black
                    (reprCtx_setColor _ _ _ _ par Color.black hu2))
                rw [Ctx.recolor_untouched u2 par Color.black hpar_u2mem,
                  Ctx.recolor_untouched u2 u Color.black hu_u2mem,
                  Ctx.recolor_untouched u2 gp Color.red hgp_u2mem] at h0
                exact h0
              have hN2 : (footprint u2
                  (T.node (T.node PL par Color.black pk
                      (T.node SA pnode Color.red sk SB)) gp Color.red gk
                    (T.node UL u Color.black uk UR))).Nodup := by
                have e : footprint u2
                    (T.node (T.node PL par Color.black pk
                        (T.node SA pnode Color.red sk SB)) gp Color.red gk
                      (T.node UL u Color.black uk UR)) =
                    footprint (Ctx.goR (Ctx.goL u2 gp Color.black gk
                      (T.node UL u Color.red uk UR)) PL par Color.red pk)
                      (T.node SA pnode Color.red sk SB) := by
                  simp [footprint, Ctx.preIds, Ctx.postIds,
                    List.append_assoc]
                rw [e]
                exact hN
              have hRBs2 : RBsub
                  (T.node (T.node PL par Color.black pk
                      (T.node SA pnode Color.red sk SB)) gp Color.red gk
                    (T.node UL u Color.black uk UR)) := by
                obtain ⟨⟨hGUrr, hGUnl, hGUnr⟩, hbUL, hbUR, hbeq⟩ := hGUrb
                refine ⟨⟨fun _ => ⟨rfl, rfl⟩,
                  ⟨fun hc => Color.noConfusion hc, hPLrb.1, hRB.1⟩,
                  ⟨fun hc => Color.noConfusion hc, hGUnl, hGUnr⟩⟩,
                  ⟨hPLrb.2, hRB.2, ?_⟩, ⟨hbUL, hbUR, hbeq⟩, ?_⟩
                · have h1 := hPLbh
                  simp [bh] at h1 ⊢
                  omega
                · have h1 : bh (T.node UL u Color.red uk UR) =
                      bh (T.node SA pnode Color.red sk SB) := hGUbh
                  have h2 := hPLbh
                  simp [bh] at h1 h2 ⊢
                  omega
              have hCtxRB2 : CtxRB u2
                  (bh (T.node (T.node PL par Color.black pk
                      (T.node SA pnode Color.red sk SB)) gp Color.red gk
                    (T.node UL u Color.black uk UR))) := by
                have e : bh (T.node (T.node PL par Color.black pk
                      (T.node SA pnode Color.red sk SB)) gp Color.red gk
                    (T.node UL u Color.black uk UR)) =
                    bh (T.node SA pnode Color.red sk SB) + 1 := by
                  have h2 := hPLbh
                  simp [bh] at h2 ⊢
                  omega
                rw [e]
                exact hu2RB2
              have hOB2 : u2.outerBlack :=
                outerBlack_dropL _ _ _ _ _ (outerBlack_dropR _ _ _ _ _ hOB)
              have hBst2 : BstB none none (u2.plug
                  (T.node (T.node PL par Color.black pk
                      (T.node SA pnode Color.red sk SB)) gp Color.red gk
                    (T.node UL u Color.black uk UR))) := by
                have hBp := (BstB_plug none none u2
                  (T.node (T.node PL par Color.red pk
                      (T.node SA pnode Color.red sk SB)) gp Color.black gk
                    (T.node UL u Color.red uk UR))).mp hBst
                exact (BstB_plug none none u2 _).mpr ⟨hBp.1, hBp.2⟩
              have hdepth2 : u2.depth + 1 ≤ fuel := by
                simp only [Ctx.depth] at hfuel
                omega
              have hstep : insertRebalanceLoop (fuel+1) s pnode =
                  insertRebalanceLoop fuel
                    ⟨s.tree, ((s.heap.setColor par Color.black).setColor u
                      Color.black).setColor gp Color.red⟩ gp := by
                simp [insertRebalanceLoop, hrt, hparent, hpcol, hgrand,
                  hgpl2, hgur, hucol]
              obtain ⟨s1, t1, hloop, hrepr1, hseq1, hRB1, hBst1, hlm1,
                  hrm1⟩ :=
                ih ⟨s.tree, ((s.heap.setColor par Color.black).setColor u
                    Color.black).setColor gp Color.red⟩ gp u2
                  (T.node (T.node PL par Color.black pk
                      (T.node SA pnode Color.red sk SB)) gp Color.red gk
                    (T.node UL u Color.black uk UR))
                  hN2 hu2x hsub2 rfl hRBs2 rfl hCtxRB2 hOB2 hBst2 hdepth2
              refine ⟨s1, t1, ?_, hrepr1, ?_, hRB1, hBst1, hlm1, hrm1⟩
              · rw [hstep]
                exact hloop
              · rw [hseq1, seq_plug, seq_plug]
                simp [Ctx.seqPre, Ctx.seqPost, List.append_assoc]
            · -- Case 2 + 3 (zig-zag): rotate the parent left, recolor,
              -- then rotate the grandparent right
              have hGUb : rootColor GU = Color.black := by
                cases GU with
                | nil => rfl
                | node UL u uc uk UR =>
                  cases uc with
                  | red => exact absurd ⟨UL, u, uk, UR, rfl⟩ hc1
                  | black => rfl
              have hgp_SASB : gp ∉ SA.ids ∧ gp ∉ SB.ids :=
                ⟨fun hm => hgp_sub (by simp [hm]),
                 fun hm => hgp_sub (by simp [hm])⟩
              obtain ⟨⟨hrr_sub, hnSA, hnSB⟩, hbSA, hbSB, hbeqS⟩ := hRB
              -- first rotation: straighten the zig-zag at the parent
              have hupA : reprCtx s.heap s.tree.root
                  (Ctx.goL u2 gp Color.black gk GU) (some par) :=
                ⟨hgpl2, hgpar, hgcol, hgkey, hGU, hu2⟩
              have hsubA0 : reprAt s.heap
                  (Ctx.goL u2 gp Color.black gk GU).holePar (some par)
                  (T.node PL par Color.red pk
                    (T.node SA pnode Color.red sk SB)) := by
                refine ⟨rfl, hppar2, hpcol, hpkey, hPL, ?_⟩
                rw [hparr]
                exact ⟨rfl, hpp, hpc2, hpk2, hSA, hSB⟩
              have hNA : (footprint (Ctx.goL u2 gp Color.black gk GU)
                  (T.node PL par Color.red pk
                    (T.node SA pnode Color.red sk SB))).Nodup := by
                have e : footprint (Ctx.goL u2 gp Color.black gk GU)
                    (T.node PL par Color.red pk
                      (T.node SA pnode Color.red sk SB)) =
                    footprint (Ctx.goR (Ctx.goL u2 gp Color.black gk GU)
                      PL par Color.red pk)
                      (T.node SA pnode Color.red sk SB) := by
                  simp [footprint, Ctx.preIds, Ctx.postIds,
                    List.append_assoc]
                rw [e]
                exact hN
              obtain ⟨sA, hrotA, hctxA, hsubA, hlmA, hrmA, hcellsA⟩ :=
                rotate_left_spec s (Ctx.goL u2 gp Color.black gk GU)
                  PL SA SB par pnode Color.red Color.red pk sk
                  hNA hupA hsubA0
              obtain ⟨hgplA, hgparA, hgcolA, hgkeyA, hGUA, hu2A⟩ := hctxA
              have hsubB0 : reprAt sA.heap u2.holePar (some gp)
                  (T.node (T.node (T.node PL par Color.red pk SA) pnode
                      Color.red sk SB) gp Color.black gk GU) := by
                refine ⟨rfl, hgparA, hgcolA, hgkeyA, ?_, hGUA⟩
                rw [hgplA]
                exact hsubA
              obtain ⟨-, hpA, hcA, hkA, hlA, hrA⟩ := hsubA
              have hpA2 : (sA.heap.get pnode).parent = some gp := hpA
              obtain ⟨hlAx, hparpA, hparcA, hparkA, hPLA, hSAA⟩ := hlA
              have hcomputeB : T.recolor gp Color.red
                  (T.recolor pnode Color.black
                    (T.node (T.node (T.node PL par Color.red pk SA) pnode
                        Color.red sk SB) gp Color.black gk GU)) =
                  T.node (T.node (T.node PL par Color.red pk SA) pnode
                      Color.black sk SB) gp Color.red gk GU := by
                simp [T.recolor, Ne.symm hpnfacts.2.2.1, Ne.symm hpnfacts.1,
                  hpnfacts.2.2.1, hpar_gp,
                  T.recolor_eq_self _ _ _ hpnfacts.2.2.2.1,
                  T.recolor_eq_self _ _ _ hpn_SASB.1,
                  T.recolor_eq_self _ _ _ hpn_SASB.2,
                  T.recolor_eq_self _ _ _ hpnfacts.2.1,
                  T.recolor_eq_self _ _ _ hgp_GU,
                  T.recolor_eq_self _ _ _ hgp_SASB.1,
                  T.recolor_eq_self _ _ _ hgp_SASB.2,
                  T.recolor_eq_self _ _ _ hgp_PL]
              have hsubB : reprAt
                  ((sA.heap.setColor pnode Color.black).setColor gp
                    Color.red) u2.holePar (some gp)
                  (T.node (T.node (T.node PL par Color.red pk SA) pnode
                      Color.black sk SB) gp Color.red gk GU) := by
                have h0 := reprAt_setColor _ _ _ _ gp Color.red
                  (reprAt_setColor _ _ _ _ pnode Color.black hsubB0)
                rw [hcomputeB] at h0
                exact h0
              have hu2B : reprCtx
                  ((sA.heap.setColor pnode Color.black).setColor gp
                    Color.red) sA.tree.root u2 (some gp) := by
                have h0 := reprCtx_setColor _ _ _ _ gp Color.red
                  (reprCtx_setColor _ _ _ _ pnode Color.black hu2A)
                rw [Ctx.recolor_untouched u2 pnode Color.black hpn_u2mem,
                  Ctx.recolor_untouched u2 gp Color.red hgp_u2mem] at h0
                exact h0
              have hNB : (footprint u2
                  (T.node (T.node (T.node PL par Color.red pk SA) pnode
                      Color.black sk SB) gp Color.red gk GU)).Nodup := by
                have e : footprint u2
                    (T.node (T.node (T.node PL par Color.red pk SA) pnode
                        Color.black sk SB) gp Color.red gk GU) =
                    footprint (Ctx.goR (Ctx.goL u2 gp Color.black gk GU)
                      PL par Color.red pk)
                      (T.node SA pnode Color.red sk SB) := by
                  simp [footprint, Ctx.preIds, Ctx.postIds,
                    List.append_assoc]
                rw [e]
                exact hN
              obtain ⟨s5, hrotB, hctx5, hsub5, hlmB, hrmB, hcellsB⟩ :=
                rotate_right_spec
                  ⟨sA.tree, (sA.heap.setColor pnode Color.black).setColor
                    gp Color.red⟩ u2
                  (T.node PL par Color.red pk SA) SB GU gp pnode
                  Color.red Color.black gk sk hNB hu2B hsubB
              have hgrandB : __helper_get_grandparent
                  (sA.heap.setColor pnode Color.black) par = some gp := by
                simp [__helper_get_grandparent, hparpA, hpA2,
                  Ne.symm hpnfacts.1]
              have hc23 : insertCase23 s pnode par false =
                  some (s5, par) := by
                simp [insertCase23, hparr, hparent, hrotA, hparpA,
                  hgrandB, hrotB, Ne.symm hpnfacts.1]
              have hstep : insertRebalanceLoop (fuel+1) s pnode =
                  insertRebalanceLoop fuel s5 par := by
                cases GU with
                | nil =>
                  have hgun : (s.heap.get gp).right = none := hGUroot
                  simp [insertRebalanceLoop, hrt, hparent, hpcol, hgrand,
                    hgpl2, hgun, hc23]
                | node ULx ux ucx ukx URx =>
                  have hucb : ucx = Color.black := hGUb
                  subst hucb
                  have hgun : (s.heap.get gp).right = some ux := hGUroot
                  have hucolx : (s.heap.get ux).color = Color.black :=
                    hGU.2.2.1
                  simp [insertRebalanceLoop, hrt, hparent, hpcol, hgrand,
                    hgpl2, hgun, hucolx, hc23]
              -- re-split the rotated layout at the new loop node
              obtain ⟨-, hp5, hc5, hk5, hl5, hr5⟩ := hsub5
              have hl5root : (s5.heap.get pnode).left = some par :=
                reprAt_rootRef _ _ _ _ hl5
              have hsub_new : reprAt s5.heap (some pnode) (some par)
                  (T.node PL par Color.red pk SA) := by
                rw [← hl5root]
                exact hl5
              have hctx_new : reprCtx s5.heap s5.tree.root
                  (Ctx.goL u2 pnode Color.black sk
                    (T.node SB gp Color.red gk GU)) (some par) :=
                ⟨hl5root, hp5, hc5, hk5, hr5, hctx5⟩
              have hN_new : (footprint
                  (Ctx.goL u2 pnode Color.black sk
                    (T.node SB gp Color.red gk GU))
                  (T.node PL par Color.red pk SA)).Nodup := by
                have e : footprint
                    (Ctx.goL u2 pnode Color.black sk
                      (T.node SB gp Color.red gk GU))
                    (T.node PL par Color.red pk SA) =
                    footprint (Ctx.goR (Ctx.goL u2 gp Color.black gk GU)
                      PL par Color.red pk)
                      (T.node SA pnode Color.red sk SB) := by
                  simp [footprint, Ctx.preIds, Ctx.postIds,
                    List.append_assoc]
                rw [e]
                exact hN
              have hRB_new : RBsub (T.node PL par Color.red pk SA) := by
                refine ⟨⟨fun _ => ⟨hPLb, (hrr_sub rfl).1⟩, hPLrb.1, hnSA⟩,
                  hPLrb.2, hbSA, ?_⟩
                have h1 := hPLbh
                simp [bh] at h1
                omega
              have hCtxRB_new : CtxRB
                  (Ctx.goL u2 pnode Color.black sk
                    (T.node SB gp Color.red gk GU))
                  (bh (T.node PL par Color.red pk SA)) := by
                refine ⟨⟨⟨fun _ => ⟨(hrr_sub rfl).2, hGUb⟩, hnSB, hGUrb.1⟩,
                  ⟨hbSB, hGUrb.2, ?_⟩⟩, ?_, ?_, ?_⟩
                · have h1 := hGUbh
                  simp [bh] at h1 ⊢
                  omega
                · show bh SB + _ = _
                  have h1 := hPLbh
                  simp [bh] at h1 ⊢
                  omega
                · intro hc
                  exact Color.noConfusion hc
                · have h1 : bh (T.node PL par Color.red pk SA) + 1 =
                      bh (T.node SA pnode Color.red sk SB) + 1 := by
                    have h2 := hPLbh
                    simp [bh] at h2 ⊢
                    omega
                  rw [show bh (T.node PL par Color.red pk SA) +
                      bl Color.black =
                      bh (T.node SA pnode Color.red sk SB) + 1 by
                    simpa [bl] using h1]
                  exact hu2RB2
              have hOB_new : (Ctx.goL u2 pnode Color.black sk
                  (T.node SB gp Color.red gk GU)).outerBlack :=
                outerBlack_consL _ _ _ _
                  (outerBlack_dropL _ _ _ _ _
                    (outerBlack_dropR _ _ _ _ _ hOB))
              have hBst_new : BstB none none
                  ((Ctx.goL u2 pnode Color.black sk
                    (T.node SB gp Color.red gk GU)).plug
                    (T.node PL par Color.red pk SA)) := by
                have hBp := (BstB_plug none none u2
                  (T.node (T.node PL par Color.red pk
                      (T.node SA pnode Color.red sk SB)) gp Color.black gk
                    GU)).mp hBst
                obtain ⟨hcb, hLBgp, hUBgp, hBX, hBGU⟩ := hBp
                have hBX2 := rotl_BstB _ _ PL SA SB par pnode
                  Color.red Color.red pk sk hBX
                have hsb2 := rotr_BstB _ _
                  (T.node PL par Color.red pk SA) SB GU gp pnode
                  Color.red Color.black gk sk
                  ⟨hLBgp, hUBgp, hBX2, hBGU⟩
                exact (BstB_plug none none u2 _).mpr ⟨hcb, hsb2⟩
              have hdepth_new : (Ctx.goL u2 pnode Color.black sk
                  (T.node SB gp Color.red gk GU)).depth + 1 ≤ fuel := by
                simp only [Ctx.depth] at hfuel ⊢
                omega
              obtain ⟨s1, t1, hloop, hrepr1, hseq1, hRB1, hBst1, hlm1,
                  hrm1⟩ :=
                ih s5 par
                  (Ctx.goL u2 pnode Color.black sk
                    (T.node SB gp Color.red gk GU))
                  (T.node PL par Color.red pk SA)
                  hN_new hctx_new hsub_new rfl hRB_new rfl hCtxRB_new
                  hOB_new hBst_new hdepth_new
              refine ⟨s1, t1, ?_, hrepr1, ?_, hRB1, hBst1, ?_, ?_⟩
              · rw [hstep]
                exact hloop
              · rw [hseq1, seq_plug, seq_plug]
                simp [Ctx.seqPre, Ctx.seqPost, List.append_assoc]
              · exact hlm1.trans (hlmB.trans hlmA)
              · exact hrm1.trans (hrmB.trans hrmA)
        · -- the parent frame is black: the loop exits with a valid tree
          have hpcb : pc = Color.black := color_black_of_ne_red pc hpcr
          have hcolb : (s.heap.get par).color = Color.black := by
            rw [hpcol, hpcb]
          have hstep : insertRebalanceLoop (fuel+1) s pnode = some s := by
            simp [insertRebalanceLoop, hrt, hparent, hcolb]
          refine ⟨s, (Ctx.goR up PL par pc pk).plug
            (T.node SA pnode Color.red sk SB), hstep, ?_, rfl, ?_, hBst,
            rfl, rfl⟩
          · exact repr_plug_mk s.heap s.tree.root _ _ (some pnode)
              ⟨hparr, hppar, hpcol, hpkey, hPL, hup⟩
              ⟨rfl, hpp, hpc2, hpk2, hSA, hSB⟩
          · exact RBsub_plug _ _ _ ⟨hPLrb, hPLbh, hredc, hupRB⟩ hRB rfl
              (fun _ => hpcb)

/-- __helper_rb_tree_insert_rebalance: runs the fix-up loop when the new
node's parent is red, then blackens the root; returns a tree satisfying
the red-black invariants with the same symmetric-order sequence. -/
theorem insert_rebalance_spec (s : St) (ni : Nat) (ctx : Ctx) (sub : T)
    (fuel : Nat)
    (hN : (footprint ctx sub).Nodup)
    (hctx : reprCtx s.heap s.tree.root ctx (some ni))
    (hsub : reprAt s.heap ctx.holePar (some ni) sub)
    (hroot : sub.rootRef = some ni)
    (hRB : RBsub sub) (hred : rootColor sub = Color.red)
    (hCtxRB : CtxRB ctx (bh sub)) (hOB : ctx.outerBlack)
    (hBst : BstB none none (ctx.plug sub))
    (hct : ctx ≠ Ctx.top)
    (hfuel : ctx.depth + 1 ≤ fuel) :
    ∃ s2 t2, __helper_rb_tree_insert_rebalance fuel s ni = some s2 ∧
      reprAt s2.heap none s2.tree.root t2 ∧
      t2.seq = (ctx.plug sub).seq ∧
      RBsub t2 ∧ rootColor t2 = Color.black ∧ BstB none none t2 ∧
      s2.tree.leftmost = s.tree.leftmost ∧
      s2.tree.rightmost = s.tree.rightmost := by
  cases sub with
  | nil => exact absurd hroot (by simp [T.rootRef])
  | node SA pn0 sc sk SB =>
  obtain rfl : ni = pn0 := (Option.some.inj hroot).symm
  have hscr : sc = Color.red := hred
  subst hscr
  obtain ⟨-, hpp, hpc2, hpk2, hSA, hSB⟩ := hsub
  cases ctx with
  | top => exact absurd rfl hct
  | goL up par pc pk PR =>
    obtain ⟨hparl, hppar, hpcol, hpkey, hPR, hup⟩ := hctx
    have hparent : (s.heap.get ni).parent = some par := hpp
    by_cases hpcr : pc = Color.red
    · -- red parent: run the loop, then blacken the root
      have hcolr : (s.heap.get par).color = Color.red := by
        rw [hpcol, hpcr]
      obtain ⟨s1, t1, hloop, hrepr1, hseq1, hRB1, hBst1, hlm1, hrm1⟩ :=
        insertRebalanceLoop_spec fuel s ni (Ctx.goL up par pc pk PR)
          (T.node SA ni Color.red sk SB) hN
          ⟨hparl, hppar, hpcol, hpkey, hPR, hup⟩
          ⟨rfl, hpp, hpc2, hpk2, hSA, hSB⟩ rfl hRB rfl hCtxRB hOB hBst
          hfuel
      have hids : t1.ids = ((Ctx.goL up par pc pk PR).plug
          (T.node SA ni Color.red sk SB)).ids := by
        rw [T.ids_eq_seq, hseq1, ← T.ids_eq_seq]
      have ht1N : t1.ids.Nodup := by
        rw [hids, ids_plug]
        exact hN
      cases t1 with
      | nil =>
        have : ((Ctx.goL up par pc pk PR).plug
            (T.node SA ni Color.red sk SB)).seq = [] := by
          rw [← hseq1]
          rfl
        rw [seq_plug] at this
        simp at this
      | node L1 j c1 k1 R1 =>
        obtain ⟨hx1, hpar1, hcol1, hkey1, hL1, hR1⟩ := hrepr1
        have hj_L1 : j ∉ L1.ids ∧ j ∉ R1.ids := by
          have h2 : (L1.ids ++ [j] ++ R1.ids).Nodup := by
            simpa using ht1N
          obtain ⟨-, -, -, hf, hmid⟩ := nodup_append_triple h2
          exact ⟨fun hm => (hf j hm).1 (by simp),
            fun hm => hmid j (by simp) hm⟩
        have heq : __helper_rb_tree_insert_rebalance fuel s ni =
            some ⟨s1.tree, s1.heap.setColor j Color.black⟩ := by
          simp [__helper_rb_tree_insert_rebalance, hparent, hcolr, hloop,
            hx1]
        refine ⟨⟨s1.tree, s1.heap.setColor j Color.black⟩,
          T.node L1 j Color.black k1 R1, heq, ?_, ?_, ?_, rfl, ?_,
          hlm1, hrm1⟩
        · refine ⟨hx1, ?_, ?_, ?_, ?_, ?_⟩ <;>
            simp only [Heap.get_setColor, if_pos rfl]
          · exact hpar1
          · rfl
          · exact hkey1
          · exact reprAt_congr s1.heap _ L1
              (fun a ha => by
                have : a ≠ j := fun hEq => hj_L1.1 (hEq ▸ ha)
                simp [this]) _ _ hL1
          · exact reprAt_congr s1.heap _ R1
              (fun a ha => by
                have : a ≠ j := fun hEq => hj_L1.2 (hEq ▸ ha)
                simp [this]) _ _ hR1
        · rw [← hseq1]
          simp
        · obtain ⟨⟨hrr1, hnl1, hnr1⟩, hbok1⟩ := hRB1
          exact ⟨⟨fun hc => Color.noConfusion hc, hnl1, hnr1⟩, hbok1⟩
        · exact hBst1
    · -- black parent: no fix-up needed
      have hpcb : pc = Color.black := color_black_of_ne_red pc hpcr
      have hcolb : (s.heap.get par).color = Color.black := by
        rw [hpcol, hpcb]
      have heq : __helper_rb_tree_insert_rebalance fuel s ni = some s := by
        simp [__helper_rb_tree_insert_rebalance, hparent, hcolb]
      refine ⟨s, (Ctx.goL up par pc pk PR).plug
        (T.node SA ni Color.red sk SB), heq, ?_, rfl, ?_, ?_, hBst,
        rfl, rfl⟩
      · exact repr_plug_mk s.heap s.tree.root _ _ (some ni)
          ⟨hparl, hppar, hpcol, hpkey, hPR, hup⟩
          ⟨rfl, hpp, hpc2, hpk2, hSA, hSB⟩
      · exact RBsub_plug _ _ _ hCtxRB hRB rfl (fun _ => hpcb)
      · exact rootColor_plug_black _ _ hct hOB
  | goR up PL par pc pk =>
    obtain ⟨hparr, hppar, hpcol, hpkey, hPL, hup⟩ := hctx
    have hparent : (s.heap.get ni).parent = some par := hpp
    by_cases hpcr : pc = Color.red
    · have hcolr : (s.heap.get par).color = Color.red := by
        rw [hpcol, hpcr]
      obtain ⟨s1, t1, hloop, hrepr1, hseq1, hRB1, hBst1, hlm1, hrm1⟩ :=
        insertRebalanceLoop_spec fuel s ni (Ctx.goR up PL par pc pk)
          (T.node SA ni Color.red sk SB) hN
          ⟨hparr, hppar, hpcol, hpkey, hPL, hup⟩
          ⟨rfl, hpp, hpc2, hpk2, hSA, hSB⟩ rfl hRB rfl hCtxRB hOB hBst
          hfuel
      have hids : t1.ids = ((Ctx.goR up PL par pc pk).plug
          (T.node SA ni Color.red sk SB)).ids := by
        rw [T.ids_eq_seq, hseq1, ← T.ids_eq_seq]
      have ht1N : t1.ids.Nodup := by
        rw [hids, ids_plug]
        exact hN
      cases t1 with
      | nil =>
        have : ((Ctx.goR up PL par pc pk).plug
            (T.node SA ni Color.red sk SB)).seq = [] := by
          rw [← hseq1]
          rfl
        rw [seq_plug] at this
        simp at this
      | node L1 j c1 k1 R1 =>
        obtain ⟨hx1, hpar1, hcol1, hkey1, hL1, hR1⟩ := hrepr1
        have hj_L1 : j ∉ L1.ids ∧ j ∉ R1.ids := by
          have h2 : (L1.ids ++ [j] ++ R1.ids).Nodup := by
            simpa using ht1N
          obtain ⟨-, -, -, hf, hmid⟩ := nodup_append_triple h2
          exact ⟨fun hm => (hf j hm).1 (by simp),
            fun hm => hmid j (by simp) hm⟩
        have heq : __helper_rb_tree_insert_rebalance fuel s ni =
            some ⟨s1.tree, s1.heap.setColor j Color.black⟩ := by
          simp [__helper_rb_tree_insert_rebalance, hparent, hcolr, hloop,
            hx1]
        refine ⟨⟨s1.tree, s1.heap.setColor j Color.black⟩,
          T.node L1 j Color.black k1 R1, heq, ?_, ?_, ?_, rfl, ?_,
          hlm1, hrm1⟩
        · refine ⟨hx1, ?_, ?_, ?_, ?_, ?_⟩ <;>
            simp only [Heap.get_setColor, if_pos rfl]
          · exact hpar1
          · rfl
          · exact hkey1
          · exact reprAt_congr s1.heap _ L1
              (fun a ha => by
                have : a ≠ j := fun hEq => hj_L1.1 (hEq ▸ ha)
                simp [this]) _ _ hL1
          · exact reprAt_congr s1.heap _ R1
              (fun a ha => by
                have : a ≠ j := fun hEq => hj_L1.2 (hEq ▸ ha)
                simp [this]) _ _ hR1
        · rw [← hseq1]
          simp
        · obtain ⟨⟨hrr1, hnl1, hnr1⟩, hbok1⟩ := hRB1
          exact ⟨⟨fun hc => Color.noConfusion hc, hnl1, hnr1⟩, hbok1⟩
        · exact hBst1
    · have hpcb : pc = Color.black := color_black_of_ne_red pc hpcr
      have hcolb : (s.heap.get par).color = Color.black := by
        rw [hpcol, hpcb]
      have heq : __helper_rb_tree_insert_rebalance fuel s ni = some s := by
        simp [__helper_rb_tree_insert_rebalance, hparent, hcolb]
      refine ⟨s, (Ctx.goR up PL par pc pk).plug
        (T.node SA ni Color.red sk SB), heq, ?_, rfl, ?_, ?_, hBst,
        rfl, rfl⟩
      · exact repr_plug_mk s.heap s.tree.root _ _ (some ni)
          ⟨hparr, hppar, hpcol, hpkey, hPL, hup⟩
          ⟨rfl, hpp, hpc2, hpk2, hSA, hSB⟩
      · exact RBsub_plug _ _ _ hCtxRB hRB rfl (fun _ => hpcb)
      · exact rootColor_plug_black _ _ hct hOB

/-- rb_tree_insert on a well-formed red-black tree, a fresh node
reference and a fresh key: succeeds and inserts (ni, key) at its ordered
position, preserving the red-black invariants; the rightmost cache is
set to the new node exactly when the descent went right at every step
(the new key exceeds every stored key), and the leftmost cache is left
untouched. -/
theorem rb_tree_insert_spec (s : St) (key : Int) (ni : Nat) (fuel : Nat)
    (t : T)
    (hrepr : reprAt s.heap none s.tree.root t)
    (hN : t.ids.Nodup)
    (hBst : Bst t)
    (hRB : RBValid t)
    (hni : ni ∉ t.ids)
    (hk : key ∉ t.keys)
    (hfuel : t.size + 1 ≤ fuel) :
    ∃ s2 t2 pre post,
      rb_tree_insert s key ni fuel = some (InsRes.ok, s2) ∧
      reprAt s2.heap none s2.tree.root t2 ∧
      t2.ids.Nodup ∧ Bst t2 ∧ RBValid t2 ∧
      t.seq = pre ++ post ∧
      t2.seq = pre ++ (ni, key) :: post ∧
      (∀ p ∈ pre, p.2 < key) ∧ (∀ p ∈ post, key < p.2) ∧
      s2.tree.leftmost = s.tree.leftmost ∧
      (post = [] → s2.tree.rightmost = some ni) ∧
      (post ≠ [] → s2.tree.rightmost = s.tree.rightmost) := by
  cases hroot : s.tree.root with
  | none =>
    have ht : t = T.nil := by
      cases t with
      | nil => rfl
      | node l i c k r =>
        obtain ⟨hx, -⟩ := hrepr
        rw [hroot] at hx
        cases hx
    subst ht
    refine ⟨⟨{ s.tree with root := some ni, rightmost := some ni },
      (s.heap.upd ni ⟨none, none, none, key,
        (s.heap.get ni).color⟩).setColor ni Color.black⟩,
      T.node T.nil ni Color.black key T.nil, [], [],
      ?_, ?_, by simp, ⟨trivial, trivial, trivial, trivial⟩,
      ⟨⟨⟨fun h => Color.noConfusion h, trivial, trivial⟩,
        ⟨trivial, trivial, rfl⟩⟩, rfl⟩,
      rfl, rfl,
      fun p hp => absurd hp (List.not_mem_nil p),
      fun p hp => absurd hp (List.not_mem_nil p),
      rfl, fun _ => rfl, fun hne => absurd rfl hne⟩
    · simp [rb_tree_insert, hroot]
    · refine ⟨rfl, ?_, ?_, ?_, ?_, ?_⟩ <;> simp [Heap.get_upd]
  | some r =>
    have htne : t ≠ T.nil := by
      intro h
      subst h
      rw [hroot] at hrepr
      simp at hrepr
    obtain ⟨h1, hh1⟩ : ∃ h1 : Heap, h1 =
        (s.heap.upd ni ⟨none, none, none, key,
          (s.heap.get ni).color⟩).setColor ni Color.red := ⟨_, rfl⟩
    have hc_ni : h1.get ni = ⟨none, none, none, key, Color.red⟩ := by
      rw [hh1]
      simp [Heap.get_upd]
    have hcells : ∀ j ∈ t.ids, h1.get j = s.heap.get j := by
      intro j hj
      have hjni : j ≠ ni := fun hEq => hni (hEq ▸ hj)
      rw [hh1]
      simp [Heap.get_upd, hjni]
    have hrepr1 : reprAt h1 none (some r) t :=
      reprAt_congr s.heap h1 t hcells none (some r) (hroot ▸ hrepr)
    have hkey_ni : (h1.get ni).key = key := by rw [hc_ni]
    obtain ⟨ctx, h2, nd, rm2, hloopEq, hplug, hrmEq, hLB0, hUB0, hdisj⟩ :=
      insertLoop_spec h1 ni t none none fuel none r true hrepr1 hBst
        (by
          intro k2 hk2 hEq
          rw [hkey_ni] at hEq
          exact hk (hEq ▸ hk2))
        trivial trivial (by omega)
    rw [hkey_ni] at hLB0 hUB0
    simp only [Bool.true_and] at hrmEq
    have hids_t : ctx.preIds ++ ctx.postIds = t.ids := by
      rw [← hplug, ids_plug]
      simp [footprint]
    have hNctx : (ctx.preIds ++ ctx.postIds).Nodup := hids_t.symm ▸ hN
    have hni_ctx : ni ∉ ctx.preIds ++ ctx.postIds := hids_t.symm ▸ hni
    have hN2 : (footprint ctx
        (T.node T.nil ni Color.red key T.nil)).Nodup := by
      have h3 : (ni :: (ctx.preIds ++ ctx.postIds)).Nodup :=
        List.nodup_cons.mpr ⟨hni_ctx, hNctx⟩
      simpa [footprint] using List.nodup_middle.mpr h3
    have hct : ctx ≠ Ctx.top := by
      intro hEq
      rw [hEq] at hplug
      exact htne hplug.symm
    have hctx1 : reprCtx h1 (some r) ctx none :=
      (repr_plug_split h1 (some r) ctx T.nil
        (by rw [hplug]; exact hrepr1)).1
    have hRBplug : RBsub (ctx.plug T.nil) := by
      rw [hplug]
      exact hRB.1
    have hCtxRB0 : CtxRB ctx 0 := (CtxRB_of_plug ctx T.nil hRBplug).1
    have hOB : ctx.outerBlack := by
      apply outerBlack_of_plug _ T.nil
      rw [hplug]
      exact hRB.2
    have hBplug := (BstB_plug none none ctx T.nil).mp
      (by rw [hplug]; exact hBst)
    have hBstM : BstB none none (ctx.plug
        (T.node T.nil ni Color.red key T.nil)) := by
      rw [BstB_plug]
      exact ⟨hBplug.1, hLB0, hUB0, trivial, trivial⟩
    have hdepth : ctx.depth + 1 ≤ fuel := by
      have h4 := depth_size_plug ctx T.nil
      rw [hplug] at h4
      simp [T.size] at h4
      omega
    have hseqt : t.seq = ctx.seqPre ++ ctx.seqPost := by
      rw [← hplug, seq_plug]
      simp
    have hpair := bstB_seq_pairwise _ none none hBstM
    rw [seq_plug] at hpair
    have h5 : List.Pairwise (fun p q : Nat × Int => p.2 < q.2)
        (ctx.seqPre ++ ((ni, key) :: ctx.seqPost)) := by
      simpa using hpair
    have hpre_bound : ∀ p ∈ ctx.seqPre, p.2 < key := by
      intro p hp
      exact (List.pairwise_append.mp h5).2.2 p hp (ni, key) (by simp)
    have hpost_bound : ∀ p ∈ ctx.seqPost, key < p.2 := by
      intro p hp
      exact (List.pairwise_cons.mp
        (List.pairwise_append.mp h5).2.1).1 p hp
    rcases hdisj with ⟨up2, c2, k2, r2, hctxEq, hh2⟩ |
      ⟨up2, l2, c2, k2, hctxEq, hh2⟩
    · -- the new node was linked as a left child
      subst hctxEq
      subst hh2
      obtain ⟨hx0, hp0, hc0, hk0, hr0, hup0⟩ := hctx1
      have hNshape : (up2.preIds ++ [nd] ++
          (r2.ids ++ up2.postIds)).Nodup := by
        simpa [Ctx.preIds, Ctx.postIds] using hNctx
      obtain ⟨-, -, -, hfpre, hfnd⟩ := nodup_append_triple hNshape
      have hnd_r2 : nd ∉ r2.ids :=
        fun hm => hfnd nd (by simp) (by simp [hm])
      have hnd_up2post : nd ∉ up2.postIds :=
        fun hm => hfnd nd (by simp) (by simp [hm])
      have hni4 : ni ∉ up2.preIds ∧ ni ≠ nd ∧ ni ∉ r2.ids ∧
          ni ∉ up2.postIds := by
        simp only [Ctx.preIds, Ctx.postIds, List.mem_append,
          List.mem_cons, not_or] at hni_ctx
        tauto
      have hndni : nd ≠ ni := Ne.symm hni4.2.1
      have hg_nd : ((h1.setLeft nd (some ni)).setParent ni
          (some nd)).get nd = { h1.get nd with left := some ni } := by
        simp [hndni]
      have hg_ni : ((h1.setLeft nd (some ni)).setParent ni
          (some nd)).get ni = ⟨none, none, some nd, key, Color.red⟩ := by
        simp [hni4.2.1, hc_ni]
      have hsubM : reprAt ((h1.setLeft nd (some ni)).setParent ni
          (some nd)) (Ctx.goL up2 nd c2 k2 r2).holePar (some ni)
          (T.node T.nil ni Color.red key T.nil) := by
        refine ⟨rfl, ?_, ?_, ?_, ?_, ?_⟩ <;>
          simp [hni4.2.1, hc_ni, Ctx.holePar]
      have hctxM : reprCtx ((h1.setLeft nd (some ni)).setParent ni
          (some nd)) (some r) (Ctx.goL up2 nd c2 k2 r2) (some ni) := by
        refine ⟨by simp [hg_nd], by simp [hg_nd, hp0],
          by simp [hg_nd, hc0], by simp [hg_nd, hk0], ?_, ?_⟩
        · rw [show (((h1.setLeft nd (some ni)).setParent ni
              (some nd)).get nd).right = (h1.get nd).right by
            simp [hg_nd]]
          refine reprAt_congr h1 _ r2 ?_ _ _ hr0
          intro j hj
          have hjnd : j ≠ nd := fun hEq => hnd_r2 (hEq ▸ hj)
          have hjni : j ≠ ni := fun hEq => hni4.2.2.1 (hEq ▸ hj)
          simp [hjnd, hjni]
        · refine reprCtx_congr h1 _ (some r) up2 ?_ (some nd) hup0
          intro j hj
          simp only [List.mem_append] at hj
          have hjnd : j ≠ nd := by
            rcases hj with hj | hj
            · exact fun hEq => (hfpre j hj).1 (by simp [hEq])
            · exact fun hEq => hnd_up2post (hEq ▸ hj)
          have hjni : j ≠ ni := by
            rcases hj with hj | hj
            · exact fun hEq => hni4.1 (hEq ▸ hj)
            · exact fun hEq => hni4.2.2.2 (hEq ▸ hj)
          simp [hjnd, hjni]
      cases rm2 with
      | true =>
        obtain ⟨s2, t2, hrebEq, hrepr2, hseq2, hRB2, hrc2, hBst2, hlm2,
            hrm2c⟩ :=
          insert_rebalance_spec
            ⟨{ s.tree with rightmost := some ni },
              (h1.setLeft nd (some ni)).setParent ni (some nd)⟩ ni
            (Ctx.goL up2 nd c2 k2 r2)
            (T.node T.nil ni Color.red key T.nil) fuel hN2
            (hroot.symm ▸ hctxM) hsubM rfl
            ⟨⟨fun _ => ⟨rfl, rfl⟩, trivial, trivial⟩,
              ⟨trivial, trivial, rfl⟩⟩ rfl hCtxRB0 hOB hBstM hct hdepth
        have hrebEq2 : __helper_rb_tree_insert_rebalance fuel
            ⟨⟨some r, s.tree.leftmost, some ni⟩,
              (h1.setLeft nd (some ni)).setParent ni (some nd)⟩ ni =
            some s2 := by
          rw [← hroot]
          exact hrebEq
        have heqFinal : rb_tree_insert s key ni fuel =
            some (InsRes.ok, s2) := by
          simp [rb_tree_insert, hroot, ← hh1, hloopEq, hrebEq2]
        have hN2' : t2.ids.Nodup := by
          rw [T.ids_eq_seq, hseq2, ← T.ids_eq_seq, ids_plug]
          exact hN2
        exact ⟨s2, t2, (Ctx.goL up2 nd c2 k2 r2).seqPre,
          (Ctx.goL up2 nd c2 k2 r2).seqPost, heqFinal, hrepr2, hN2',
          hBst2, ⟨hRB2, hrc2⟩, hseqt,
          by rw [hseq2, seq_plug]; simp,
          hpre_bound, hpost_bound, hlm2, fun _ => hrm2c,
          fun hne => absurd
            ((allR_iff_seqPost_nil _).mp hrmEq.symm) hne⟩
      | false =>
        obtain ⟨s2, t2, hrebEq, hrepr2, hseq2, hRB2, hrc2, hBst2, hlm2,
            hrm2c⟩ :=
          insert_rebalance_spec
            ⟨s.tree, (h1.setLeft nd (some ni)).setParent ni (some nd)⟩
            ni (Ctx.goL up2 nd c2 k2 r2)
            (T.node T.nil ni Color.red key T.nil) fuel hN2
            (hroot.symm ▸ hctxM) hsubM rfl
            ⟨⟨fun _ => ⟨rfl, rfl⟩, trivial, trivial⟩,
              ⟨trivial, trivial, rfl⟩⟩ rfl hCtxRB0 hOB hBstM hct hdepth
        have heqFinal : rb_tree_insert s key ni fuel =
            some (InsRes.ok, s2) := by
          simp [rb_tree_insert, hroot, ← hh1, hloopEq, hrebEq]
        have hN2' : t2.ids.Nodup := by
          rw [T.ids_eq_seq, hseq2, ← T.ids_eq_seq, ids_plug]
          exact hN2
        exact ⟨s2, t2, (Ctx.goL up2 nd c2 k2 r2).seqPre,
          (Ctx.goL up2 nd c2 k2 r2).seqPost, heqFinal, hrepr2, hN2',
          hBst2, ⟨hRB2, hrc2⟩, hseqt,
          by rw [hseq2, seq_plug]; simp,
          hpre_bound, hpost_bound, hlm2,
          fun hpe => absurd (hrmEq.trans
            ((allR_iff_seqPost_nil _).mpr hpe)) (by simp),
          fun _ => hrm2c⟩
    · -- the new node was linked as a right child
      subst hctxEq
      subst hh2
      obtain ⟨hx0, hp0, hc0, hk0, hl0, hup0⟩ := hctx1
      have hNshape : ((up2.preIds ++ l2.ids) ++ [nd] ++
          up2.postIds).Nodup := by
        simpa [Ctx.preIds, Ctx.postIds, List.append_assoc] using hNctx
      obtain ⟨-, -, -, hfpre, hfnd⟩ := nodup_append_triple hNshape
      have hnd_l2 : nd ∉ l2.ids := fun hm =>
        (hfpre nd (by simp [hm])).1 (by simp)
      have hnd_up2pre : nd ∉ up2.preIds := fun hm =>
        (hfpre nd (by simp [hm])).1 (by simp)
      have hnd_up2post : nd ∉ up2.postIds :=
        fun hm => hfnd nd (by simp) hm
      have hni4 : ni ∉ up2.preIds ∧ ni ∉ l2.ids ∧ ni ≠ nd ∧
          ni ∉ up2.postIds := by
        simp only [Ctx.preIds, Ctx.postIds, List.mem_append,
          List.mem_cons, not_or] at hni_ctx
        tauto
      have hndni : nd ≠ ni := Ne.symm hni4.2.2.1
      have hg_nd : ((h1.setRight nd (some ni)).setParent ni
          (some nd)).get nd = { h1.get nd with right := some ni } := by
        simp [hndni]
      have hg_ni : ((h1.setRight nd (some ni)).setParent ni
          (some nd)).get ni = ⟨none, none, some nd, key, Color.red⟩ := by
        simp [hni4.2.2.1, hc_ni]
      have hsubM : reprAt ((h1.setRight nd (some ni)).setParent ni
          (some nd)) (Ctx.goR up2 l2 nd c2 k2).holePar (some ni)
          (T.node T.nil ni Color.red key T.nil) := by
        refine ⟨rfl, ?_, ?_, ?_, ?_, ?_⟩ <;>
          simp [hni4.2.2.1, hc_ni, Ctx.holePar]
      have hctxM : reprCtx ((h1.setRight nd (some ni)).setParent ni
          (some nd)) (some r) (Ctx.goR up2 l2 nd c2 k2) (some ni) := by
        refine ⟨by simp [hg_nd], by simp [hg_nd, hp0],
          by simp [hg_nd, hc0], by simp [hg_nd, hk0], ?_, ?_⟩
        · rw [show (((h1.setRight nd (some ni)).setParent ni
              (some nd)).get nd).left = (h1.get nd).left by
            simp [hg_nd]]
          refine reprAt_congr h1 _ l2 ?_ _ _ hl0
          intro j hj
          have hjnd : j ≠ nd := fun hEq => hnd_l2 (hEq ▸ hj)
          have hjni : j ≠ ni := fun hEq => hni4.2.1 (hEq ▸ hj)
          simp [hjnd, hjni]
        · refine reprCtx_congr h1 _ (some r) up2 ?_ (some nd) hup0
          intro j hj
          simp only [List.mem_append] at hj
          have hjnd : j ≠ nd := by
            rcases hj with hj | hj
            · exact fun hEq => hnd_up2pre (hEq ▸ hj)
            · exact fun hEq => hnd_up2post (hEq ▸ hj)
          have hjni : j ≠ ni := by
            rcases hj with hj | hj
            · exact fun hEq => hni4.1 (hEq ▸ hj)
            · exact fun hEq => hni4.2.2.2 (hEq ▸ hj)
          simp [hjnd, hjni]
      cases rm2 with
      | true =>
        obtain ⟨s2, t2, hrebEq, hrepr2, hseq2, hRB2, hrc2, hBst2, hlm2,
            hrm2c⟩ :=
          insert_rebalance_spec
            ⟨{ s.tree with rightmost := some ni },
              (h1.setRight nd (some ni)).setParent ni (some nd)⟩ ni
            (Ctx.goR up2 l2 nd c2 k2)
            (T.node T.nil ni Color.red key T.nil) fuel hN2
            (hroot.symm ▸ hctxM) hsubM rfl
            ⟨⟨fun _ => ⟨rfl, rfl⟩, trivial, trivial⟩,
              ⟨trivial, trivial, rfl⟩⟩ rfl hCtxRB0 hOB hBstM hct hdepth
        have hrebEq2 : __helper_rb_tree_insert_rebalance fuel
            ⟨⟨some r, s.tree.leftmost, some ni⟩,
              (h1.setRight nd (some ni)).setParent ni (some nd)⟩ ni =
            some s2 := by
          rw [← hroot]
          exact hrebEq
        have heqFinal : rb_tree_insert s key ni fuel =
            some (InsRes.ok, s2) := by
          simp [rb_tree_insert, hroot, ← hh1, hloopEq, hrebEq2]
        have hN2' : t2.ids.Nodup := by
          rw [T.ids_eq_seq, hseq2, ← T.ids_eq_seq, ids_plug]
          exact hN2
        exact ⟨s2, t2, (Ctx.goR up2 l2 nd c2 k2).seqPre,
          (Ctx.goR up2 l2 nd c2 k2).seqPost, heqFinal, hrepr2, hN2',
          hBst2, ⟨hRB2, hrc2⟩, hseqt,
          by rw [hseq2, seq_plug]; simp,
          hpre_bound, hpost_bound, hlm2, fun _ => hrm2c,
          fun hne => absurd
            ((allR_iff_seqPost_nil _).mp hrmEq.symm) hne⟩
      | false =>
        obtain ⟨s2, t2, hrebEq, hrepr2, hseq2, hRB2, hrc2, hBst2, hlm2,
            hrm2c⟩ :=
          insert_rebalance_spec
            ⟨s.tree, (h1.setRight nd (some ni)).setParent ni (some nd)⟩
            ni (Ctx.goR up2 l2 nd c2 k2)
            (T.node T.nil ni Color.red key T.nil) fuel hN2
            (hroot.symm ▸ hctxM) hsubM rfl
            ⟨⟨fun _ => ⟨rfl, rfl⟩, trivial, trivial⟩,
              ⟨trivial, trivial, rfl⟩⟩ rfl hCtxRB0 hOB hBstM hct hdepth
        have heqFinal : rb_tree_insert s key ni fuel =
            some (InsRes.ok, s2) := by
          simp [rb_tree_insert, hroot, ← hh1, hloopEq, hrebEq]
        have hN2' : t2.ids.Nodup := by
          rw [T.ids_eq_seq, hseq2, ← T.ids_eq_seq, ids_plug]
          exact hN2
        exact ⟨s2, t2, (Ctx.goR up2 l2 nd c2 k2).seqPre,
          (Ctx.goR up2 l2 nd c2 k2).seqPost, heqFinal, hrepr2, hN2',
          hBst2, ⟨hRB2, hrc2⟩, hseqt,
          by rw [hseq2, seq_plug]; simp,
          hpre_bound, hpost_bound, hlm2,
          fun hpe => absurd (hrmEq.trans
            ((allR_iff_seqPost_nil _).mpr hpe)) (by simp),
          fun _ => hrm2c⟩

/-- Invariant propagation for insertSeq: from a well-formed red-black
state, inserting fresh pairwise-distinct keys at fresh references keeps
every prefix of the run well formed. -/
theorem insertSeq_rb_all (fuel : Nat) :
    ∀ (ps : List (Int × Nat)) (s : St) (t : T),
      reprAt s.heap none s.tree.root t →
      t.ids.Nodup → Bst t → RBValid t →
      (∀ p ∈ ps, p.2 ∉ t.ids) →
      (∀ p ∈ ps, p.1 ∉ t.keys) →
      (ps.map Prod.snd).Nodup →
      (ps.map Prod.fst).Nodup →
      t.size + ps.length + 1 ≤ fuel →
      ∀ n, ∃ s2 t2, insertSeq fuel s (ps.take n) = some s2 ∧
        reprAt s2.heap none s2.tree.root t2 ∧ t2.ids.Nodup ∧
        Bst t2 ∧ RBValid t2 ∧
        t2.seq.Perm (t.seq ++ (ps.take n).map (fun p => (p.2, p.1))) := by
  intro ps
  induction ps with
  | nil =>
    intro s t h1 h2 h3 h4 _ _ _ _ _ n
    refine ⟨s, t, by simp [insertSeq], h1, h2, h3, h4, by simp⟩
  | cons p rest ih =>
    obtain ⟨k, ni⟩ := p
    intro s t h1 h2 h3 h4 hrefs hkeys hrN hkN hfuel n
    cases n with
    | zero =>
      exact ⟨s, t, by simp [insertSeq], h1, h2, h3, h4, by simp⟩
    | succ m =>
      have hni : ni ∉ t.ids := hrefs (k, ni) (by simp)
      have hkf : k ∉ t.keys := hkeys (k, ni) (by simp)
      obtain ⟨s2, t2, pre, post, heq, hrep2, hN2, hBst2, hRB2, hts,
          ht2s, hpreB, hpostB, hlm, hrm1, hrm2⟩ :=
        rb_tree_insert_spec s k ni fuel t h1 h2 h3 h4 hni hkf (by omega)
      have hperm2 : t2.seq.Perm ((ni, k) :: t.seq) := by
        rw [ht2s, hts]
        exact List.perm_middle
      have hsz2 : t2.size = t.size + 1 := by
        rw [T.size_eq_seq_length, T.size_eq_seq_length, ht2s, hts]
        simp [Nat.add_assoc]
      have hidsPerm : t2.ids.Perm (ni :: t.ids) := by
        rw [T.ids_eq_seq t2, T.ids_eq_seq t]
        exact hperm2.map Prod.fst
      have hkeysPerm : t2.keys.Perm (k :: t.keys) := by
        have := hperm2.map Prod.snd
        simpa [T.keys] using this
      have hrN2 : ni ∉ rest.map Prod.snd ∧ (rest.map Prod.snd).Nodup := by
        simpa using hrN
      have hkN2 : k ∉ rest.map Prod.fst ∧ (rest.map Prod.fst).Nodup := by
        simpa using hkN
      obtain ⟨s3, t3, heq3, hrep3, hN3, hBst3, hRB3, hperm3⟩ :=
        ih s2 t2 hrep2 hN2 hBst2 hRB2
          (fun p hp => by
            intro hm
            rcases List.mem_cons.mp (hidsPerm.mem_iff.mp hm) with hq | hq
            · exact hrN2.1 (hq ▸ List.mem_map_of_mem Prod.snd hp)
            · exact hrefs p (List.mem_cons_of_mem _ hp) hq)
          (fun p hp => by
            intro hm
            rcases List.mem_cons.mp (hkeysPerm.mem_iff.mp hm) with hq | hq
            · exact hkN2.1 (hq ▸ List.mem_map_of_mem Prod.fst hp)
            · exact hkeys p (List.mem_cons_of_mem _ hp) hq)
          hrN2.2 hkN2.2
          (by simp only [List.length_cons] at hfuel; omega) m
      refine ⟨s3, t3, ?_, hrep3, hN3, hBst3, hRB3, ?_⟩
      · simp only [List.take_succ_cons]
        simp [insertSeq, heq, heq3]
      · have h7 : t3.seq.Perm (((ni, k) :: t.seq) ++
            (rest.take m).map (fun p => (p.2, p.1))) :=
          hperm3.trans (hperm2.append_right _)
        simp only [List.take_succ_cons, List.map_cons]
        exact h7.trans List.perm_middle.symm

/-- C1: inserting any sequence of pairwise-distinct keys at
pairwise-distinct node references into an empty tree succeeds, and
after every insertion the tree laid out in the heap satisfies all four
red-black invariants: binary-search order, a black root, no red node
with a red child, and an equal number of black nodes on every path from
a node to a descendant empty slot. -/
theorem insert_sequence_rb_invariants (s0 : St) (ps : List (Int × Nat))
    (fuel : Nat)
    (hroot : s0.tree.root = none)
    (hrefs : (ps.map Prod.snd).Nodup)
    (hkeys : (ps.map Prod.fst).Nodup)
    (hfuel : ps.length + 1 ≤ fuel) :
    ∀ n, ∃ s2 t2, insertSeq fuel s0 (ps.take n) = some s2 ∧
      reprAt s2.heap none s2.tree.root t2 ∧
      t2.seq.Perm ((ps.take n).map (fun p => (p.2, p.1))) ∧
      Bst t2 ∧ RBValid t2 := by
  intro n
  obtain ⟨s2, t2, heq, hrep, hN2, hBst2, hRB2, hperm⟩ :=
    insertSeq_rb_all fuel ps s0 T.nil hroot (by simp) trivial
      ⟨⟨trivial, trivial⟩, rfl⟩ (fun p _ => by simp)
      (fun p _ => by simp [T.keys]) hrefs hkeys
      (by simpa [T.size] using hfuel) n
  exact ⟨s2, t2, heq, hrep, by simpa using hperm, hBst2, hRB2⟩

/-- Witness for C1 at the spec's concrete scenario keys 10, 20, 30. -/
theorem insert_sequence_rb_invariants_witness :
    emptySt.tree.root = none ∧
    (([(10, 1), (20, 2), (30, 3)] : List (Int × Nat)).map
      Prod.snd).Nodup ∧
    (([(10, 1), (20, 2), (30, 3)] : List (Int × Nat)).map
      Prod.fst).Nodup ∧
    ([(10, 1), (20, 2), (30, 3)] : List (Int × Nat)).length + 1 ≤ 10 ∧
    ∀ n, ∃ s2 t2,
      insertSeq 10 emptySt (([(10, 1), (20, 2), (30, 3)] :
        List (Int × Nat)).take n) = some s2 ∧
      reprAt s2.heap none s2.tree.root t2 ∧
      t2.seq.Perm ((([(10, 1), (20, 2), (30, 3)] :
        List (Int × Nat)).take n).map (fun p => (p.2, p.1))) ∧
      Bst t2 ∧ RBValid t2 :=
  ⟨rfl, by decide, by decide, by decide,
    insert_sequence_rb_invariants emptySt
      [(10, 1), (20, 2), (30, 3)] 10 rfl (by decide) (by decide)
      (by decide)⟩

/-- C6: a successfully inserted key is found again: after
rb_tree_insert links node ni with key, rb_tree_find on the resulting
state with that key returns exactly the reference ni. -/
theorem insert_find_roundtrip (s : St) (key : Int) (ni : Nat)
    (fuel : Nat) (t : T)
    (hrepr : reprAt s.heap none s.tree.root t)
    (hN : t.ids.Nodup) (hBst : Bst t) (hRB : RBValid t)
    (hni : ni ∉ t.ids) (hk : key ∉ t.keys)
    (hfuel : t.size + 1 ≤ fuel) :
    ∃ s2, rb_tree_insert s key ni fuel = some (InsRes.ok, s2) ∧
      rb_tree_find s2 key fuel = some (some ni) := by
  obtain ⟨s2, t2, pre, post, heq, hrep2, hN2, hBst2, hRB2, hts, ht2s,
      -, -, -, -, -⟩ :=
    rb_tree_insert_spec s key ni fuel t hrepr hN hBst hRB hni hk hfuel
  have hmem : (ni, key) ∈ t2.seq := by
    rw [ht2s]
    simp
  have hsz : t2.size ≤ fuel := by
    rw [T.size_eq_seq_length, ht2s]
    have h5 : t.size = t.seq.length := T.size_eq_seq_length t
    rw [hts] at h5
    simp only [List.length_append, List.length_cons] at h5 ⊢
    omega
  have hfind := findLoop_found_spec s2.heap t2 none none none
    s2.tree.root fuel ni key hrep2 hBst2 hmem hsz
  cases t2 with
  | nil => simp at hmem
  | node l j c k2 r =>
    have hx : s2.tree.root = some j := hrep2.1
    refine ⟨s2, heq, ?_⟩
    rw [hx] at hfind
    simp only [rb_tree_find, hx]
    exact hfind

/-- Witness for C6: inserting key 5 at node 1 into the empty state and
finding it again. -/
theorem insert_find_roundtrip_witness :
    reprAt emptySt.heap none emptySt.tree.root T.nil ∧
    T.nil.ids.Nodup ∧ Bst T.nil ∧ RBValid T.nil ∧
    1 ∉ T.nil.ids ∧ (5 : Int) ∉ T.nil.keys ∧ T.nil.size + 1 ≤ 3 ∧
    ∃ s2, rb_tree_insert emptySt 5 1 3 = some (InsRes.ok, s2) ∧
      rb_tree_find s2 5 3 = some (some 1) :=
  ⟨by decide, by decide, trivial, ⟨⟨trivial, trivial⟩, rfl⟩,
    by decide, by decide, by decide,
    insert_find_roundtrip emptySt 5 1 3 T.nil (by decide) (by decide)
      trivial ⟨⟨trivial, trivial⟩, rfl⟩ (by decide) (by decide)
      (by decide)⟩

/-- The miss path of the rb_tree_find_or_insert descent: when the key
is absent, the loop exits at an empty child slot, reporting the slot's
parent and direction, and the rightmost flag records whether every
comparison went right. -/
theorem foiLoop_miss_spec (h : Heap) (key : Int) :
    ∀ (t : T) (lo hi : Option Int) (fuel : Nat) (par : Option Nat)
      (n0 : Nat) (prev : Option Nat) (dir : Nat) (rm : Bool),
      reprAt h par (some n0) t →
      BstB lo hi t →
      (∀ k ∈ t.keys, key ≠ k) →
      LB lo key → UB key hi →
      t.size + 1 ≤ fuel →
      ∃ ctx nd dir2 rm2,
        foiLoop h key fuel (some n0) prev dir rm =
          some (none, some nd, dir2, rm2) ∧
        ctx.plug T.nil = t ∧
        rm2 = (rm && ctx.allR) ∧
        LB (ctx.loB lo) key ∧
        UB key (ctx.hiB hi) ∧
        ((∃ up c k r, ctx = Ctx.goL up nd c k r ∧ dir2 = 0) ∨
         (∃ up l c k, ctx = Ctx.goR up l nd c k ∧ dir2 = 1)) := by
  intro t
  induction t with
  | nil =>
    intro lo hi fuel par n0 prev dir rm ht
    exact absurd ht (by simp)
  | node l i co k r ihl ihr =>
    intro lo hi fuel par n0 prev dir rm ht hB hkeys hlo hhi hsz
    obtain ⟨hn0, hp, hc, hk, hl, hr⟩ := ht
    obtain rfl : i = n0 := (Option.some.inj hn0).symm
    obtain ⟨hBl1, hBu1, hBl, hBr⟩ := hB
    cases fuel with
    | zero => simp only [T.size] at hsz; omega
    | succ fuel =>
      have hkmem : k ∈ (T.node l i co k r).keys := by
        simp [T.keys, T.seq_node]
      have h0 : cmpI key k ≠ 0 :=
        fun hc0 => (hkeys k hkmem) ((cmpI_zero_iff _ _).mp hc0)
      by_cases hlt : cmpI key k < 0
      · -- descend left
        have hklt : key < k := (cmpI_neg_iff _ _).mp hlt
        cases hll : (h.get i).left with
        | none =>
          cases l with
          | node l2 i2 c2 k2 r2 =>
            rw [hll] at hl
            exact absurd hl.1 (by simp)
          | nil =>
            have heq : foiLoop h key (fuel+1) (some i) prev dir rm =
                foiLoop h key fuel none (some i) 0 false := by
              simp only [foiLoop, hk]
              rw [if_pos hlt, hll]
            cases fuel with
            | zero => simp only [T.size] at hsz; omega
            | succ fuel2 =>
              refine ⟨Ctx.goL Ctx.top i co k r, i, 0, false,
                by rw [heq]; rfl, rfl, by simp [Ctx.allR], hlo, hklt,
                Or.inl ⟨Ctx.top, co, k, r, rfl, rfl⟩⟩
        | some l0 =>
          rw [hll] at hl
          obtain ⟨ctx2, nd, dir2, rm2, heq2, hplug, hrm, hLB, hUB,
              hdisj⟩ :=
            ihl lo (some k) fuel (some i) l0 (some i) 0 false hl hBl
              (fun k2 hk2 => hkeys k2
                (by
                  simp only [T.keys, T.seq_node, List.map_append,
                    List.map_cons, List.mem_append, List.mem_cons] at hk2 ⊢
                  tauto))
              hlo hklt (by simp only [T.size] at hsz; omega)
          have heq : foiLoop h key (fuel+1) (some i) prev dir rm =
              foiLoop h key fuel (some l0) (some i) 0 false := by
            simp only [foiLoop, hk]
            rw [if_pos hlt, hll]
          refine ⟨ctx2.appendC (Ctx.goL Ctx.top i co k r), nd, dir2, rm2,
            by rw [heq]; exact heq2, ?_, ?_, ?_, ?_, ?_⟩
          · rw [plug_appendC, hplug]
            rfl
          · simp [allR_appendC, Ctx.allR, hrm]
          · rw [loB_appendC]
            exact hLB
          · rw [hiB_appendC]
            exact hUB
          · rcases hdisj with ⟨up, c3, k3, r3, hctxEq, hdir⟩ |
                ⟨up, l3, c3, k3, hctxEq, hdir⟩
            · exact Or.inl ⟨up.appendC (Ctx.goL Ctx.top i co k r), c3, k3,
                r3, by rw [hctxEq]; rfl, hdir⟩
            · exact Or.inr ⟨up.appendC (Ctx.goL Ctx.top i co k r), l3, c3,
                k3, by rw [hctxEq]; rfl, hdir⟩
      · -- descend right
        have hkgt : k < key := cmpI_gt _ _ hlt h0
        cases hrr : (h.get i).right with
        | none =>
          cases r with
          | node l2 i2 c2 k2 r2 =>
            rw [hrr] at hr
            exact absurd hr.1 (by simp)
          | nil =>
            have heq : foiLoop h key (fuel+1) (some i) prev dir rm =
                foiLoop h key fuel none (some i) 1 rm := by
              simp only [foiLoop, hk]
              rw [if_neg hlt, if_neg h0, hrr]
            cases fuel with
            | zero => simp only [T.size] at hsz; omega
            | succ fuel2 =>
              refine ⟨Ctx.goR Ctx.top l i co k, i, 1, rm,
                by rw [heq]; rfl, rfl, by simp [Ctx.allR], hkgt, hhi,
                Or.inr ⟨Ctx.top, l, co, k, rfl, rfl⟩⟩
        | some r0 =>
          rw [hrr] at hr
          obtain ⟨ctx2, nd, dir2, rm2, heq2, hplug, hrm, hLB, hUB,
              hdisj⟩ :=
            ihr (some k) hi fuel (some i) r0 (some i) 1 rm hr hBr
              (fun k2 hk2 => hkeys k2
                (by
                  simp only [T.keys, T.seq_node, List.map_append,
                    List.map_cons, List.mem_append, List.mem_cons] at hk2 ⊢
                  tauto))
              hkgt hhi (by simp only [T.size] at hsz; omega)
          have heq : foiLoop h key (fuel+1) (some i) prev dir rm =
              foiLoop h key fuel (some r0) (some i) 1 rm := by
            simp only [foiLoop, hk]
            rw [if_neg hlt, if_neg h0, hrr]
          refine ⟨ctx2.appendC (Ctx.goR Ctx.top l i co k), nd, dir2, rm2,
            by rw [heq]; exact heq2, ?_, ?_, ?_, ?_, ?_⟩
          · rw [plug_appendC, hplug]
            rfl
          · simp [allR_appendC, Ctx.allR, hrm]
          · rw [loB_appendC]
            exact hLB
          · rw [hiB_appendC]
            exact hUB
          · rcases hdisj with ⟨up, c3, k3, r3, hctxEq, hdir⟩ |
                ⟨up, l3, c3, k3, hctxEq, hdir⟩
            · exact Or.inl ⟨up.appendC (Ctx.goR Ctx.top l i co k), c3, k3,
                r3, by rw [hctxEq]; rfl, hdir⟩
            · exact Or.inr ⟨up.appendC (Ctx.goR Ctx.top l i co k), l3, c3,
                k3, by rw [hctxEq]; rfl, hdir⟩

/-- C5 (amended): rb_tree_find_or_insert performs one descent.  When a
node with an equal key exists it returns that node, leaving the tree
handle, the laid-out tree and every other heap cell untouched — but the
candidate node's key field has been overwritten.  When the key is
absent (and the candidate's link fields are clear), it links the
candidate at the empty slot found by the descent with the same
coloring, rightmost-cache update and fix-up as rb_tree_insert, and
returns the candidate. -/
theorem find_or_insert_spec (s : St) (key : Int) (ci : Nat) (fuel : Nat)
    (t : T)
    (hrepr : reprAt s.heap none s.tree.root t)
    (hN : t.ids.Nodup) (hBst : Bst t) (hRB : RBValid t)
    (hci : ci ∉ t.ids)
    (hcl : (s.heap.get ci).left = none)
    (hcr : (s.heap.get ci).right = none)
    (hcp : (s.heap.get ci).parent = none)
    (hfuel : t.size + 2 ≤ fuel) :
    (∀ e, rb_tree_find s key fuel = some (some e) →
      ∃ s2, rb_tree_find_or_insert s key ci fuel = some (e, s2) ∧
        s2.tree = s.tree ∧ reprAt s2.heap none s.tree.root t ∧
        (∀ j, j ≠ ci → s2.heap.get j = s.heap.get j) ∧
        s2.heap.get ci = { s.heap.get ci with key := key }) ∧
    (rb_tree_find s key fuel = some none →
      ∃ s2 t2 pre post,
        rb_tree_find_or_insert s key ci fuel = some (ci, s2) ∧
        reprAt s2.heap none s2.tree.root t2 ∧
        t2.ids.Nodup ∧ Bst t2 ∧ RBValid t2 ∧
        t.seq = pre ++ post ∧
        t2.seq = pre ++ (ci, key) :: post ∧
        (∀ p ∈ pre, p.2 < key) ∧ (∀ p ∈ post, key < p.2) ∧
        s2.tree.leftmost = s.tree.leftmost ∧
        (post = [] → s2.tree.rightmost = some ci) ∧
        (post ≠ [] → s2.tree.rightmost = s.tree.rightmost)) := by
  constructor
  · intro e hfound
    obtain ⟨s2, he1, he2, he3, he4, he5, he6⟩ :=
      find_or_insert_found_path s t key ci fuel e hrepr hci hfound
    exact ⟨s2, he1, he2, he3, he5, he6⟩
  · intro hmiss
    cases hroot : s.tree.root with
    | none =>
      have ht : t = T.nil := by
        cases t with
        | nil => rfl
        | node l i c k r =>
          obtain ⟨hx, -⟩ := hrepr
          rw [hroot] at hx
          cases hx
      subst ht
      refine ⟨⟨{ s.tree with root := some ci, rightmost := some ci },
        (s.heap.upd ci
          { s.heap.get ci with key := key }).setColor ci Color.black⟩,
        T.node T.nil ci Color.black key T.nil, [], [],
        ?_, ?_, by simp, ⟨trivial, trivial, trivial, trivial⟩,
        ⟨⟨⟨fun h => Color.noConfusion h, trivial, trivial⟩,
          ⟨trivial, trivial, rfl⟩⟩, rfl⟩,
        rfl, rfl,
        fun p hp => absurd hp (List.not_mem_nil p),
        fun p hp => absurd hp (List.not_mem_nil p),
        rfl, fun _ => rfl, fun hne => absurd rfl hne⟩
      · simp [rb_tree_find_or_insert, hroot]
      · refine ⟨rfl, ?_, ?_, ?_, ?_, ?_⟩ <;>
          simp [Heap.get_upd, hcl, hcr, hcp]
    | some r =>
      have htne : t ≠ T.nil := by
        intro h
        subst h
        rw [hroot] at hrepr
        simp at hrepr
      have hkf : key ∉ t.keys := by
        intro hkm
        rw [T.keys] at hkm
        obtain ⟨p, hpmem, hpk⟩ := List.mem_map.mp hkm
        have hfound := findLoop_found_spec s.heap t none none none
          s.tree.root fuel p.1 key hrepr hBst
          (by rw [← hpk]; simpa using hpmem) (by omega)
        rw [hroot] at hfound
        simp only [rb_tree_find, hroot] at hmiss
        rw [hfound] at hmiss
        simp at hmiss
      obtain ⟨h0, hh0⟩ : ∃ h0 : Heap, h0 =
          s.heap.upd ci { s.heap.get ci with key := key } := ⟨_, rfl⟩
      have hc_ci : h0.get ci =
          ⟨none, none, none, key, (s.heap.get ci).color⟩ := by
        rw [hh0]
        simp [Heap.get_upd, hcl, hcr, hcp]
      have hcells : ∀ j ∈ t.ids, h0.get j = s.heap.get j := by
        intro j hj
        have hjci : j ≠ ci := fun hEq => hci (hEq ▸ hj)
        rw [hh0]
        simp [Heap.get_upd, hjci]
      have hrepr1 : reprAt h0 none (some r) t :=
        reprAt_congr s.heap h0 t hcells none (some r) (hroot ▸ hrepr)
      obtain ⟨ctx, nd, dir2, rm2, hloopEq, hplug, hrmEq, hLB0, hUB0,
          hdisj⟩ :=
        foiLoop_miss_spec h0 key t none none fuel none r none 0 true
          hrepr1 hBst (fun k2 hk2 hEq => hkf (hEq ▸ hk2))
          trivial trivial (by omega)
      simp only [Bool.true_and] at hrmEq
      have hids_t : ctx.preIds ++ ctx.postIds = t.ids := by
        rw [← hplug, ids_plug]
        simp [footprint]
      have hNctx : (ctx.preIds ++ ctx.postIds).Nodup := hids_t.symm ▸ hN
      have hci_ctx : ci ∉ ctx.preIds ++ ctx.postIds := hids_t.symm ▸ hci
      have hN2 : (footprint ctx
          (T.node T.nil ci Color.red key T.nil)).Nodup := by
        have h3 : (ci :: (ctx.preIds ++ ctx.postIds)).Nodup :=
          List.nodup_cons.mpr ⟨hci_ctx, hNctx⟩
        simpa [footprint] using List.nodup_middle.mpr h3
      have hct : ctx ≠ Ctx.top := by
        intro hEq
        rw [hEq] at hplug
        exact htne hplug.symm
      have hctx1 : reprCtx h0 (some r) ctx none :=
        (repr_plug_split h0 (some r) ctx T.nil
          (by rw [hplug]; exact hrepr1)).1
      have hRBplug : RBsub (ctx.plug T.nil) := by
        rw [hplug]
        exact hRB.1
      have hCtxRB0 : CtxRB ctx 0 := (CtxRB_of_plug ctx T.nil hRBplug).1
      have hOB : ctx.outerBlack := by
        apply outerBlack_of_plug _ T.nil
        rw [hplug]
        exact hRB.2
      have hBplug := (BstB_plug none none ctx T.nil).mp
        (by rw [hplug]; exact hBst)
      have hBstM : BstB none none (ctx.plug
          (T.node T.nil ci Color.red key T.nil)) := by
        rw [BstB_plug]
        exact ⟨hBplug.1, hLB0, hUB0, trivial, trivial⟩
      have hdepth : ctx.depth + 1 ≤ fuel := by
        have h4 := depth_size_plug ctx T.nil
        rw [hplug] at h4
        simp [T.size] at h4
        omega
      have hseqt : t.seq = ctx.seqPre ++ ctx.seqPost := by
        rw [← hplug, seq_plug]
        simp
      have hpair := bstB_seq_pairwise _ none none hBstM
      rw [seq_plug] at hpair
      have h5 : List.Pairwise (fun p q : Nat × Int => p.2 < q.2)
          (ctx.seqPre ++ ((ci, key) :: ctx.seqPost)) := by
        simpa using hpair
      have hpre_bound : ∀ p ∈ ctx.seqPre, p.2 < key := by
        intro p hp
        exact (List.pairwise_append.mp h5).2.2 p hp (ci, key) (by simp)
      have hpost_bound : ∀ p ∈ ctx.seqPost, key < p.2 := by
        intro p hp
        exact (List.pairwise_cons.mp
          (List.pairwise_append.mp h5).2.1).1 p hp
      rcases hdisj with ⟨up2, c2, k2, r2, hctxEq, hdirEq⟩ |
        ⟨up2, l2, c2, k2, hctxEq, hdirEq⟩
      · -- linked as a left child: the rightmost flag is false
        subst hctxEq
        subst hdirEq
        have hrm2f : rm2 = false := by
          simp [hrmEq, Ctx.allR]
        subst hrm2f
        obtain ⟨hx0, hp0, hc0, hk0, hr0, hup0⟩ := hctx1
        have hNshape : (up2.preIds ++ [nd] ++
            (r2.ids ++ up2.postIds)).Nodup := by
          simpa [Ctx.preIds, Ctx.postIds] using hNctx
        obtain ⟨-, -, -, hfpre, hfnd⟩ := nodup_append_triple hNshape
        have hnd_r2 : nd ∉ r2.ids :=
          fun hm => hfnd nd (by simp) (by simp [hm])
        have hnd_up2post : nd ∉ up2.postIds :=
          fun hm => hfnd nd (by simp) (by simp [hm])
        have hni4 : ci ∉ up2.preIds ∧ ci ≠ nd ∧ ci ∉ r2.ids ∧
            ci ∉ up2.postIds := by
          simp only [Ctx.preIds, Ctx.postIds, List.mem_append,
            List.mem_cons, not_or] at hci_ctx
          tauto
        have hndci : nd ≠ ci := Ne.symm hni4.2.1
        have hg_nd : ((((h0.setLeft nd (some ci)).setParent ci
            (some nd)).setColor ci Color.red)).get nd =
            { h0.get nd with left := some ci } := by
          simp [hndci]
        have hsubM : reprAt (((h0.setLeft nd (some ci)).setParent ci
            (some nd)).setColor ci Color.red)
            (Ctx.goL up2 nd c2 k2 r2).holePar (some ci)
            (T.node T.nil ci Color.red key T.nil) := by
          refine ⟨rfl, ?_, ?_, ?_, ?_, ?_⟩ <;>
            simp [hni4.2.1, hc_ci, Ctx.holePar]
        have hctxM : reprCtx (((h0.setLeft nd (some ci)).setParent ci
            (some nd)).setColor ci Color.red) (some r)
            (Ctx.goL up2 nd c2 k2 r2) (some ci) := by
          refine ⟨by simp [hg_nd], by simp [hg_nd, hp0],
            by simp [hg_nd, hc0], by simp [hg_nd, hk0], ?_, ?_⟩
          · rw [show ((((h0.setLeft nd (some ci)).setParent ci
                (some nd)).setColor ci Color.red).get nd).right =
                (h0.get nd).right by simp [hg_nd]]
            refine reprAt_congr h0 _ r2 ?_ _ _ hr0
            intro j hj
            have hjnd : j ≠ nd := fun hEq => hnd_r2 (hEq ▸ hj)
            have hjci : j ≠ ci := fun hEq => hni4.2.2.1 (hEq ▸ hj)
            simp [hjnd, hjci]
          · refine reprCtx_congr h0 _ (some r) up2 ?_ (some nd) hup0
            intro j hj
            simp only [List.mem_append] at hj
            have hjnd : j ≠ nd := by
              rcases hj with hj | hj
              · exact fun hEq => (hfpre j hj).1 (by simp [hEq])
              · exact fun hEq => hnd_up2post (hEq ▸ hj)
            have hjci : j ≠ ci := by
              rcases hj with hj | hj
              · exact fun hEq => hni4.1 (hEq ▸ hj)
              · exact fun hEq => hni4.2.2.2 (hEq ▸ hj)
            simp [hjnd, hjci]
        obtain ⟨s2, t2, hrebEq, hrepr2, hseq2, hRB2, hrc2, hBst2, hlm2,
            hrm2c⟩ :=
          insert_rebalance_spec
            ⟨s.tree, ((h0.setLeft nd (some ci)).setParent ci
              (some nd)).setColor ci Color.red⟩
            ci (Ctx.goL up2 nd c2 k2 r2)
            (T.node T.nil ci Color.red key T.nil) fuel hN2
            (hroot.symm ▸ hctxM) hsubM rfl
            ⟨⟨fun _ => ⟨rfl, rfl⟩, trivial, trivial⟩,
              ⟨trivial, trivial, rfl⟩⟩ rfl hCtxRB0 hOB hBstM hct hdepth
        have heqFinal : rb_tree_find_or_insert s key ci fuel =
            some (ci, s2) := by
          simp [rb_tree_find_or_insert, hroot, ← hh0, hloopEq, hrebEq]
        have hN2' : t2.ids.Nodup := by
          rw [T.ids_eq_seq, hseq2, ← T.ids_eq_seq, ids_plug]
          exact hN2
        refine ⟨s2, t2, (Ctx.goL up2 nd c2 k2 r2).seqPre,
          (Ctx.goL up2 nd c2 k2 r2).seqPost, heqFinal, hrepr2, hN2',
          hBst2, ⟨hRB2, hrc2⟩, hseqt,
          by rw [hseq2, seq_plug]; simp,
          hpre_bound, hpost_bound, hlm2, ?_, fun _ => hrm2c⟩
        intro hpe
        exact absurd ((allR_iff_seqPost_nil _).mpr hpe)
          (by simp [Ctx.allR])
      · -- linked as a right child
        subst hctxEq
        subst hdirEq
        obtain ⟨hx0, hp0, hc0, hk0, hl0, hup0⟩ := hctx1
        have hNshape : ((up2.preIds ++ l2.ids) ++ [nd] ++
            up2.postIds).Nodup := by
          simpa [Ctx.preIds, Ctx.postIds, List.append_assoc] using hNctx
        obtain ⟨-, -, -, hfpre, hfnd⟩ := nodup_append_triple hNshape
        have hnd_l2 : nd ∉ l2.ids := fun hm =>
          (hfpre nd (by simp [hm])).1 (by simp)
        have hnd_up2pre : nd ∉ up2.preIds := fun hm =>
          (hfpre nd (by simp [hm])).1 (by simp)
        have hnd_up2post : nd ∉ up2.postIds :=
          fun hm => hfnd nd (by simp) hm
        have hni4 : ci ∉ up2.preIds ∧ ci ∉ l2.ids ∧ ci ≠ nd ∧
            ci ∉ up2.postIds := by
          simp only [Ctx.preIds, Ctx.postIds, List.mem_append,
            List.mem_cons, not_or] at hci_ctx
          tauto
        have hndci : nd ≠ ci := Ne.symm hni4.2.2.1
        have hg_nd : ((((h0.setRight nd (some ci)).setParent ci
            (some nd)).setColor ci Color.red)).get nd =
            { h0.get nd with right := some ci } := by
          simp [hndci]
        have hsubM : reprAt (((h0.setRight nd (some ci)).setParent ci
            (some nd)).setColor ci Color.red)
            (Ctx.goR up2 l2 nd c2 k2).holePar (some ci)
            (T.node T.nil ci Color.red key T.nil) := by
          refine ⟨rfl, ?_, ?_, ?_, ?_, ?_⟩ <;>
            simp [hni4.2.2.1, hc_ci, Ctx.holePar]
        have hctxM : reprCtx (((h0.setRight nd (some ci)).setParent ci
            (some nd)).setColor ci Color.red) (some r)
            (Ctx.goR up2 l2 nd c2 k2) (some ci) := by
          refine ⟨by simp [hg_nd], by simp [hg_nd, hp0],
            by simp [hg_nd, hc0], by simp [hg_nd, hk0], ?_, ?_⟩
          · rw [show ((((h0.setRight nd (some ci)).setParent ci
                (some nd)).setColor ci Color.red).get nd).left =
                (h0.get nd).left by simp [hg_nd]]
            refine reprAt_congr h0 _ l2 ?_ _ _ hl0
            intro j hj
            have hjnd : j ≠ nd := fun hEq => hnd_l2 (hEq ▸ hj)
            have hjci : j ≠ ci := fun hEq => hni4.2.1 (hEq ▸ hj)
            simp [hjnd, hjci]
          · refine reprCtx_congr h0 _ (some r) up2 ?_ (some nd) hup0
            intro j hj
            simp only [List.mem_append] at hj
            have hjnd : j ≠ nd := by
              rcases hj with hj | hj
              · exact fun hEq => hnd_up2pre (hEq ▸ hj)
              · exact fun hEq => hnd_up2post (hEq ▸ hj)
            have hjci : j ≠ ci := by
              rcases hj with hj | hj
              · exact fun hEq => hni4.1 (hEq ▸ hj)
              · exact fun hEq => hni4.2.2.2 (hEq ▸ hj)
            simp [hjnd, hjci]
        cases rm2 with
        | true =>
          obtain ⟨s2, t2, hrebEq, hrepr2, hseq2, hRB2, hrc2, hBst2,
              hlm2, hrm2c⟩ :=
            insert_rebalance_spec
              ⟨{ s.tree with rightmost := some ci },
                ((h0.setRight nd (some ci)).setParent ci
                  (some nd)).setColor ci Color.red⟩ ci
              (Ctx.goR up2 l2 nd c2 k2)
              (T.node T.nil ci Color.red key T.nil) fuel hN2
              (hroot.symm ▸ hctxM) hsubM rfl
              ⟨⟨fun _ => ⟨rfl, rfl⟩, trivial, trivial⟩,
                ⟨trivial, trivial, rfl⟩⟩ rfl hCtxRB0 hOB hBstM hct
              hdepth
          have hrebEq2 : __helper_rb_tree_insert_rebalance fuel
              ⟨⟨some r, s.tree.leftmost, some ci⟩,
                ((h0.setRight nd (some ci)).setParent ci
                  (some nd)).setColor ci Color.red⟩ ci =
              some s2 := by
            rw [← hroot]
            exact hrebEq
          have heqFinal : rb_tree_find_or_insert s key ci fuel =
              some (ci, s2) := by
            simp [rb_tree_find_or_insert, hroot, ← hh0, hloopEq,
              hrebEq2]
          have hN2' : t2.ids.Nodup := by
            rw [T.ids_eq_seq, hseq2, ← T.ids_eq_seq, ids_plug]
            exact hN2
          refine ⟨s2, t2, (Ctx.goR up2 l2 nd c2 k2).seqPre,
            (Ctx.goR up2 l2 nd c2 k2).seqPost, heqFinal, hrepr2, hN2',
            hBst2, ⟨hRB2, hrc2⟩, hseqt,
            by rw [hseq2, seq_plug]; simp,
            hpre_bound, hpost_bound, hlm2, fun _ => hrm2c, ?_⟩
          intro hne
          exact absurd ((allR_iff_seqPost_nil _).mp hrmEq.symm) hne
        | false =>
          obtain ⟨s2, t2, hrebEq, hrepr2, hseq2, hRB2, hrc2, hBst2,
              hlm2, hrm2c⟩ :=
            insert_rebalance_spec
              ⟨s.tree, ((h0.setRight nd (some ci)).setParent ci
                (some nd)).setColor ci Color.red⟩
              ci (Ctx.goR up2 l2 nd c2 k2)
              (T.node T.nil ci Color.red key T.nil) fuel hN2
              (hroot.symm ▸ hctxM) hsubM rfl
              ⟨⟨fun _ => ⟨rfl, rfl⟩, trivial, trivial⟩,
                ⟨trivial, trivial, rfl⟩⟩ rfl hCtxRB0 hOB hBstM hct
              hdepth
          have heqFinal : rb_tree_find_or_insert s key ci fuel =
              some (ci, s2) := by
            simp [rb_tree_find_or_insert, hroot, ← hh0, hloopEq, hrebEq]
          have hN2' : t2.ids.Nodup := by
            rw [T.ids_eq_seq, hseq2, ← T.ids_eq_seq, ids_plug]
            exact hN2
          refine ⟨s2, t2, (Ctx.goR up2 l2 nd c2 k2).seqPre,
            (Ctx.goR up2 l2 nd c2 k2).seqPost, heqFinal, hrepr2, hN2',
            hBst2, ⟨hRB2, hrc2⟩, hseqt,
            by rw [hseq2, seq_plug]; simp,
            hpre_bound, hpost_bound, hlm2, ?_, fun _ => hrm2c⟩
          intro hpe
          exact absurd (hrmEq.trans
            ((allR_iff_seqPost_nil _).mpr hpe)) (by simp)

/-- Witness for C5: tree holding key 5 at node 1; find_or_insert of the
absent key 7 with clean candidate node 2. -/
theorem find_or_insert_spec_witness :
    reprAt oneSt.heap none oneSt.tree.root
      (T.node T.nil 1 Color.black 5 T.nil) ∧
    (T.node T.nil 1 Color.black 5 T.nil).ids.Nodup ∧
    Bst (T.node T.nil 1 Color.black 5 T.nil) ∧
    RBValid (T.node T.nil 1 Color.black 5 T.nil) ∧
    2 ∉ (T.node T.nil 1 Color.black 5 T.nil).ids ∧
    (oneSt.heap.get 2).left = none ∧
    (oneSt.heap.get 2).right = none ∧
    (oneSt.heap.get 2).parent = none ∧
    (T.node T.nil 1 Color.black 5 T.nil).size + 2 ≤ 10 ∧
    ((∀ e, rb_tree_find oneSt 7 10 = some (some e) →
      ∃ s2, rb_tree_find_or_insert oneSt 7 2 10 = some (e, s2) ∧
        s2.tree = oneSt.tree ∧
        reprAt s2.heap none oneSt.tree.root
          (T.node T.nil 1 Color.black 5 T.nil) ∧
        (∀ j, j ≠ 2 → s2.heap.get j = oneSt.heap.get j) ∧
        s2.heap.get 2 = { oneSt.heap.get 2 with key := 7 }) ∧
    (rb_tree_find oneSt 7 10 = some none →
      ∃ s2 t2 pre post,
        rb_tree_find_or_insert oneSt 7 2 10 = some (2, s2) ∧
        reprAt s2.heap none s2.tree.root t2 ∧
        t2.ids.Nodup ∧ Bst t2 ∧ RBValid t2 ∧
        (T.node T.nil 1 Color.black 5 T.nil).seq = pre ++ post ∧
        t2.seq = pre ++ (2, 7) :: post ∧
        (∀ p ∈ pre, p.2 < 7) ∧ (∀ p ∈ post, 7 < p.2) ∧
        s2.tree.leftmost = oneSt.tree.leftmost ∧
        (post = [] → s2.tree.rightmost = some 2) ∧
        (post ≠ [] → s2.tree.rightmost = oneSt.tree.rightmost))) :=
  ⟨by decide, by decide, ⟨trivial, trivial, trivial, trivial⟩,
    ⟨⟨⟨fun h => Color.noConfusion h, trivial, trivial⟩,
      ⟨trivial, trivial, rfl⟩⟩, rfl⟩,
    by decide, by decide, by decide, by decide, by decide,
    find_or_insert_spec oneSt 7 2 10
      (T.node T.nil 1 Color.black 5 T.nil) (by decide) (by decide)
      ⟨trivial, trivial, trivial, trivial⟩
      ⟨⟨⟨fun h => Color.noConfusion h, trivial, trivial⟩,
        ⟨trivial, trivial, rfl⟩⟩, rfl⟩
      (by decide) (by decide) (by decide) (by decide) (by decide)⟩

end Rbt
